import Mathlib

/-!
# PlasmArm: kinematics, planner and actuators of a 2-link planar arm

A shallow embedding of `Kinematics.cpp`, `Planner.cpp`, `StepperMotor.cpp`,
`ServoMotor.cpp` and the command dispatch and motion control loops of `main.cpp`.

Conventions of the embedding:

* C++ `float` values are real numbers; rounding, infinities and NaN are outside the
  model, except in the section on binary32 arithmetic, which repeats in rounded arithmetic
  the operations whose rounding decides what the code does.  `M_PI` is `Real.pi`,
  `sqrt`/`sin`/`cos`/`acos`/`asin` are the real functions, and `atan2 y x` is the argument of
  the complex number `x + y i`.
* `a / b` is the division of `ℝ`.  The only divisor of the kinematics that can vanish
  on a reachable target is the radius `r` (at the origin when `L1 = L2`); the lemma
  `Kinematics.forward_folded` shows that the value of `theta1` is irrelevant there.
* `int` and `long` values are integers; the conversion `(int) x` is limited to the range of
  a 32-bit `int`, and the `int` addition of `planPath` wraps at 32 bits.  `unsigned long`
  timestamps are naturals and their difference is taken modulo `2 ^ 32`.
* A `bool` result with an out-parameter is an `Option`.
* `while` loops over reals are functions defined by well-founded recursion, so they
  are total; the binary32 versions of the normalisation loops take a bound on the number of
  iterations and return `none` when it is exhausted.
-/

namespace PlasmArm

/-! ## Types.h -/

/-- Cartesian point, `struct Point2D`. -/
structure Point2D where
  x : ℝ
  y : ℝ

/-- Joint angles in degrees, `struct JointAngles`. -/
structure JointAngles where
  theta1 : ℝ
  theta2 : ℝ

/-! ## Config.h -/

/-- Length of the first link, `ARM_LENGTH_1`. -/
def ARM_LENGTH_1 : ℝ := 150

/-- Length of the second link, `ARM_LENGTH_2`. -/
def ARM_LENGTH_2 : ℝ := 150

/-- Default planner speed in mm/s, `DEFAULT_SPEED`. -/
def DEFAULT_SPEED : ℝ := 50

/-- Largest planner speed in mm/s, `MAX_SPEED`. -/
def MAX_SPEED : ℝ := 100

/-- Default acceleration, `ACCELERATION`. -/
def ACCELERATION : ℝ := 200

/-- Jerk limit, `JERK_LIMIT`. -/
def JERK_LIMIT : ℝ := 500

/-- Milliseconds between interpolated points, `INTERPOLATION_INTERVAL_MS`. -/
def INTERPOLATION_INTERVAL_MS : ℝ := 10

/-- Shortest segment that is interpolated, `MIN_SEGMENT_LENGTH`. -/
noncomputable def MIN_SEGMENT_LENGTH : ℝ := 0.1

/-- Full steps per revolution, `STEPS_PER_REVOLUTION`. -/
def STEPS_PER_REVOLUTION : ℝ := 200

/-- Microstepping factor, `MICROSTEPS`. -/
def MICROSTEPS : ℝ := 16

/-- Steps per degree, `STEPS_PER_DEGREE = (STEPS_PER_REVOLUTION * MICROSTEPS) / 360.0f`. -/
noncomputable def STEPS_PER_DEGREE : ℝ := (STEPS_PER_REVOLUTION * MICROSTEPS) / 360

/-! ## Angle normalisation loops -/

/-- The loop `while (a < 0) a += 360.0f;`. -/
noncomputable def addWhileNegative (a : ℝ) : ℝ :=
  if a < 0 then addWhileNegative (a + 360) else a
termination_by (⌈-a / 360⌉).toNat
decreasing_by
  have e : -(a + 360) / 360 = -a / 360 - 1 := by ring
  rw [e, Int.ceil_sub_one]
  have hpos : 0 < ⌈-a / 360⌉ := Int.ceil_pos.mpr (by linarith)
  omega

/-- The loop `while (a >= 360.0f) a -= 360.0f;`. -/
noncomputable def subWhileAtLeast360 (a : ℝ) : ℝ :=
  if 360 ≤ a then subWhileAtLeast360 (a - 360) else a
termination_by (⌊a / 360⌋).toNat
decreasing_by
  have e : (a - 360) / 360 = a / 360 - 1 := by ring
  rw [e, Int.floor_sub_one]
  have hpos : 0 < ⌊a / 360⌋ := Int.floor_pos.mpr (by linarith)
  omega

/-- Both normalisation loops in the order the source runs them, in exact arithmetic
(`addWhileNegativeF` and `subWhileAtLeast360F` are the binary32 versions). -/
noncomputable def normalize360 (a : ℝ) : ℝ :=
  subWhileAtLeast360 (addWhileNegative a)

/-! ## Kinematics.cpp -/

/-- The library function `atan2(y, x)` in radians. -/
noncomputable def atan2 (y x : ℝ) : ℝ := Complex.arg ⟨x, y⟩

/-- A kinematics instance holds the two link lengths. -/
structure Kinematics where
  L1 : ℝ
  L2 : ℝ

namespace Kinematics

/-- The instance the firmware builds: `Kinematics(ARM_LENGTH_1, ARM_LENGTH_2)`. -/
def configured : Kinematics := ⟨ARM_LENGTH_1, ARM_LENGTH_2⟩

/-- The method `Kinematics::setArmLengths`. -/
def setArmLengths (_k : Kinematics) (l1 l2 : ℝ) : Kinematics := ⟨l1, l2⟩

/-- The method `Kinematics::getMaxReach`. -/
def getMaxReach (k : Kinematics) : ℝ := k.L1 + k.L2

/-- The method `Kinematics::getMinReach`. -/
def getMinReach (k : Kinematics) : ℝ := |k.L1 - k.L2|

/-- The method `Kinematics::isReachable`. -/
noncomputable def isReachable (k : Kinematics) (point : Point2D) : Bool :=
  let r := Real.sqrt (point.x * point.x + point.y * point.y)
  decide (r ≤ k.L1 + k.L2 ∧ r ≥ |k.L1 - k.L2|)

/-- The method `Kinematics::inverse`; `none` is the `return false` branch.  At `r = 0` (the
origin, when `L1 = L2`) the quotient `sinBeta` is `x / 0 = 0` here, which gives `theta1 = 0`;
the binary32 code divides a tiny negative sine by zero and clamps the infinity to `-1`, which
gives `theta1 = 90`.  With `theta2 = 180` both describe the same folded arm. -/
noncomputable def inverse (k : Kinematics) (target : Point2D) : Option JointAngles :=
  let x := target.x
  let y := target.y
  let r := Real.sqrt (x * x + y * y)
  if r > k.L1 + k.L2 ∨ r < |k.L1 - k.L2| then none
  else
    let cosTheta2 := (r * r - k.L1 * k.L1 - k.L2 * k.L2) / (2 * k.L1 * k.L2)
    let cosTheta2 := if cosTheta2 > 1 then 1 else cosTheta2
    let cosTheta2 := if cosTheta2 < -1 then -1 else cosTheta2
    let theta2Rad := Real.arccos cosTheta2
    let theta2 := theta2Rad * 180 / Real.pi
    let alpha := atan2 y x * 180 / Real.pi
    let sinBeta := (k.L2 * Real.sin theta2Rad) / r
    let sinBeta := if sinBeta > 1 then 1 else sinBeta
    let sinBeta := if sinBeta < -1 then -1 else sinBeta
    let betaRad := Real.arcsin sinBeta
    let beta := betaRad * 180 / Real.pi
    let theta1 := alpha - beta
    some ⟨normalize360 theta1, normalize360 theta2⟩

/-- The two divisors of `Kinematics::inverse` on a target: `2.0f * L1 * L2` in the
law-of-cosines step and the radius `r` in the law-of-sines step. -/
noncomputable def inverseDivisors (k : Kinematics) (target : Point2D) : ℝ × ℝ :=
  (2 * k.L1 * k.L2, Real.sqrt (target.x * target.x + target.y * target.y))

/-- The method `Kinematics::forward`. -/
noncomputable def forward (k : Kinematics) (angles : JointAngles) : Point2D :=
  let theta1Rad := angles.theta1 * Real.pi / 180
  let theta2Rad := angles.theta2 * Real.pi / 180
  ⟨k.L1 * Real.cos theta1Rad + k.L2 * Real.cos (theta1Rad + theta2Rad),
   k.L1 * Real.sin theta1Rad + k.L2 * Real.sin (theta1Rad + theta2Rad)⟩

end Kinematics

/-! ## Planner.cpp -/

/-- Largest value of an `int` (32 bits), `INT_MAX`. -/
def INT_MAX : ℤ := 2147483647

/-- Smallest value of an `int` (32 bits), `INT_MIN`. -/
def INT_MIN : ℤ := -2147483648

/-- The value a 32-bit two's complement `int` holds after an operation whose exact result
is `z`. -/
def wrapInt (z : ℤ) : ℤ := (z + 2147483648) % 4294967296 - 2147483648

/-- The conversion `(int) x` (and `(long) x`, 32 bits on the target) of a real: truncation
toward zero.  For a value outside the range of `int` C++ leaves the result undefined; the
embedding takes what the conversion instruction of the target's floating-point unit gives,
the nearest end of the range. -/
noncomputable def truncToInt (x : ℝ) : ℤ :=
  if x ≥ 2147483648 then INT_MAX
  else if x ≤ -2147483649 then INT_MIN
  else if 0 ≤ x then ⌊x⌋ else ⌈x⌉

/-- The planner object, `class Planner`. -/
structure Planner where
  speed : ℝ
  acceleration : ℝ
  interpolationInterval : ℝ
  useSCurve : Bool
  jerkLimit : ℝ

namespace Planner

/-- The constructor `Planner::Planner(speed, acceleration)`. -/
noncomputable def new (speed acceleration : ℝ) : Planner :=
  ⟨speed, acceleration, INTERPOLATION_INTERVAL_MS / 1000, false, JERK_LIMIT⟩

/-- The method `Planner::setSpeed`. -/
noncomputable def setSpeed (p : Planner) (speed : ℝ) : Planner :=
  let p := { p with speed := speed }
  let p := if p.speed > MAX_SPEED then { p with speed := MAX_SPEED } else p
  if p.speed < 0 then { p with speed := 0 } else p

/-- The method `Planner::distance`. -/
noncomputable def distance (p1 p2 : Point2D) : ℝ :=
  let dx := p2.x - p1.x
  let dy := p2.y - p1.y
  Real.sqrt (dx * dx + dy * dy)

/-- The point pushed in iteration `i` of the interpolation loop, in exact arithmetic
(`interpolateF` is the binary32 version). -/
noncomputable def interpolate (start finish : Point2D) (numPoints i : ℤ) : Point2D :=
  let t := (i : ℝ) / (numPoints : ℝ)
  ⟨start.x + t * (finish.x - start.x), start.y + t * (finish.y - start.y)⟩

/-- The loop `for (int i = ..; i <= numPoints; i++) motionQueue.push(point)`, entered with
the counter at `i`. -/
noncomputable def interpolationLoop (start finish : Point2D) (numPoints i : ℤ)
    (motionQueue : List Point2D) : List Point2D :=
  if i ≤ numPoints then
    interpolationLoop start finish numPoints (i + 1)
      (motionQueue ++ [interpolate start finish numPoints i])
  else motionQueue
termination_by (numPoints + 1 - i).toNat
decreasing_by omega

/-- The value of the local `int numPoints` of `planPath` when the interpolation loop starts:
`(int)(totalTime / interpolationInterval) + 1`, an `int` addition, raised to 2 when it is
smaller. -/
noncomputable def numPoints (p : Planner) (start finish : Point2D) : ℤ :=
  let totalTime := distance start finish / p.speed
  let numPoints := wrapInt (truncToInt (totalTime / p.interpolationInterval) + 1)
  if numPoints < 2 then 2 else numPoints

/-- The method `Planner::planPath`: the returned count and the queue after the pushes.  The
loop counter and the returned `numPoints + 1` stay in the range of `int` unless `numPoints` is
`INT_MAX`, which needs a quotient in `[2147483646, 2147483647)`; binary32 has no value
there. -/
noncomputable def planPath (p : Planner) (start finish : Point2D)
    (motionQueue : List Point2D) : ℤ × List Point2D :=
  let dist := distance start finish
  if dist < MIN_SEGMENT_LENGTH then
    (1, motionQueue ++ [finish])
  else
    let totalTime := dist / p.speed
    let numPoints := wrapInt (truncToInt (totalTime / p.interpolationInterval) + 1)
    let numPoints := if numPoints < 2 then 2 else numPoints
    (numPoints + 1, interpolationLoop start finish numPoints 0 motionQueue)

end Planner

/-! ## Timestamps -/

/-- Number of values of an `unsigned long` (32 bits on the target). -/
def ULONG_RANGE : ℕ := 4294967296

/-- Difference `a - b` of two `unsigned long` values. -/
def ulongSub (a b : ℕ) : ℕ := (a % ULONG_RANGE + ULONG_RANGE - b % ULONG_RANGE) % ULONG_RANGE

/-- The conversion `(unsigned long) x` of a non-negative real. -/
noncomputable def truncToNat (x : ℝ) : ℕ := (⌊x⌋).toNat

/-! ## StepperMotor.cpp

Pin numbers and pin levels (`digitalWrite`) are hardware output and not part of the state. -/

/-- The state of a `StepperMotor`. -/
structure StepperMotor where
  currentAngle : ℝ
  targetAngle : ℝ
  speed : ℝ
  enabled : Bool
  isMovingFlag : Bool
  currentStep : ℤ
  targetStep : ℤ
  lastStepTime : ℕ
  stepInterval : ℕ

namespace StepperMotor

/-- The constructor `StepperMotor::StepperMotor`. -/
def fresh : StepperMotor :=
  { currentAngle := 0, targetAngle := 0, speed := 100, enabled := false,
    isMovingFlag := false, currentStep := 0, targetStep := 0, lastStepTime := 0,
    stepInterval := 0 }

/-- The method `StepperMotor::angleToSteps`. -/
noncomputable def angleToSteps (angle : ℝ) : ℤ := truncToInt (angle * STEPS_PER_DEGREE)

/-- The method `StepperMotor::stepsToAngle`. -/
noncomputable def stepsToAngle (steps : ℤ) : ℝ := (steps : ℝ) / STEPS_PER_DEGREE

/-- The method `StepperMotor::disable`. -/
def disable (m : StepperMotor) : StepperMotor :=
  { m with enabled := false, isMovingFlag := false }

/-- The method `StepperMotor::enable`. -/
def enable (m : StepperMotor) : StepperMotor :=
  { m with enabled := true }

/-- The method `StepperMotor::init`. -/
noncomputable def init (m : StepperMotor) : StepperMotor :=
  let m := m.disable
  if m.speed > 0 then { m with stepInterval := truncToNat (1000000 / m.speed) } else m

/-- The method `StepperMotor::setSpeed`. -/
noncomputable def setSpeed (m : StepperMotor) (speed : ℝ) : StepperMotor :=
  let m := { m with speed := speed }
  if speed > 0 then { m with stepInterval := truncToNat (1000000 / speed) }
  else { m with stepInterval := 0 }

/-- The method `StepperMotor::moveToAngle`. -/
noncomputable def moveToAngle (m : StepperMotor) (angle : ℝ) : StepperMotor :=
  let angle := normalize360 angle
  let m := { m with targetAngle := angle, targetStep := angleToSteps angle }
  { m with isMovingFlag := decide (m.targetStep ≠ m.currentStep) }

/-- The method `StepperMotor::getCurrentAngle`. -/
def getCurrentAngle (m : StepperMotor) : ℝ := m.currentAngle

/-- The method `StepperMotor::isEnabled`. -/
def isEnabled (m : StepperMotor) : Bool := m.enabled

/-- The method `StepperMotor::isMoving`. -/
def isMoving (m : StepperMotor) : Bool := m.isMovingFlag && m.enabled

/-- The method `StepperMotor::stop`. -/
def stop (m : StepperMotor) : StepperMotor :=
  { m with targetStep := m.currentStep, targetAngle := m.currentAngle, isMovingFlag := false }

/-- The method `StepperMotor::update`; `currentTime` is the value `micros()` returns. -/
noncomputable def update (m : StepperMotor) (currentTime : ℕ) : StepperMotor :=
  if !m.enabled || !m.isMovingFlag then m
  else if ulongSub currentTime m.lastStepTime ≥ m.stepInterval then
    if m.currentStep ≠ m.targetStep then
      let m := if m.targetStep > m.currentStep then { m with currentStep := m.currentStep + 1 }
        else { m with currentStep := m.currentStep - 1 }
      let m := { m with currentAngle := stepsToAngle m.currentStep }
      { m with lastStepTime := currentTime }
    else
      { m with isMovingFlag := false, currentAngle := m.targetAngle }
  else m

end StepperMotor

/-- The calls a client can make on a `StepperMotor`; `update` carries the clock reading. -/
inductive StepperCall where
  | init
  | enable
  | disable
  | setSpeed (speed : ℝ)
  | moveToAngle (angle : ℝ)
  | stop
  | update (currentTime : ℕ)

namespace StepperMotor

/-- One call on a stepper motor. -/
noncomputable def call (m : StepperMotor) : StepperCall → StepperMotor
  | .init => m.init
  | .enable => m.enable
  | .disable => m.disable
  | .setSpeed v => m.setSpeed v
  | .moveToAngle a => m.moveToAngle a
  | .stop => m.stop
  | .update t => m.update t

/-- A sequence of calls, first call first. -/
noncomputable def run (m : StepperMotor) (calls : List StepperCall) : StepperMotor :=
  calls.foldl call m

/-- Successive `update()` calls at the given clock readings. -/
noncomputable def updates (m : StepperMotor) : List ℕ → StepperMotor
  | [] => m
  | t :: ts => updates (m.update t) ts

/-- Every one of the successive `update()` calls passes the step-interval time gate
`currentTime - lastStepTime >= stepInterval`. -/
def gatesPass (m : StepperMotor) : List ℕ → Prop
  | [] => True
  | t :: ts => ulongSub t m.lastStepTime ≥ m.stepInterval ∧ gatesPass (m.update t) ts

/-- Step counters agree with the angles they stand for, and both angles lie in `[0, 360)`:
the invariant of the states reachable from construction. -/
def Consistent (m : StepperMotor) : Prop :=
  m.currentStep = ⌊m.currentAngle * STEPS_PER_DEGREE⌋ ∧
  m.targetStep = ⌊m.targetAngle * STEPS_PER_DEGREE⌋ ∧
  (0 ≤ m.currentAngle ∧ m.currentAngle < 360) ∧ (0 ≤ m.targetAngle ∧ m.targetAngle < 360)

/-- Scenario: the motor after `enable(); moveToAngle(10);` and 89 calls of `update()`. -/
@[irreducible] noncomputable def atTenDegrees : StepperMotor :=
  ((fresh.run [StepperCall.enable, StepperCall.moveToAngle 10]).updates (List.replicate 89 0))

end StepperMotor

/-! ## ServoMotor.cpp

The `Servo` object and its `write` calls are hardware output and not part of the state. -/

/-- The state of a `ServoMotor`. -/
structure ServoMotor where
  currentAngle : ℝ
  targetAngle : ℝ
  speed : ℝ
  enabled : Bool
  isMovingFlag : Bool
  lastUpdateTime : ℕ
  lastAngle : ℝ

namespace ServoMotor

/-- The constructor `ServoMotor::ServoMotor`. -/
def fresh : ServoMotor :=
  { currentAngle := 0, targetAngle := 0, speed := 90, enabled := false,
    isMovingFlag := false, lastUpdateTime := 0, lastAngle := 0 }

/-- The method `ServoMotor::disable`. -/
def disable (m : ServoMotor) : ServoMotor :=
  { m with enabled := false, isMovingFlag := false }

/-- The method `ServoMotor::init`. -/
def init (m : ServoMotor) : ServoMotor := m.disable

/-- The method `ServoMotor::setSpeed`. -/
def setSpeed (m : ServoMotor) (speed : ℝ) : ServoMotor :=
  { m with speed := speed }

/-- The method `ServoMotor::moveToAngle`; `now` is the value `millis()` returns. -/
noncomputable def moveToAngle (m : ServoMotor) (angle : ℝ) (now : ℕ) : ServoMotor :=
  let angle := normalize360 angle
  let angle := if angle > 180 then 180 else angle
  let angle := if angle < 0 then 0 else angle
  let m := { m with targetAngle := angle }
  let m := { m with isMovingFlag := decide (|m.targetAngle - m.currentAngle| > 0.5) }
  let m := { m with lastUpdateTime := now }
  { m with lastAngle := m.currentAngle }

/-- The method `ServoMotor::getCurrentAngle`. -/
def getCurrentAngle (m : ServoMotor) : ℝ := m.currentAngle

/-- The method `ServoMotor::enable`. -/
def enable (m : ServoMotor) : ServoMotor :=
  { m with enabled := true }

/-- The method `ServoMotor::isEnabled`. -/
def isEnabled (m : ServoMotor) : Bool := m.enabled

/-- The method `ServoMotor::isMoving`. -/
def isMoving (m : ServoMotor) : Bool := m.isMovingFlag && m.enabled

/-- The method `ServoMotor::stop`. -/
def stop (m : ServoMotor) : ServoMotor :=
  { m with targetAngle := m.currentAngle, isMovingFlag := false }

/-- The method `ServoMotor::update`; `currentTime` is the value `millis()` returns. -/
noncomputable def update (m : ServoMotor) (currentTime : ℕ) : ServoMotor :=
  if !m.enabled || !m.isMovingFlag then m
  else
    let deltaTime := (ulongSub currentTime m.lastUpdateTime : ℝ) / 1000
    if deltaTime > 0 then
      let maxAngleChange := m.speed * deltaTime
      let angleDiff := m.targetAngle - m.currentAngle
      let angleDiff := if angleDiff > 180 then angleDiff - 360
        else if angleDiff < -180 then angleDiff + 360 else angleDiff
      let m := if |angleDiff| ≤ maxAngleChange then
          { m with currentAngle := m.targetAngle, isMovingFlag := false }
        else if angleDiff > 0 then { m with currentAngle := m.currentAngle + maxAngleChange }
        else { m with currentAngle := m.currentAngle - maxAngleChange }
      let m := { m with currentAngle := normalize360 m.currentAngle }
      let m := if m.currentAngle > 180 then { m with currentAngle := 180 } else m
      let m := if m.currentAngle < 0 then { m with currentAngle := 0 } else m
      let m := { m with lastUpdateTime := currentTime }
      { m with lastAngle := m.currentAngle }
    else m

end ServoMotor

/-- The calls a client can make on a `ServoMotor`; `moveToAngle` and `update` carry the clock
reading. -/
inductive ServoCall where
  | init
  | enable
  | disable
  | setSpeed (speed : ℝ)
  | moveToAngle (angle : ℝ) (now : ℕ)
  | stop
  | update (currentTime : ℕ)

namespace ServoMotor

/-- One call on a servo motor. -/
noncomputable def call (m : ServoMotor) : ServoCall → ServoMotor
  | .init => m.init
  | .enable => m.enable
  | .disable => m.disable
  | .setSpeed v => m.setSpeed v
  | .moveToAngle a t => m.moveToAngle a t
  | .stop => m.stop
  | .update t => m.update t

/-- A sequence of calls, first call first. -/
noncomputable def run (m : ServoMotor) (calls : List ServoCall) : ServoMotor :=
  calls.foldl call m

/-- Successive `update()` calls at the given clock readings. -/
noncomputable def updates (m : ServoMotor) : List ℕ → ServoMotor
  | [] => m
  | t :: ts => updates (m.update t) ts

/-- Both angles of the servo lie in its range `[0, 180]`: the invariant of the states
reachable from construction. -/
def InRange (m : ServoMotor) : Prop :=
  (0 ≤ m.currentAngle ∧ m.currentAngle ≤ 180) ∧ (0 ≤ m.targetAngle ∧ m.targetAngle ≤ 180)

end ServoMotor

/-! ## main.cpp: the command dispatch loop (`taskTrajectoryPlanner`)

The task handles one command per iteration of its loop.  The motion queue is shared with the
motion control task, which removes points concurrently; what the dispatch loop can observe
of that task is how long a send has to wait for room in the queue.  That wait is an input of
the model: send number `i` of a command finds room after `waits i` milliseconds (`none`:
never).  Log output (`Serial`) is not part of the state. -/

/-- Robot state information, `struct RobotState`. -/
structure RobotState where
  currentPosition : Point2D
  currentAngles : JointAngles
  isMoving : Bool
  isHomed : Bool

/-- The constructor `RobotState::RobotState`. -/
def RobotState.initial : RobotState :=
  { currentPosition := ⟨0, 0⟩, currentAngles := ⟨0, 0⟩, isMoving := false, isHomed := false }

/-- The command kinds, `enum Command::Type`. -/
inductive CommandType where
  | MOVE_TO
  | MOVE_RELATIVE
  | HOME
  | SET_SPEED
  | STOP

/-- A command from the web interface, `struct Command`. -/
structure Command where
  type : CommandType
  target : Point2D
  speed : ℝ

/-- Capacity of the motion queue, `MOTION_QUEUE_SIZE`. -/
def MOTION_QUEUE_SIZE : ℕ := 50

/-- The FreeRTOS call `xQueueSend(queue, &item, ticksToWait)` on a queue that has room after
`wait` milliseconds (`none`: never).  `ticksToWait = none` is `portMAX_DELAY`.  The result is
the returned flag (`true` for `pdTRUE`) and the queue; `none` when the call never returns. -/
def xQueueSend (queue : List Point2D) (item : Point2D) (ticksToWait : Option ℕ)
    (wait : Option ℕ) : Option (Bool × List Point2D) :=
  match wait, ticksToWait with
  | some w, some t => if w ≤ t then some (true, queue ++ [item]) else some (false, queue)
  | some _, none => some (true, queue ++ [item])
  | none, some _ => some (false, queue)
  | none, none => none

/-- The loop `while (!localQueue.empty()) { point = front; pop; xQueueSend(motionQueue, &point,
ticksToWait); }` of the dispatch task; `i` numbers the sends of the command.  A send that
returns `false` only logs a warning (or nothing), so the point is dropped. -/
def sendAll (waits : ℕ → Option ℕ) (ticksToWait : Option ℕ) :
    ℕ → List Point2D → List Point2D → Option (List Point2D)
  | _, [], motionQueue => some motionQueue
  | i, point :: localQueue, motionQueue =>
    match xQueueSend motionQueue point ticksToWait (waits i) with
    | none => none
    | some (_, motionQueue) => sendAll waits ticksToWait (i + 1) localQueue motionQueue

/-- What the dispatch task owns or writes: the global planner, its local `currentPos`, the
motion queue and the global `robotState`. -/
structure DispatchState where
  planner : Planner
  currentPos : Point2D
  motionQueue : List Point2D
  robotState : RobotState

namespace DispatchState

/-- The state when `taskTrajectoryPlanner` starts: `Planner(DEFAULT_SPEED, ACCELERATION)`,
`currentPos = robotState.currentPosition`, empty queue. -/
noncomputable def initial : DispatchState :=
  { planner := Planner.new DEFAULT_SPEED ACCELERATION,
    currentPos := RobotState.initial.currentPosition,
    motionQueue := [],
    robotState := RobotState.initial }

/-- The body of `case Command::MOVE_TO`. -/
noncomputable def moveTo (kin : Kinematics) (waits : ℕ → Option ℕ) (s : DispatchState)
    (cmd : Command) : Option DispatchState :=
  let target := cmd.target
  if !kin.isReachable target then some s
  else
    let planner := if cmd.speed > 0 then s.planner.setSpeed cmd.speed else s.planner
    let localQueue := (planner.planPath s.currentPos target []).2
    match sendAll waits (some 100) 0 localQueue s.motionQueue with
    | none => none
    | some motionQueue =>
      some { planner := planner, currentPos := target, motionQueue := motionQueue,
             robotState := { s.robotState with currentPosition := target } }

/-- The body of `case Command::HOME`. -/
noncomputable def home (waits : ℕ → Option ℕ) (s : DispatchState) : Option DispatchState :=
  let homePos : Point2D := ⟨0, 0⟩
  let localQueue := (s.planner.planPath s.currentPos homePos []).2
  match sendAll waits none 0 localQueue s.motionQueue with
  | none => none
  | some motionQueue =>
    some { planner := s.planner, currentPos := homePos, motionQueue := motionQueue,
           robotState := { s.robotState with currentPosition := homePos, isHomed := true } }

/-- The body of `case Command::STOP`. -/
def stop (s : DispatchState) : DispatchState :=
  { s with motionQueue := [], robotState := { s.robotState with isMoving := false } }

/-- The body of `case Command::SET_SPEED`. -/
noncomputable def setSpeed (s : DispatchState) (cmd : Command) : DispatchState :=
  { s with planner := s.planner.setSpeed cmd.speed }

/-- One iteration of the loop of `taskTrajectoryPlanner` on a received command: the
`switch (cmd.type)`.  `kin` is the global `kinematics`; the result is `none` when the
iteration never finishes. -/
noncomputable def handleCommand (kin : Kinematics) (waits : ℕ → Option ℕ) (s : DispatchState)
    (cmd : Command) : Option DispatchState :=
  match cmd.type with
  | CommandType.MOVE_TO => moveTo kin waits s cmd
  | CommandType.HOME => home waits s
  | CommandType.STOP => some (stop s)
  | CommandType.SET_SPEED => some (setSpeed s cmd)
  | CommandType.MOVE_RELATIVE => some s

end DispatchState

/-! ## main.cpp: the motion control loop (`taskMotionControl`) and the whole firmware state

The motion control task runs one iteration of its loop per period.  The two motors are the
`StepperMotor` instances that `setup()` creates; their `update()` reads the clock
(`micros()`), and the two readings of an iteration are inputs of the model.  The call
`webServer.broadcastStatus(robotState)` is output: an iteration returns the snapshot it
broadcasts, if any. -/

/-- Frequency of the motion control loop in Hz, `MOTION_CONTROL_FREQUENCY`. -/
def MOTION_CONTROL_FREQUENCY : ℤ := 100

/-- Period of the motion control loop in milliseconds: the argument
`1000 / MOTION_CONTROL_FREQUENCY` (integer division) of `pdMS_TO_TICKS` in `loopDelay`. -/
def loopDelay : ℤ := 1000 / MOTION_CONTROL_FREQUENCY

/-- Everything the two tasks read or write: the state of the dispatch task (the global
`planner`, its local `currentPos`, the shared `motionQueue` and the global `robotState`),
the two motors and the `static int statusCounter` of the motion control task. -/
structure Firmware where
  dispatch : DispatchState
  motor1 : StepperMotor
  motor2 : StepperMotor
  statusCounter : ℤ

namespace Firmware

/-- The state after `setup()`: both motors constructed, `init()` and `enable()` called. -/
noncomputable def initial : Firmware :=
  { dispatch := DispatchState.initial,
    motor1 := StepperMotor.fresh.init.enable,
    motor2 := StepperMotor.fresh.init.enable,
    statusCounter := 0 }

/-- One iteration of the loop of `taskTrajectoryPlanner` on the whole state: the task does not
refer to the motors, and the status counter is local to `taskMotionControl`. -/
noncomputable def handleCommand (kin : Kinematics) (waits : ℕ → Option ℕ) (f : Firmware)
    (cmd : Command) : Option Firmware :=
  (DispatchState.handleCommand kin waits f.dispatch cmd).map
    (fun d => { f with dispatch := d })

/-- The global `robotState` with the flag `isMoving` assigned. -/
def setIsMoving (f : Firmware) (b : Bool) : Firmware :=
  { f with dispatch := { f.dispatch with robotState := { f.dispatch.robotState with
      isMoving := b } } }

/-- One iteration of the loop of `taskMotionControl`.  `kin` is the global `kinematics`;
`t1` and `t2` are the clock readings of `motor1->update()` and `motor2->update()`.  The result
is the new state and the snapshot passed to `broadcastStatus`, if the iteration broadcasts. -/
noncomputable def motionTick (kin : Kinematics) (f : Firmware) (t1 t2 : ℕ) :
    Firmware × Option RobotState :=
  let f : Firmware :=
    match f.dispatch.motionQueue with
    | targetPoint :: rest =>
      let f : Firmware := { f with dispatch := { f.dispatch with motionQueue := rest } }
      let f := f.setIsMoving true
      match kin.inverse targetPoint with
      | some targetAngles =>
        let f := { f with motor1 := f.motor1.moveToAngle targetAngles.theta1 }
        let f := { f with motor2 := f.motor2.moveToAngle targetAngles.theta2 }
        { f with dispatch := { f.dispatch with robotState := { f.dispatch.robotState with
            currentAngles := targetAngles, currentPosition := targetPoint } } }
      | none => f
    | [] => f.setIsMoving (f.motor1.isMoving || f.motor2.isMoving)
  let f := { f with motor1 := f.motor1.update t1 }
  let f := { f with motor2 := f.motor2.update t2 }
  let f := { f with statusCounter := f.statusCounter + 1 }
  if f.statusCounter ≥ 10 then ({ f with statusCounter := 0 }, some f.dispatch.robotState)
  else (f, none)

/-- Successive iterations of the loop of `taskMotionControl` at the given pairs of clock
readings: the final state and, per iteration, the snapshot it broadcasts. -/
noncomputable def motionTicks (kin : Kinematics) (f : Firmware) :
    List (ℕ × ℕ) → Firmware × List (Option RobotState)
  | [] => (f, [])
  | t :: ts =>
    let r := motionTick kin f t.1 t.2
    let rs := motionTicks kin r.1 ts
    (rs.1, r.2 :: rs.2)

end Firmware

/-! ## binary32 arithmetic

The definitions above compute with real numbers.  Where the rounding of `float` decides what
the code does, the operation is repeated here in binary32: every `float` operation returns
the representable value nearest to the exact result (ties to the even significand).  Only
values of normal magnitude occur; overflow to infinity and subnormal values are not
modelled. -/

/-- Rounding of a real to the nearest integer, a tie to the even one. -/
noncomputable def roundHalfEven (q : ℝ) : ℤ :=
  if Int.fract q < 1 / 2 then ⌊q⌋
  else if Int.fract q > 1 / 2 then ⌊q⌋ + 1
  else if Even ⌊q⌋ then ⌊q⌋ else ⌊q⌋ + 1

/-- The binary32 value nearest to `x`: for `2 ^ e ≤ |x| < 2 ^ (e + 1)` the binary32 values
around `x` are the multiples of `2 ^ (e - 23)` (24-bit significand). -/
noncomputable def roundBinary32 (x : ℝ) : ℝ :=
  if x = 0 then 0
  else (roundHalfEven (x / (2 : ℝ) ^ (Int.log 2 |x| - 23)) : ℝ) * (2 : ℝ) ^ (Int.log 2 |x| - 23)

/-- The loop `while (angle < 0) angle += 360.0f;` in binary32, run for at most `fuel`
iterations; `none` when the loop is still running after them. -/
noncomputable def addWhileNegativeF : ℕ → ℝ → Option ℝ
  | 0, a => if a < 0 then none else some a
  | fuel + 1, a => if a < 0 then addWhileNegativeF fuel (roundBinary32 (a + 360)) else some a

/-- The loop `while (angle >= 360.0f) angle -= 360.0f;` in binary32, run for at most `fuel`
iterations; `none` when the loop is still running after them. -/
noncomputable def subWhileAtLeast360F : ℕ → ℝ → Option ℝ
  | 0, a => if 360 ≤ a then none else some a
  | fuel + 1, a =>
    if 360 ≤ a then subWhileAtLeast360F fuel (roundBinary32 (a - 360)) else some a

/-- The method `StepperMotor::moveToAngle` in binary32 with at most `fuel` iterations of each
normalisation loop; `none` when a loop is still running after them. -/
noncomputable def StepperMotor.moveToAngleF (fuel : ℕ) (m : StepperMotor) (angle : ℝ) :
    Option StepperMotor :=
  match addWhileNegativeF fuel angle with
  | none => none
  | some angle =>
    match subWhileAtLeast360F fuel angle with
    | none => none
    | some angle =>
      let targetStep := truncToInt (roundBinary32 (angle * roundBinary32 STEPS_PER_DEGREE))
      let m := { m with targetAngle := angle, targetStep := targetStep }
      some { m with isMovingFlag := decide (m.targetStep ≠ m.currentStep) }

/-- The body of the interpolation loop of `Planner::planPath` in binary32: the point pushed
in iteration `i`, with `t = (float)i / (float)numPoints`. -/
noncomputable def Planner.interpolateF (start finish : Point2D) (numPoints i : ℤ) : Point2D :=
  let t := roundBinary32 (roundBinary32 (i : ℝ) / roundBinary32 (numPoints : ℝ))
  ⟨roundBinary32 (start.x + roundBinary32 (t * roundBinary32 (finish.x - start.x))),
   roundBinary32 (start.y + roundBinary32 (t * roundBinary32 (finish.y - start.y)))⟩

/-- The radius `sqrt(x * x + y * y)` that `Kinematics::inverse` and `Kinematics::isReachable`
compute, in binary32. -/
noncomputable def Kinematics.radiusF (point : Point2D) : ℝ :=
  roundBinary32 (Real.sqrt (roundBinary32
    (roundBinary32 (point.x * point.x) + roundBinary32 (point.y * point.y))))

/-- The method `Kinematics::isReachable` in binary32. -/
noncomputable def Kinematics.isReachableF (k : Kinematics) (point : Point2D) : Bool :=
  decide (Kinematics.radiusF point ≤ roundBinary32 (k.L1 + k.L2) ∧
    Kinematics.radiusF point ≥ |roundBinary32 (k.L1 - k.L2)|)

/-- The value `Kinematics::inverse` returns in binary32: `false` exactly when the radius fails
the reach test at its start; every later path returns `true`. -/
noncomputable def Kinematics.inverseReturnsF (k : Kinematics) (target : Point2D) : Bool :=
  if Kinematics.radiusF target > roundBinary32 (k.L1 + k.L2) ∨
      Kinematics.radiusF target < |roundBinary32 (k.L1 - k.L2)| then false
  else true

/-! # Theorems -/

open Real

/-! ## Angle normalisation -/

theorem addWhileNegative_of_nonneg {a : ℝ} (h : 0 ≤ a) : addWhileNegative a = a := by
  rw [addWhileNegative, if_neg (not_lt.mpr h)]

theorem subWhileAtLeast360_of_lt {a : ℝ} (h : a < 360) : subWhileAtLeast360 a = a := by
  rw [subWhileAtLeast360, if_neg (not_le.mpr h)]

theorem addWhileNegative_spec (a : ℝ) :
    ∃ k : ℕ, addWhileNegative a = a + 360 * k ∧ 0 ≤ addWhileNegative a ∧
      (a < 0 → addWhileNegative a < 360) := by
  induction a using addWhileNegative.induct with
  | case1 a h ih =>
    obtain ⟨k, hk, h0, hlt⟩ := ih
    refine ⟨k + 1, ?_, ?_, ?_⟩
    · rw [addWhileNegative, if_pos h, hk]; push_cast; ring
    · rw [addWhileNegative, if_pos h]; exact h0
    · intro _
      rw [addWhileNegative, if_pos h]
      by_cases h2 : a + 360 < 0
      · exact hlt h2
      · rw [addWhileNegative_of_nonneg (not_lt.mp h2)]; linarith
  | case2 a h =>
    refine ⟨0, ?_, ?_, ?_⟩
    · rw [addWhileNegative, if_neg h]; simp
    · rw [addWhileNegative, if_neg h]; exact not_lt.mp h
    · intro h2; exact absurd h2 h

theorem subWhileAtLeast360_spec (a : ℝ) :
    ∃ k : ℕ, subWhileAtLeast360 a = a - 360 * k ∧ subWhileAtLeast360 a < 360 ∧
      (0 ≤ a → 0 ≤ subWhileAtLeast360 a) := by
  induction a using subWhileAtLeast360.induct with
  | case1 a h ih =>
    obtain ⟨k, hk, h0, hlt⟩ := ih
    refine ⟨k + 1, ?_, ?_, ?_⟩
    · rw [subWhileAtLeast360, if_pos h, hk]; push_cast; ring
    · rw [subWhileAtLeast360, if_pos h]; exact h0
    · intro _
      rw [subWhileAtLeast360, if_pos h]
      exact hlt (by linarith)
  | case2 a h =>
    refine ⟨0, ?_, ?_, ?_⟩
    · rw [subWhileAtLeast360, if_neg h]; simp
    · rw [subWhileAtLeast360, if_neg h]; exact not_le.mp h
    · intro h2; rw [subWhileAtLeast360, if_neg h]; exact h2

theorem normalize360_spec (a : ℝ) :
    ∃ k : ℤ, normalize360 a = a + 360 * k ∧ 0 ≤ normalize360 a ∧ normalize360 a < 360 := by
  obtain ⟨k1, e1, n1, -⟩ := addWhileNegative_spec a
  obtain ⟨k2, e2, l2, n2⟩ := subWhileAtLeast360_spec (addWhileNegative a)
  refine ⟨(k1 : ℤ) - k2, ?_, n2 n1, l2⟩
  unfold normalize360
  rw [e2, e1]; push_cast; ring

theorem normalize360_of_mem {a : ℝ} (h0 : 0 ≤ a) (h1 : a < 360) : normalize360 a = a := by
  unfold normalize360
  rw [addWhileNegative_of_nonneg h0, subWhileAtLeast360_of_lt h1]

theorem normalize360_eq_floor (a : ℝ) : normalize360 a = a - 360 * ⌊a / 360⌋ := by
  obtain ⟨k, e, h0, h1⟩ := normalize360_spec a
  have hk : ⌊a / 360⌋ = -k := by
    rw [Int.floor_eq_iff]
    push_cast
    constructor
    · rw [le_div_iff₀ (by norm_num)]; linarith
    · rw [div_lt_iff₀ (by norm_num)]; linarith
  rw [e, hk]; push_cast; ring


/-! ## Kinematics -/

namespace Kinematics

theorem inverse_eq_some (k : Kinematics) (p : Point2D)
    (hmax : sqrt (p.x * p.x + p.y * p.y) ≤ k.L1 + k.L2)
    (hmin : |k.L1 - k.L2| ≤ sqrt (p.x * p.x + p.y * p.y))
    (hc1 : -1 ≤ (sqrt (p.x * p.x + p.y * p.y) * sqrt (p.x * p.x + p.y * p.y)
      - k.L1 * k.L1 - k.L2 * k.L2) / (2 * k.L1 * k.L2))
    (hc2 : (sqrt (p.x * p.x + p.y * p.y) * sqrt (p.x * p.x + p.y * p.y)
      - k.L1 * k.L1 - k.L2 * k.L2) / (2 * k.L1 * k.L2) ≤ 1)
    (hs1 : -1 ≤ k.L2 * sin (arccos ((sqrt (p.x * p.x + p.y * p.y) * sqrt (p.x * p.x + p.y * p.y)
      - k.L1 * k.L1 - k.L2 * k.L2) / (2 * k.L1 * k.L2))) / sqrt (p.x * p.x + p.y * p.y))
    (hs2 : k.L2 * sin (arccos ((sqrt (p.x * p.x + p.y * p.y) * sqrt (p.x * p.x + p.y * p.y)
      - k.L1 * k.L1 - k.L2 * k.L2) / (2 * k.L1 * k.L2))) / sqrt (p.x * p.x + p.y * p.y) ≤ 1) :
    k.inverse p = some
      ⟨normalize360 (atan2 p.y p.x * 180 / π -
        arcsin (k.L2 * sin (arccos ((sqrt (p.x * p.x + p.y * p.y) * sqrt (p.x * p.x + p.y * p.y)
          - k.L1 * k.L1 - k.L2 * k.L2) / (2 * k.L1 * k.L2))) / sqrt (p.x * p.x + p.y * p.y))
          * 180 / π),
       normalize360 (arccos ((sqrt (p.x * p.x + p.y * p.y) * sqrt (p.x * p.x + p.y * p.y)
          - k.L1 * k.L1 - k.L2 * k.L2) / (2 * k.L1 * k.L2)) * 180 / π)⟩ := by
  unfold inverse
  simp only []
  rw [if_neg (by push_neg; exact ⟨hmax, hmin⟩), if_neg (not_lt.mpr hc2),
    if_neg (not_lt.mpr hc1), if_neg (not_lt.mpr hs2), if_neg (not_lt.mpr hs1)]

theorem pi_mul_180_div_pi : π * 180 / π = 180 := by
  field_simp

theorem inverse_isSome_iff (k : Kinematics) (p : Point2D) :
    (k.inverse p).isSome = true ↔
      |k.L1 - k.L2| ≤ sqrt (p.x * p.x + p.y * p.y) ∧
        sqrt (p.x * p.x + p.y * p.y) ≤ k.L1 + k.L2 := by
  unfold inverse
  simp only []
  by_cases h : sqrt (p.x * p.x + p.y * p.y) > k.L1 + k.L2 ∨
      sqrt (p.x * p.x + p.y * p.y) < |k.L1 - k.L2|
  · rw [if_pos h]
    simp only [Option.isSome_none, Bool.false_eq_true, false_iff, not_and, not_le]
    intro hmin
    rcases h with h | h
    · exact h
    · exact absurd hmin (not_le.mpr h)
  · rw [if_neg h]
    push_neg at h
    simp only [Option.isSome_some, true_iff]
    exact ⟨h.2, h.1⟩

theorem isReachable_iff (k : Kinematics) (p : Point2D) :
    k.isReachable p = true ↔
      k.getMinReach ≤ sqrt (p.x * p.x + p.y * p.y) ∧
        sqrt (p.x * p.x + p.y * p.y) ≤ k.getMaxReach := by
  simp only [isReachable, getMinReach, getMaxReach, decide_eq_true_eq, ge_iff_le]
  exact And.comm

theorem sqrt_axis (a : ℝ) (h : 0 ≤ a) : sqrt (a * a + 0 * 0) = a := by
  rw [mul_zero, add_zero, sqrt_mul_self h]

/-- C3: `inverse` succeeds exactly on the annulus `|L1 - L2| ≤ r ≤ L1 + L2`, which is exactly
where `isReachable` is true, so `inverse` fails iff `isReachable` is false; with
`L1 = L2 = 150` the point `(300, 0)` is reachable and `(400, 0)`, `(303, 0)` are not. -/
theorem inverse_succeeds_iff_reachable (k : Kinematics) (p : Point2D) :
    ((k.inverse p).isSome = true ↔
      |k.L1 - k.L2| ≤ sqrt (p.x * p.x + p.y * p.y) ∧
        sqrt (p.x * p.x + p.y * p.y) ≤ k.L1 + k.L2) ∧
    (k.isReachable p = true ↔
      k.getMinReach ≤ sqrt (p.x * p.x + p.y * p.y) ∧
        sqrt (p.x * p.x + p.y * p.y) ≤ k.getMaxReach) ∧
    ((k.inverse p).isSome = k.isReachable p) ∧
    (k.inverse p = none ↔ k.isReachable p = false) ∧
    (configured.isReachable ⟨300, 0⟩ = true ∧ (configured.inverse ⟨300, 0⟩).isSome = true) ∧
    (configured.isReachable ⟨400, 0⟩ = false ∧ configured.inverse ⟨400, 0⟩ = none) ∧
    (configured.isReachable ⟨303, 0⟩ = false ∧ configured.inverse ⟨303, 0⟩ = none) := by
  have key : ∀ (k : Kinematics) (p : Point2D), (k.inverse p).isSome = k.isReachable p := by
    intro k p
    rw [Bool.eq_iff_iff, inverse_isSome_iff, isReachable_iff]
    exact Iff.rfl
  have none_iff : ∀ (k : Kinematics) (p : Point2D),
      k.inverse p = none ↔ k.isReachable p = false := by
    intro k p
    rw [← key k p]
    cases k.inverse p <;> simp
  have h300 : configured.isReachable ⟨300, 0⟩ = true := by
    rw [isReachable_iff]
    simp only [sqrt_axis 300 (by norm_num), getMinReach, getMaxReach, configured,
      ARM_LENGTH_1, ARM_LENGTH_2]
    norm_num
  have h400 : configured.isReachable ⟨400, 0⟩ = false := by
    rw [← Bool.not_eq_true, isReachable_iff]
    simp only [sqrt_axis 400 (by norm_num), getMinReach, getMaxReach, configured,
      ARM_LENGTH_1, ARM_LENGTH_2]
    norm_num
  have h303 : configured.isReachable ⟨303, 0⟩ = false := by
    rw [← Bool.not_eq_true, isReachable_iff]
    simp only [sqrt_axis 303 (by norm_num), getMinReach, getMaxReach, configured,
      ARM_LENGTH_1, ARM_LENGTH_2]
    norm_num
  exact ⟨inverse_isSome_iff k p, isReachable_iff k p, key k p, none_iff k p,
    ⟨h300, by rw [key, h300]⟩, ⟨h400, (none_iff _ _).mpr h400⟩,
    ⟨h303, (none_iff _ _).mpr h303⟩⟩


/-- C2: with link lengths `L1 = 100`, `L2 = 200` the point `(100, 0)` is reachable (it lies
at the minimum reach), `inverse` succeeds on it with angles `(0, 180)`, and `forward` of those
angles is `(-100, 0)`, which is 200 mm away from the target. -/
theorem round_trip_fails_long_forearm :
    isReachable ⟨100, 200⟩ ⟨100, 0⟩ = true ∧
    inverse ⟨100, 200⟩ ⟨100, 0⟩ = some ⟨0, 180⟩ ∧
    forward ⟨100, 200⟩ ⟨0, 180⟩ = ⟨-100, 0⟩ := by
  have hr : sqrt ((100 : ℝ) * 100 + 0 * 0) = 100 := by
    rw [show (100 : ℝ) * 100 + 0 * 0 = 100 * 100 by norm_num, sqrt_mul_self (by norm_num)]
  have hc : ((100 : ℝ) * 100 - 100 * 100 - 200 * 200) / (2 * 100 * 200) = -1 := by norm_num
  refine ⟨?_, ?_, ?_⟩
  · simp only [isReachable, hr, decide_eq_true_eq]
    constructor
    · norm_num
    · show |(100 : ℝ) - 200| ≤ 100
      rw [abs_le]; constructor <;> norm_num
  · have hi := inverse_eq_some ⟨100, 200⟩ ⟨100, 0⟩
      (by simp only [hr]; norm_num)
      (by simp only [hr]; rw [abs_le]; constructor <;> norm_num)
      (by simp only [hr, hc, le_refl]) (by simp only [hr, hc]; norm_num)
      (by simp only [hr, hc, arccos_neg_one, sin_pi]; norm_num)
      (by simp only [hr, hc, arccos_neg_one, sin_pi]; norm_num)
    have ha : atan2 0 100 = 0 := by
      unfold atan2
      exact Complex.arg_ofReal_of_nonneg (by norm_num : (0 : ℝ) ≤ 100)
    simp only [hr, hc] at hi
    simp only [arccos_neg_one, sin_pi, mul_zero, zero_div, arcsin_zero, ha,
      zero_mul, sub_zero] at hi
    rw [pi_mul_180_div_pi,
      normalize360_of_mem (le_refl 0) (by norm_num),
      normalize360_of_mem (by norm_num) (by norm_num)] at hi
    exact hi
  · simp only [forward]
    have e : (0 : ℝ) * π / 180 + 180 * π / 180 = π := by ring
    rw [e, cos_pi, sin_pi]
    simp only [zero_mul, zero_div, cos_zero, sin_zero]
    congr 1 <;> norm_num


end Kinematics

/-! ## Planner -/

namespace Planner

theorem interpolationLoop_eq (start finish : Point2D) (numPoints i : ℤ) (q : List Point2D) :
    interpolationLoop start finish numPoints i q =
      q ++ (List.range (numPoints + 1 - i).toNat).map
        (fun (j : ℕ) => interpolate start finish numPoints (i + (j : ℤ))) := by
  induction i, q using interpolationLoop.induct start finish numPoints with
  | case1 i q h ih =>
    rw [interpolationLoop, if_pos h, ih]
    have e : (numPoints + 1 - i).toNat = (numPoints + 1 - (i + 1)).toNat + 1 := by omega
    rw [e, List.range_succ_eq_map, List.map_cons, List.map_map, List.append_assoc]
    have e2 : ∀ j : ℕ, interpolate start finish numPoints (i + 1 + (j : ℤ)) =
        interpolate start finish numPoints (i + ((j + 1 : ℕ) : ℤ)) := by
      intro j; congr 1; push_cast; ring
    simp [e2]
  | case2 i q h =>
    rw [interpolationLoop, if_neg h]
    have e : (numPoints + 1 - i).toNat = 0 := by omega
    rw [e]; simp

/-- On a segment shorter than `MIN_SEGMENT_LENGTH`, `planPath` pushes `finish` and returns 1. -/
theorem planPath_short (p : Planner) (start finish : Point2D) (q : List Point2D)
    (h : distance start finish < MIN_SEGMENT_LENGTH) :
    p.planPath start finish q = (1, q ++ [finish]) := by
  unfold planPath
  simp only []
  rw [if_pos h]

/-- On a longer segment, `planPath` runs the interpolation loop over `0 .. numPoints`. -/
theorem planPath_long (p : Planner) (start finish : Point2D) (q : List Point2D)
    (h : MIN_SEGMENT_LENGTH ≤ distance start finish) :
    p.planPath start finish q =
      (p.numPoints start finish + 1,
        q ++ (List.range ((p.numPoints start finish + 1).toNat)).map
          (fun (j : ℕ) => interpolate start finish (p.numPoints start finish) (j : ℤ))) := by
  unfold planPath numPoints
  simp only []
  rw [if_neg (not_lt.mpr h), interpolationLoop_eq]
  simp only [sub_zero, zero_add]

/-- The loop of `planPath` never runs with fewer than 2 segments. -/
theorem numPoints_ge_two (p : Planner) (start finish : Point2D) :
    2 ≤ p.numPoints start finish := by
  unfold numPoints
  simp only []
  split_ifs with h2
  · exact le_rfl
  · exact not_lt.mp h2

theorem wrapInt_of_mem {z : ℤ} (h0 : -2147483648 ≤ z) (h1 : z ≤ 2147483647) :
    wrapInt z = z := by
  unfold wrapInt
  omega


theorem truncToInt_of_nonneg {x : ℝ} (h : 0 ≤ x) (hlt : x < 2147483648) :
    truncToInt x = ⌊x⌋ := by
  unfold truncToInt
  rw [if_neg (not_le.mpr hlt), if_neg (by linarith), if_pos h]

theorem distance_nonneg (a b : Point2D) : 0 ≤ distance a b := sqrt_nonneg _

theorem distance_self (a : Point2D) : distance a a = 0 := by
  unfold distance
  simp

/-- The number of segments `planPath` uses on a segment that is long enough, when the
quotient `d / s / interval` is in the range where `(int)` and the `int` addition are exact. -/
theorem numPoints_eq (p : Planner) (start finish : Point2D)
    (hi : p.interpolationInterval = 0.01) (hs : 0 < p.speed)
    (hr : distance start finish / p.speed / 0.01 < 2147483647) :
    p.numPoints start finish = max 2 (⌊distance start finish / p.speed / 0.01⌋ + 1) := by
  have hd := distance_nonneg start finish
  have h0 : 0 ≤ distance start finish / p.speed / 0.01 := by positivity
  have hfl0 : 0 ≤ ⌊distance start finish / p.speed / 0.01⌋ := Int.floor_nonneg.mpr h0
  have hfl1 : ⌊distance start finish / p.speed / 0.01⌋ < 2147483647 :=
    Int.floor_lt.mpr (by exact_mod_cast hr)
  unfold numPoints
  simp only []
  rw [hi, truncToInt_of_nonneg h0 (by linarith), wrapInt_of_mem (by omega) (by omega)]
  split_ifs with h2
  · rw [max_eq_left h2.le]
  · rw [max_eq_right (not_lt.mp h2)]

/-- Shape of the result of `planPath` on a segment that is long enough: `n + 1` points, the
`i`-th being the interpolation at `i / n`, where `n` is the number of segments. -/
theorem planPath_long_points (p : Planner) (start finish : Point2D) (q : List Point2D)
    (h : MIN_SEGMENT_LENGTH ≤ distance start finish) :
    ∃ (n : ℕ) (pts : List Point2D), 2 ≤ n ∧ (n : ℤ) = p.numPoints start finish
      ∧ p.planPath start finish q = ((n : ℤ) + 1, q ++ pts) ∧ pts.length = n + 1 ∧
      ∀ i : ℕ, i ≤ n → pts[i]? = some (interpolate start finish (n : ℤ) (i : ℤ)) := by
  have h2 : (2 : ℤ) ≤ p.numPoints start finish := numPoints_ge_two p start finish
  obtain ⟨n, hn⟩ := Int.eq_ofNat_of_zero_le (le_trans (by norm_num) h2)
  refine ⟨n, (List.range (n + 1)).map (fun (j : ℕ) => interpolate start finish (n : ℤ) (j : ℤ)),
    by omega, hn.symm, ?_, ?_, ?_⟩
  · rw [planPath_long p start finish q h, hn]
    have e : ((n : ℤ) + 1).toNat = n + 1 := by omega
    rw [e]
  · rw [List.length_map, List.length_range]
  · intro i hi
    rw [List.getElem?_map, List.getElem?_range (by omega)]
    rfl

/-- The point count of `planPath` while the quotient `d / s / interval` is in the range
where `(int)` and the `int` addition are exact: for speed `s > 0`, sampling interval 0.01 s
and distance `d ≥ MIN_SEGMENT_LENGTH`, with `numPoints = max 2 (⌊(d / s) / 0.01⌋ + 1)`,
`planPath` appends exactly `numPoints + 1` points to the queue and returns `numPoints + 1`. -/
theorem planPath_count (p : Planner) (start finish : Point2D) (q : List Point2D)
    (hi : p.interpolationInterval = 0.01) (hs : 0 < p.speed)
    (hd : MIN_SEGMENT_LENGTH ≤ distance start finish)
    (hr : distance start finish / p.speed / 0.01 < 2147483647) :
    ∃ pts : List Point2D,
      (p.planPath start finish q).2 = q ++ pts ∧
      (pts.length : ℤ) = max 2 (⌊distance start finish / p.speed / 0.01⌋ + 1) + 1 ∧
      (p.planPath start finish q).1 = max 2 (⌊distance start finish / p.speed / 0.01⌋ + 1) + 1
      := by
  obtain ⟨n, pts, -, hn, hp, hlen, -⟩ := planPath_long_points p start finish q hd
  rw [numPoints_eq p start finish hi hs hr] at hn
  refine ⟨pts, by rw [hp], ?_, ?_⟩
  · rw [hlen, ← hn]; push_cast; rfl
  · rw [hp, ← hn]

theorem distance_axis_x (a : ℝ) (h : 0 ≤ a) : distance ⟨0, 0⟩ ⟨a, 0⟩ = a := by
  unfold distance
  simp only [sub_zero, mul_zero, add_zero]
  exact sqrt_mul_self h

/-- The point count at 50 mm/s: `(0, 0)` to `(100, 0)` gives `numPoints = 201` and 202
points. -/
theorem planPath_count_at_50 :
    (Planner.new 50 200).interpolationInterval = 0.01 ∧ 0 < (Planner.new 50 200).speed ∧
    MIN_SEGMENT_LENGTH ≤ distance ⟨0, 0⟩ ⟨100, 0⟩ ∧
    max 2 (⌊distance ⟨0, 0⟩ ⟨100, 0⟩ / (Planner.new 50 200).speed / 0.01⌋ + 1) = 201 ∧
    ∃ pts : List Point2D,
      ((Planner.new 50 200).planPath ⟨0, 0⟩ ⟨100, 0⟩ []).2 = [] ++ pts ∧
      (pts.length : ℤ) = 201 + 1 ∧
      ((Planner.new 50 200).planPath ⟨0, 0⟩ ⟨100, 0⟩ []).1 = 201 + 1 := by
  have hi : (Planner.new 50 200).interpolationInterval = 0.01 := by
    simp only [Planner.new, INTERPOLATION_INTERVAL_MS]; norm_num
  have hs : 0 < (Planner.new 50 200).speed := by
    simp only [Planner.new]; norm_num
  have hd : MIN_SEGMENT_LENGTH ≤ distance ⟨0, 0⟩ ⟨100, 0⟩ := by
    rw [distance_axis_x 100 (by norm_num)]; unfold MIN_SEGMENT_LENGTH; norm_num
  have hn : max 2 (⌊distance ⟨0, 0⟩ ⟨100, 0⟩ / (Planner.new 50 200).speed / 0.01⌋ + 1)
      = 201 := by
    rw [distance_axis_x 100 (by norm_num)]
    have e : (100 : ℝ) / (Planner.new 50 200).speed / 0.01 = ((200 : ℤ) : ℝ) := by
      simp only [Planner.new]; norm_num
    rw [e, Int.floor_intCast]
    rfl
  have hr : distance ⟨0, 0⟩ ⟨100, 0⟩ / (Planner.new 50 200).speed / 0.01 < 2147483647 := by
    rw [distance_axis_x 100 (by norm_num)]
    simp only [Planner.new]; norm_num
  have h := planPath_count (Planner.new 50 200) ⟨0, 0⟩ ⟨100, 0⟩ [] hi hs hd hr
  rw [hn] at h
  exact ⟨hi, hs, hd, hn, h⟩

/-- The value `planPath` returns is the number of points it appends, on every input. -/
theorem planPath_returns_length (p : Planner) (start finish : Point2D) (q : List Point2D) :
    ∃ pts : List Point2D,
      (p.planPath start finish q).2 = q ++ pts ∧ (p.planPath start finish q).1 = pts.length := by
  by_cases h : distance start finish < MIN_SEGMENT_LENGTH
  · exact ⟨[finish], by rw [planPath_short p start finish q h],
      by rw [planPath_short p start finish q h]; rfl⟩
  · obtain ⟨n, pts, -, -, hp, hlen, -⟩ := planPath_long_points p start finish q (not_lt.mp h)
    exact ⟨pts, by rw [hp], by rw [hp, hlen]; push_cast; rfl⟩

end Planner

/-! ## Stepper motor -/

theorem STEPS_PER_DEGREE_eq : STEPS_PER_DEGREE = 80 / 9 := by
  unfold STEPS_PER_DEGREE STEPS_PER_REVOLUTION MICROSTEPS; norm_num

theorem STEPS_PER_DEGREE_pos : 0 < STEPS_PER_DEGREE := by
  rw [STEPS_PER_DEGREE_eq]; norm_num

theorem ulongSub_self_zero : ulongSub 0 0 = 0 := by decide

theorem ulongSub_of_le {a b : ℕ} (hab : b ≤ a) (ha : a < ULONG_RANGE) :
    ulongSub a b = a - b := by
  unfold ulongSub
  have hb : b < ULONG_RANGE := lt_of_le_of_lt hab ha
  rw [Nat.mod_eq_of_lt ha, Nat.mod_eq_of_lt hb]
  have e : a + ULONG_RANGE - b = (a - b) + ULONG_RANGE := by omega
  rw [e, Nat.add_mod_right, Nat.mod_eq_of_lt (by omega)]

namespace StepperMotor

theorem update_idle (m : StepperMotor) (t : ℕ) (h : m.isMovingFlag = false) :
    m.update t = m := by
  unfold update
  simp [h]

theorem update_disabled (m : StepperMotor) (t : ℕ) (h : m.enabled = false) :
    m.update t = m := by
  unfold update
  simp [h]

theorem updates_idle (m : StepperMotor) (ts : List ℕ) (h : m.isMovingFlag = false) :
    m.updates ts = m := by
  induction ts with
  | nil => rfl
  | cons t ts ih => rw [updates, update_idle m t h, ih]

theorem update_arrive (m : StepperMotor) (t : ℕ) (he : m.enabled = true)
    (hf : m.isMovingFlag = true) (hg : ulongSub t m.lastStepTime ≥ m.stepInterval)
    (hs : m.currentStep = m.targetStep) :
    m.update t = { m with isMovingFlag := false, currentAngle := m.targetAngle } := by
  unfold update
  simp [he, hf, hg, hs]

theorem update_up (m : StepperMotor) (t : ℕ) (he : m.enabled = true)
    (hf : m.isMovingFlag = true) (hg : ulongSub t m.lastStepTime ≥ m.stepInterval)
    (hs : m.currentStep < m.targetStep) :
    m.update t = { m with currentStep := m.currentStep + 1,
                          currentAngle := stepsToAngle (m.currentStep + 1),
                          lastStepTime := t } := by
  unfold update
  have hne : m.currentStep ≠ m.targetStep := ne_of_lt hs
  simp [he, hf, hg, hne, hs]

theorem update_down (m : StepperMotor) (t : ℕ) (he : m.enabled = true)
    (hf : m.isMovingFlag = true) (hg : ulongSub t m.lastStepTime ≥ m.stepInterval)
    (hs : m.targetStep < m.currentStep) :
    m.update t = { m with currentStep := m.currentStep - 1,
                          currentAngle := stepsToAngle (m.currentStep - 1),
                          lastStepTime := t } := by
  unfold update
  have hne : m.currentStep ≠ m.targetStep := ne_of_gt hs
  have hn : ¬ m.targetStep > m.currentStep := not_lt.mpr hs.le
  simp [he, hf, hg, hne, hn]

/-- An enabled, moving stepper whose updates all pass the time gate reaches its target step
after as many updates as steps separate it from the target, and one more update records the
target angle and clears the moving flag; later updates change nothing. -/
theorem updates_converge (n : ℕ) : ∀ (m : StepperMotor) (ts : List ℕ),
    m.enabled = true → m.isMovingFlag = true → (m.targetStep - m.currentStep).natAbs = n →
    m.gatesPass ts → n + 1 ≤ ts.length →
    (m.updates ts).currentAngle = m.targetAngle ∧ (m.updates ts).isMovingFlag = false ∧
    (m.updates ts).currentStep = m.targetStep ∧ (m.updates ts).targetStep = m.targetStep ∧
    (m.updates ts).targetAngle = m.targetAngle ∧ (m.updates ts).enabled = true ∧
    (m.updates ts).stepInterval = m.stepInterval ∧ (m.updates ts).speed = m.speed := by
  induction n with
  | zero =>
    intro m ts he hf hn hg hl
    cases ts with
    | nil => simp at hl
    | cons t ts =>
      have hs : m.currentStep = m.targetStep := by omega
      rw [updates, update_arrive m t he hf hg.1 hs, updates_idle _ _ rfl]
      simp [he, hs]
  | succ n ih =>
    intro m ts he hf hn hg hl
    cases ts with
    | nil => simp at hl
    | cons t ts =>
      have hl2 : n + 1 ≤ ts.length := by simpa using hl
      rcases lt_trichotomy m.currentStep m.targetStep with hs | hs | hs
      · have hu := update_up m t he hf hg.1 hs
        have hg2 := hg.2
        rw [updates]
        rw [hu] at hg2 ⊢
        exact ih _ ts he hf (by simp only; omega) hg2 hl2
      · omega
      · have hu := update_down m t he hf hg.1 hs
        have hg2 := hg.2
        rw [updates]
        rw [hu] at hg2 ⊢
        exact ih _ ts he hf (by simp only; omega) hg2 hl2

theorem angleToSteps_of_nonneg {a : ℝ} (h : 0 ≤ a) (h1 : a < 360) :
    angleToSteps a = ⌊a * STEPS_PER_DEGREE⌋ := by
  unfold angleToSteps
  apply Planner.truncToInt_of_nonneg (mul_nonneg h STEPS_PER_DEGREE_pos.le)
  rw [STEPS_PER_DEGREE_eq]
  linarith

theorem stepsToAngle_mul (s : ℤ) : stepsToAngle s * STEPS_PER_DEGREE = s := by
  unfold stepsToAngle
  exact div_mul_cancel₀ _ STEPS_PER_DEGREE_pos.ne.symm

theorem moveToAngle_eq (m : StepperMotor) (a : ℝ) :
    m.moveToAngle a =
      { m with targetAngle := normalize360 a,
               targetStep := ⌊normalize360 a * STEPS_PER_DEGREE⌋,
               isMovingFlag := decide (⌊normalize360 a * STEPS_PER_DEGREE⌋ ≠ m.currentStep) } := by
  obtain ⟨-, -, h0, h1⟩ := normalize360_spec a
  unfold moveToAngle
  simp only [angleToSteps_of_nonneg h0 h1]

theorem consistent_fresh : fresh.Consistent := by
  unfold Consistent fresh
  simp

theorem floor_nonneg_of_consistent {a : ℝ} (h : 0 ≤ a) : 0 ≤ ⌊a * STEPS_PER_DEGREE⌋ :=
  Int.floor_nonneg.mpr (mul_nonneg h STEPS_PER_DEGREE_pos.le)

theorem consistent_update (m : StepperMotor) (t : ℕ) (h : m.Consistent) :
    (m.update t).Consistent := by
  obtain ⟨h1, h2, ⟨h3, h4⟩, ⟨h5, h6⟩⟩ := h
  by_cases he : m.enabled = true
  swap
  · rw [update_disabled m t (by simpa using he)]; exact ⟨h1, h2, ⟨h3, h4⟩, ⟨h5, h6⟩⟩
  by_cases hf : m.isMovingFlag = true
  swap
  · rw [update_idle m t (by simpa using hf)]; exact ⟨h1, h2, ⟨h3, h4⟩, ⟨h5, h6⟩⟩
  by_cases hg : ulongSub t m.lastStepTime ≥ m.stepInterval
  swap
  · have : m.update t = m := by unfold update; simp [he, hf, hg]
    rw [this]; exact ⟨h1, h2, ⟨h3, h4⟩, ⟨h5, h6⟩⟩
  have hpos := STEPS_PER_DEGREE_pos
  have hcs : (m.currentStep : ℝ) ≤ m.currentAngle * STEPS_PER_DEGREE := by
    rw [h1]; exact Int.floor_le _
  have hts : (m.targetStep : ℝ) ≤ m.targetAngle * STEPS_PER_DEGREE := by
    rw [h2]; exact Int.floor_le _
  have hc0 : 0 ≤ m.currentStep := h1 ▸ floor_nonneg_of_consistent h3
  have ht0 : 0 ≤ m.targetStep := h2 ▸ floor_nonneg_of_consistent h5
  rcases lt_trichotomy m.currentStep m.targetStep with hs | hs | hs
  · rw [update_up m t he hf hg hs]
    refine ⟨?_, h2, ⟨?_, ?_⟩, ⟨h5, h6⟩⟩
    · simp only [stepsToAngle_mul, Int.floor_intCast]
    · simp only [stepsToAngle]
      exact div_nonneg (by exact_mod_cast (by omega : 0 ≤ m.currentStep + 1)) hpos.le
    · simp only [stepsToAngle]
      rw [div_lt_iff₀ hpos]
      have : ((m.currentStep + 1 : ℤ) : ℝ) ≤ (m.targetStep : ℝ) := by exact_mod_cast hs
      nlinarith
  · rw [update_arrive m t he hf hg hs]
    exact ⟨by simp only; rw [hs, h2], h2, ⟨h5, h6⟩, ⟨h5, h6⟩⟩
  · rw [update_down m t he hf hg hs]
    refine ⟨?_, h2, ⟨?_, ?_⟩, ⟨h5, h6⟩⟩
    · simp only [stepsToAngle_mul, Int.floor_intCast]
    · simp only [stepsToAngle]
      exact div_nonneg (by exact_mod_cast (by omega : 0 ≤ m.currentStep - 1)) hpos.le
    · simp only [stepsToAngle]
      rw [div_lt_iff₀ hpos]
      have : ((m.currentStep - 1 : ℤ) : ℝ) ≤ (m.currentStep : ℝ) := by
        exact_mod_cast (by omega : m.currentStep - 1 ≤ m.currentStep)
      nlinarith

theorem consistent_call (m : StepperMotor) (c : StepperCall) (h : m.Consistent) :
    (m.call c).Consistent := by
  cases c with
  | init =>
    simp only [call, init, disable]
    split_ifs <;> exact h
  | enable => exact h
  | disable => exact h
  | setSpeed v =>
    simp only [call, setSpeed]
    split_ifs <;> exact h
  | moveToAngle a =>
    obtain ⟨-, -, h0, h1⟩ := normalize360_spec a
    simp only [call, moveToAngle_eq]
    exact ⟨h.1, rfl, h.2.2.1, ⟨h0, h1⟩⟩
  | stop =>
    simp only [call, stop]
    exact ⟨h.1, h.1, h.2.2.1, h.2.2.1⟩
  | update t => exact consistent_update m t h

theorem consistent_run_of (calls : List StepperCall) :
    ∀ m : StepperMotor, m.Consistent → (m.run calls).Consistent := by
  induction calls with
  | nil => intro m h; exact h
  | cons c cs ih => intro m h; exact ih _ (consistent_call m c h)

theorem consistent_run (calls : List StepperCall) : (fresh.run calls).Consistent :=
  consistent_run_of calls fresh consistent_fresh

/-- A stepper whose step counters coincide is less than one step away from its target. -/
theorem abs_sub_lt_step (m : StepperMotor) (h : m.Consistent)
    (hs : m.targetStep = m.currentStep) :
    |m.currentAngle - m.targetAngle| < 1 / STEPS_PER_DEGREE := by
  obtain ⟨h1, h2, -, -⟩ := h
  have hpos := STEPS_PER_DEGREE_pos
  have e : ⌊m.currentAngle * STEPS_PER_DEGREE⌋ = ⌊m.targetAngle * STEPS_PER_DEGREE⌋ := by
    rw [← h1, ← h2, hs]
  have := Int.abs_sub_lt_one_of_floor_eq_floor e
  rw [← sub_mul, abs_mul, abs_of_pos hpos] at this
  rwa [lt_div_iff₀ hpos]

/-- Without `disable` and `init`, a cleared moving flag means the target step is reached. -/
theorem flag_call (m : StepperMotor) (c : StepperCall)
    (hc : c ≠ StepperCall.disable ∧ c ≠ StepperCall.init)
    (h : m.isMovingFlag = false → m.currentStep = m.targetStep) :
    (m.call c).isMovingFlag = false → (m.call c).currentStep = (m.call c).targetStep := by
  cases c with
  | init => exact absurd rfl hc.2
  | enable => exact h
  | disable => exact absurd rfl hc.1
  | setSpeed v =>
    simp only [call, setSpeed]
    split_ifs <;> exact h
  | moveToAngle a =>
    simp only [call, moveToAngle_eq, decide_eq_false_iff_not, ne_eq, not_not]
    intro e; exact e.symm
  | stop => intro _; rfl
  | update t =>
    simp only [call]
    by_cases he : m.enabled = true
    swap
    · rw [update_disabled m t (by simpa using he)]; exact h
    by_cases hf : m.isMovingFlag = true
    swap
    · rw [update_idle m t (by simpa using hf)]; exact h
    by_cases hg : ulongSub t m.lastStepTime ≥ m.stepInterval
    swap
    · have : m.update t = m := by unfold update; simp [he, hf, hg]
      rw [this]; exact h
    rcases lt_trichotomy m.currentStep m.targetStep with hs | hs | hs
    · rw [update_up m t he hf hg hs]; simp [hf]
    · rw [update_arrive m t he hf hg hs]; intro _; exact hs
    · rw [update_down m t he hf hg hs]; simp [hf]

theorem flag_run_of (calls : List StepperCall)
    (hc : ∀ c ∈ calls, c ≠ StepperCall.disable ∧ c ≠ StepperCall.init) :
    ∀ m : StepperMotor, (m.isMovingFlag = false → m.currentStep = m.targetStep) →
      (m.run calls).isMovingFlag = false → (m.run calls).currentStep = (m.run calls).targetStep
    := by
  induction calls with
  | nil => intro m h; exact h
  | cons c cs ih =>
    intro m h
    exact ih (fun d hd => hc d (List.mem_cons_of_mem _ hd)) _
      (flag_call m c (hc c (List.mem_cons_self _ _)) h)

theorem update_stepInterval (m : StepperMotor) (t : ℕ) :
    (m.update t).stepInterval = m.stepInterval := by
  unfold update
  simp only []
  split_ifs <;> rfl

theorem gatesPass_of_zero : ∀ (ts : List ℕ) (m : StepperMotor), m.stepInterval = 0 →
    m.gatesPass ts := by
  intro ts
  induction ts with
  | nil => intro m _; exact trivial
  | cons t ts ih =>
    intro m h
    exact ⟨by rw [h]; exact Nat.zero_le _, ih _ (by rw [update_stepInterval, h])⟩

theorem atTenDegrees_spec :
    atTenDegrees.currentAngle = 10 ∧ atTenDegrees.currentStep = 88 ∧
    atTenDegrees.isMovingFlag = false ∧ atTenDegrees.enabled = true ∧
    atTenDegrees.stepInterval = 0 := by
  have hn : normalize360 10 = 10 := normalize360_of_mem (by norm_num) (by norm_num)
  have hfl : ⌊(10 : ℝ) * STEPS_PER_DEGREE⌋ = 88 := by
    rw [STEPS_PER_DEGREE_eq, Int.floor_eq_iff]
    constructor <;> norm_num
  have hm : fresh.run [StepperCall.enable, StepperCall.moveToAngle 10] =
      { fresh with enabled := true, targetAngle := 10, targetStep := 88,
                   isMovingFlag := true } := by
    simp only [run, List.foldl, call, moveToAngle_eq, hn, hfl, enable, fresh]
    simp
  have h := updates_converge 88
    (fresh.run [StepperCall.enable, StepperCall.moveToAngle 10]) (List.replicate 89 0)
    (by rw [hm]) (by rw [hm]) (by rw [hm]; rfl)
    (gatesPass_of_zero _ _ (by rw [hm]; rfl)) (by simp)
  obtain ⟨h1, h2, h3, -, -, h6, h7, -⟩ := h
  unfold atTenDegrees
  refine ⟨?_, ?_, h2, h6, ?_⟩
  · rw [h1, hm]
  · rw [h3, hm]
  · rw [h7, hm]; rfl

/-- C8: an enabled stepper standing at 10 degrees (step 88) that is sent to 350 degrees gets
target step 3111 and its next `update()` steps upward, to step 89 (10.0125 degrees), so it
travels the 340 degrees through 180 instead of the 20 degrees across the 0/360 boundary. -/
theorem update_takes_long_way :
    atTenDegrees.getCurrentAngle = 10 ∧ atTenDegrees.currentStep = 88 ∧
    atTenDegrees.isEnabled = true ∧
    (atTenDegrees.moveToAngle 350).targetAngle = 350 ∧
    (atTenDegrees.moveToAngle 350).targetStep = 3111 ∧
    (atTenDegrees.moveToAngle 350).isMoving = true ∧
    ((atTenDegrees.moveToAngle 350).update 0).currentStep = 89 ∧
    ((atTenDegrees.moveToAngle 350).update 0).getCurrentAngle = 10.0125 ∧
    ((atTenDegrees.moveToAngle 350).update 0).getCurrentAngle > atTenDegrees.getCurrentAngle := by
  obtain ⟨h1, h2, -, h4, h5⟩ := atTenDegrees_spec
  have hn : normalize360 350 = 350 := normalize360_of_mem (by norm_num) (by norm_num)
  have hfl : ⌊(350 : ℝ) * STEPS_PER_DEGREE⌋ = 3111 := by
    rw [STEPS_PER_DEGREE_eq, Int.floor_eq_iff]
    constructor <;> norm_num
  have hta : (atTenDegrees.moveToAngle 350).targetAngle = 350 := by rw [moveToAngle_eq, hn]
  have hts : (atTenDegrees.moveToAngle 350).targetStep = 3111 := by rw [moveToAngle_eq, hn, hfl]
  have hcs : (atTenDegrees.moveToAngle 350).currentStep = 88 := by rw [moveToAngle_eq]; exact h2
  have hen : (atTenDegrees.moveToAngle 350).enabled = true := by rw [moveToAngle_eq]; exact h4
  have hsi : (atTenDegrees.moveToAngle 350).stepInterval = 0 := by
    rw [moveToAngle_eq]; exact h5
  have hfg : (atTenDegrees.moveToAngle 350).isMovingFlag = true := by
    rw [moveToAngle_eq]
    simp only [hn, hfl, h2]
    decide
  have hu := update_up (atTenDegrees.moveToAngle 350) 0 hen hfg
    (by rw [hsi]; exact Nat.zero_le _) (by rw [hcs, hts]; norm_num)
  have hang : stepsToAngle (88 + 1) = 10.0125 := by
    unfold stepsToAngle; rw [STEPS_PER_DEGREE_eq]; norm_num
  have hcur : ((atTenDegrees.moveToAngle 350).update 0).currentAngle = 10.0125 := by
    rw [hu]; simp only [hcs, hang]
  refine ⟨h1, h2, h4, hta, hts, ?_, ?_, hcur, ?_⟩
  · simp only [isMoving, hfg, hen, Bool.and_self]
  · rw [hu]; simp only [hcs]; norm_num
  · simp only [getCurrentAngle, hcur, h1]; norm_num

/-- C10 (as amended): for an enabled stepper in a state reachable from construction, after
`moveToAngle(x)` and any `ts.length ≥ |targetStep - currentStep| + 1` updates that each pass
the step-interval gate: if the target step differs from the current step, `getCurrentAngle()`
is `x` normalised into `[0, 360)` and `isMoving()` is false; if the two steps coincide the
motor never starts, `getCurrentAngle()` keeps its value, which is less than one step from
`x` normalised, and `isMoving()` is false. -/
theorem updates_reach_target (calls : List StepperCall) (x : ℝ) (ts : List ℕ)
    (he : (fresh.run calls).isEnabled = true)
    (hg : ((fresh.run calls).moveToAngle x).gatesPass ts)
    (hl : (((fresh.run calls).moveToAngle x).targetStep
      - ((fresh.run calls).moveToAngle x).currentStep).natAbs + 1 ≤ ts.length) :
    (0 ≤ normalize360 x ∧ normalize360 x < 360 ∧ ∃ k : ℤ, normalize360 x = x + 360 * k) ∧
    (((fresh.run calls).moveToAngle x).targetStep ≠ (fresh.run calls).currentStep →
      (((fresh.run calls).moveToAngle x).updates ts).getCurrentAngle = normalize360 x ∧
      (((fresh.run calls).moveToAngle x).updates ts).isMoving = false) ∧
    (((fresh.run calls).moveToAngle x).targetStep = (fresh.run calls).currentStep →
      (((fresh.run calls).moveToAngle x).updates ts).getCurrentAngle
        = (fresh.run calls).getCurrentAngle ∧
      |(fresh.run calls).getCurrentAngle - normalize360 x| < 1 / STEPS_PER_DEGREE ∧
      (((fresh.run calls).moveToAngle x).updates ts).isMoving = false) := by
  have hcons := consistent_call _ (StepperCall.moveToAngle x) (consistent_run calls)
  simp only [call] at hcons
  obtain ⟨k, hk, hk0, hk1⟩ := normalize360_spec x
  refine ⟨⟨hk0, hk1, k, hk⟩, ?_, ?_⟩
  · intro hne
    have hf : ((fresh.run calls).moveToAngle x).isMovingFlag = true := by
      rw [moveToAngle_eq] at hne ⊢
      simpa using hne
    obtain ⟨h1, h2, -⟩ := updates_converge _ ((fresh.run calls).moveToAngle x) ts
      (by rw [moveToAngle_eq]; exact he) hf rfl hg hl
    refine ⟨?_, ?_⟩
    · simp only [getCurrentAngle, h1]; rw [moveToAngle_eq]
    · simp only [isMoving, h2, Bool.false_and]
  · intro heq
    have hf : ((fresh.run calls).moveToAngle x).isMovingFlag = false := by
      rw [moveToAngle_eq] at heq ⊢
      simpa using heq
    rw [updates_idle _ ts hf]
    refine ⟨by rw [moveToAngle_eq]; rfl, ?_, by simp only [isMoving, hf, Bool.false_and]⟩
    have hlt := abs_sub_lt_step _ hcons (by rw [heq]; rw [moveToAngle_eq])
    rw [moveToAngle_eq] at hlt
    exact hlt

/-- Witness of C10: a fresh enabled stepper sent to 90 degrees (step 800) and updated 801
times reads 90 degrees and is not moving. -/
theorem updates_reach_target_witness :
    (fresh.run [StepperCall.enable]).isEnabled = true ∧
    ((fresh.run [StepperCall.enable]).moveToAngle 90).gatesPass (List.replicate 801 0) ∧
    (((fresh.run [StepperCall.enable]).moveToAngle 90).updates
      (List.replicate 801 0)).getCurrentAngle = 90 ∧
    (((fresh.run [StepperCall.enable]).moveToAngle 90).updates
      (List.replicate 801 0)).isMoving = false := by
  have hn : normalize360 90 = 90 := normalize360_of_mem (by norm_num) (by norm_num)
  have hfl : ⌊(90 : ℝ) * STEPS_PER_DEGREE⌋ = 800 := by
    rw [STEPS_PER_DEGREE_eq, Int.floor_eq_iff]
    constructor <;> norm_num
  have hrun : fresh.run [StepperCall.enable] = { fresh with enabled := true } := rfl
  have hmv : (fresh.run [StepperCall.enable]).moveToAngle 90 =
      { fresh with enabled := true, targetAngle := 90, targetStep := 800,
                   isMovingFlag := true } := by
    rw [moveToAngle_eq, hn, hfl, hrun]; simp [fresh]
  have he : (fresh.run [StepperCall.enable]).isEnabled = true := rfl
  have hg : ((fresh.run [StepperCall.enable]).moveToAngle 90).gatesPass
      (List.replicate 801 0) := gatesPass_of_zero _ _ (by rw [hmv]; rfl)
  have h := updates_reach_target [StepperCall.enable] 90 (List.replicate 801 0) he hg
    (by rw [hmv, List.length_replicate]; decide)
  have hne : ((fresh.run [StepperCall.enable]).moveToAngle 90).targetStep ≠
      (fresh.run [StepperCall.enable]).currentStep := by
    rw [hmv, hrun]; simp [fresh]
  have h2 := h.2.1 hne
  rw [hn] at h2
  exact ⟨he, hg, h2.1, h2.2⟩

/-- Counterexample to C10: a fresh enabled stepper sent to 0.05 degrees, a target inside
step 0, never moves: after any number of updates `getCurrentAngle()` is 0, not 0.05. -/
theorem substep_target_not_reached :
    (fresh.run [StepperCall.enable]).isEnabled = true ∧
    ((fresh.run [StepperCall.enable]).moveToAngle 0.05).gatesPass [0] ∧
    (((fresh.run [StepperCall.enable]).moveToAngle 0.05).targetStep
      - ((fresh.run [StepperCall.enable]).moveToAngle 0.05).currentStep).natAbs + 1
      ≤ [0].length ∧
    normalize360 0.05 = 0.05 ∧
    (∀ ts : List ℕ,
      (((fresh.run [StepperCall.enable]).moveToAngle 0.05).updates ts).getCurrentAngle = 0 ∧
      (((fresh.run [StepperCall.enable]).moveToAngle 0.05).updates ts).getCurrentAngle
        ≠ normalize360 0.05) := by
  have hn : normalize360 0.05 = 0.05 := normalize360_of_mem (by norm_num) (by norm_num)
  have hfl : ⌊(0.05 : ℝ) * STEPS_PER_DEGREE⌋ = 0 := by
    rw [STEPS_PER_DEGREE_eq, Int.floor_eq_iff]
    constructor <;> norm_num
  have hrun : fresh.run [StepperCall.enable] = { fresh with enabled := true } := rfl
  have hmv : (fresh.run [StepperCall.enable]).moveToAngle 0.05 =
      { fresh with enabled := true, targetAngle := 0.05 } := by
    rw [moveToAngle_eq, hn, hfl, hrun]; simp [fresh]
  have hcur : ∀ ts : List ℕ,
      (((fresh.run [StepperCall.enable]).moveToAngle 0.05).updates ts).getCurrentAngle = 0 := by
    intro ts
    rw [updates_idle _ ts (by rw [hmv]; rfl), hmv]; rfl
  refine ⟨rfl, gatesPass_of_zero _ _ (by rw [hmv]; rfl), by rw [hmv]; simp [fresh], hn, ?_⟩
  intro ts
  refine ⟨hcur ts, ?_⟩
  rw [hcur ts, hn]; norm_num

end StepperMotor

/-! ## Servo motor -/

namespace ServoMotor

theorem servo_update_idle (m : ServoMotor) (t : ℕ) (h : m.isMovingFlag = false) :
    m.update t = m := by
  unfold update
  simp [h]

theorem servo_update_disabled (m : ServoMotor) (t : ℕ) (h : m.enabled = false) :
    m.update t = m := by
  unfold update
  simp [h]

theorem update_not_due (m : ServoMotor) (t : ℕ) (he : m.enabled = true)
    (hf : m.isMovingFlag = true) (hd : ¬ (ulongSub t m.lastUpdateTime : ℝ) / 1000 > 0) :
    m.update t = m := by
  unfold update
  rw [if_neg (by simp [he, hf])]
  simp only []
  rw [if_neg hd]

theorem update_active (m : ServoMotor) (t : ℕ) (he : m.enabled = true)
    (hf : m.isMovingFlag = true) (hd : (ulongSub t m.lastUpdateTime : ℝ) / 1000 > 0) :
    m.update t =
      let maxAngleChange := m.speed * ((ulongSub t m.lastUpdateTime : ℝ) / 1000)
      let angleDiff := m.targetAngle - m.currentAngle
      let angleDiff := if angleDiff > 180 then angleDiff - 360
        else if angleDiff < -180 then angleDiff + 360 else angleDiff
      let moved := if |angleDiff| ≤ maxAngleChange then m.targetAngle
        else if angleDiff > 0 then m.currentAngle + maxAngleChange
        else m.currentAngle - maxAngleChange
      let wrapped := normalize360 moved
      let capped := if wrapped > 180 then 180 else wrapped
      let clamped := if capped < 0 then 0 else capped
      { m with currentAngle := clamped,
               isMovingFlag := if |angleDiff| ≤ maxAngleChange then false else m.isMovingFlag,
               lastUpdateTime := t, lastAngle := clamped } := by
  unfold update
  rw [if_neg (by simp [he, hf])]
  simp only []
  rw [if_pos hd]
  by_cases h1 : |if m.targetAngle - m.currentAngle > 180 then m.targetAngle - m.currentAngle - 360
        else if m.targetAngle - m.currentAngle < -180 then m.targetAngle - m.currentAngle + 360
        else m.targetAngle - m.currentAngle| ≤ m.speed * ((ulongSub t m.lastUpdateTime : ℝ) / 1000)
  · simp only [if_pos h1]
    split_ifs <;> rfl
  · simp only [if_neg h1]
    split_ifs <;> rfl

/-- The two range clamps after the normalisation loops leave a value of `[0, 180]`. -/
theorem clamp_range (x : ℝ) :
    0 ≤ (if (if normalize360 x > 180 then 180 else normalize360 x) < 0 then 0
      else (if normalize360 x > 180 then 180 else normalize360 x)) ∧
    (if (if normalize360 x > 180 then 180 else normalize360 x) < 0 then 0
      else (if normalize360 x > 180 then 180 else normalize360 x)) ≤ 180 := by
  obtain ⟨-, -, h0, -⟩ := normalize360_spec x
  split_ifs <;> constructor <;> linarith

theorem clamp_of_mem {x : ℝ} (h0 : 0 ≤ x) (h1 : x ≤ 180) :
    (if (if normalize360 x > 180 then 180 else normalize360 x) < 0 then 0
      else (if normalize360 x > 180 then 180 else normalize360 x)) = x := by
  rw [normalize360_of_mem h0 (by linarith), if_neg (not_lt.mpr h1), if_neg (not_lt.mpr h0)]

theorem inRange_fresh : fresh.InRange := by
  unfold InRange fresh; norm_num

theorem inRange_update (m : ServoMotor) (t : ℕ) (h : m.InRange) : (m.update t).InRange := by
  by_cases he : m.enabled = true
  swap
  · rw [servo_update_disabled m t (by simpa using he)]; exact h
  by_cases hf : m.isMovingFlag = true
  swap
  · rw [servo_update_idle m t (by simpa using hf)]; exact h
  by_cases hd : (ulongSub t m.lastUpdateTime : ℝ) / 1000 > 0
  swap
  · rw [update_not_due m t he hf hd]; exact h
  rw [update_active m t he hf hd]
  exact ⟨clamp_range _, h.2⟩

theorem servo_moveToAngle_eq (m : ServoMotor) (a : ℝ) (now : ℕ) :
    m.moveToAngle a now =
      { m with targetAngle := if normalize360 a > 180 then 180 else normalize360 a,
               isMovingFlag := decide
                 (|(if normalize360 a > 180 then 180 else normalize360 a) - m.currentAngle| > 0.5),
               lastUpdateTime := now, lastAngle := m.currentAngle } := by
  obtain ⟨-, -, h0, -⟩ := normalize360_spec a
  unfold moveToAngle
  simp only []
  have e : (if (if normalize360 a > 180 then 180 else normalize360 a) < 0 then 0
      else (if normalize360 a > 180 then 180 else normalize360 a))
      = if normalize360 a > 180 then 180 else normalize360 a := by
    rw [if_neg]; split_ifs <;> linarith
  rw [e]

theorem target_range (a : ℝ) :
    0 ≤ (if normalize360 a > 180 then 180 else normalize360 a) ∧
      (if normalize360 a > 180 then 180 else normalize360 a) ≤ 180 := by
  obtain ⟨-, -, h0, -⟩ := normalize360_spec a
  split_ifs <;> constructor <;> linarith

theorem inRange_call (m : ServoMotor) (c : ServoCall) (h : m.InRange) : (m.call c).InRange := by
  cases c with
  | init => exact h
  | enable => exact h
  | disable => exact h
  | setSpeed v => exact h
  | moveToAngle a now =>
    simp only [call, servo_moveToAngle_eq]
    exact ⟨h.1, target_range a⟩
  | stop => exact ⟨h.1, h.1⟩
  | update t => exact inRange_update m t h

theorem inRange_run_of (calls : List ServoCall) :
    ∀ m : ServoMotor, m.InRange → (m.run calls).InRange := by
  induction calls with
  | nil => intro m h; exact h
  | cons c cs ih => intro m h; exact ih _ (inRange_call m c h)

theorem inRange_run (calls : List ServoCall) : (fresh.run calls).InRange :=
  inRange_run_of calls fresh inRange_fresh

theorem angleDiff_of_inRange (m : ServoMotor) (h : m.InRange) :
    (if m.targetAngle - m.currentAngle > 180 then m.targetAngle - m.currentAngle - 360
      else if m.targetAngle - m.currentAngle < -180 then m.targetAngle - m.currentAngle + 360
      else m.targetAngle - m.currentAngle) = m.targetAngle - m.currentAngle := by
  obtain ⟨⟨h1, h2⟩, ⟨h3, h4⟩⟩ := h
  rw [if_neg (by linarith), if_neg (by linarith)]

/-- An update that can cover the remaining difference snaps to the target. -/
theorem update_snap (m : ServoMotor) (t : ℕ) (he : m.enabled = true)
    (hf : m.isMovingFlag = true) (hd : (ulongSub t m.lastUpdateTime : ℝ) / 1000 > 0)
    (hr : m.InRange)
    (hs : |m.targetAngle - m.currentAngle| ≤
      m.speed * ((ulongSub t m.lastUpdateTime : ℝ) / 1000)) :
    m.update t = { m with currentAngle := m.targetAngle, isMovingFlag := false,
                          lastUpdateTime := t, lastAngle := m.targetAngle } := by
  rw [update_active m t he hf hd]
  simp only [angleDiff_of_inRange m hr, if_pos hs, clamp_of_mem hr.2.1 hr.2.2]

/-- An update that cannot cover the remaining difference moves by `speed * deltaTime`
toward the target and stays moving. -/
theorem update_move (m : ServoMotor) (t : ℕ) (he : m.enabled = true)
    (hf : m.isMovingFlag = true) (hd : (ulongSub t m.lastUpdateTime : ℝ) / 1000 > 0)
    (hr : m.InRange) (hsp : 0 < m.speed)
    (hs : m.speed * ((ulongSub t m.lastUpdateTime : ℝ) / 1000) <
      |m.targetAngle - m.currentAngle|) :
    ∃ c : ℝ, m.update t = { m with currentAngle := c, lastUpdateTime := t, lastAngle := c } ∧
      |m.targetAngle - c| = |m.targetAngle - m.currentAngle|
        - m.speed * ((ulongSub t m.lastUpdateTime : ℝ) / 1000) ∧
      |c - m.currentAngle| = m.speed * ((ulongSub t m.lastUpdateTime : ℝ) / 1000) ∧
      (0 ≤ c ∧ c ≤ 180) := by
  obtain ⟨⟨h1, h2⟩, ⟨h3, h4⟩⟩ := hr
  have hstep : 0 < m.speed * ((ulongSub t m.lastUpdateTime : ℝ) / 1000) := mul_pos hsp hd
  rw [update_active m t he hf hd]
  simp only [angleDiff_of_inRange m ⟨⟨h1, h2⟩, ⟨h3, h4⟩⟩, if_neg (not_le.mpr hs)]
  by_cases hpos : m.targetAngle - m.currentAngle > 0
  · rw [abs_of_pos hpos] at hs
    have hc0 : 0 ≤ m.currentAngle + m.speed * ((ulongSub t m.lastUpdateTime : ℝ) / 1000) := by
      linarith
    have hc1 : m.currentAngle + m.speed * ((ulongSub t m.lastUpdateTime : ℝ) / 1000) ≤ 180 := by
      linarith
    refine ⟨m.currentAngle + m.speed * ((ulongSub t m.lastUpdateTime : ℝ) / 1000),
      ?_, ?_, ?_, ⟨hc0, hc1⟩⟩
    · simp only [if_pos hpos, clamp_of_mem hc0 hc1, hf]
    · rw [abs_of_pos hpos, abs_of_pos (by linarith)]; ring
    · rw [add_sub_cancel_left, abs_of_pos hstep]
  · have hneg : m.targetAngle - m.currentAngle < 0 := by
      rcases lt_or_eq_of_le (not_lt.mp hpos) with h | h
      · exact h
      · rw [h, abs_zero] at hs; linarith
    rw [abs_of_neg hneg] at hs
    have hc0 : 0 ≤ m.currentAngle - m.speed * ((ulongSub t m.lastUpdateTime : ℝ) / 1000) := by
      linarith
    have hc1 : m.currentAngle - m.speed * ((ulongSub t m.lastUpdateTime : ℝ) / 1000) ≤ 180 := by
      linarith
    refine ⟨m.currentAngle - m.speed * ((ulongSub t m.lastUpdateTime : ℝ) / 1000),
      ?_, ?_, ?_, ⟨hc0, hc1⟩⟩
    · simp only [if_neg hpos, clamp_of_mem hc0 hc1, hf]
    · rw [abs_of_neg hneg, abs_of_neg (by linarith)]; ring
    · rw [sub_sub_cancel_left, abs_neg, abs_of_pos hstep]

theorem getLastD_ge_of_chain : ∀ (ts : List ℕ) (t : ℕ), List.Chain (· < ·) t ts →
    t ≤ ts.getLastD t := by
  intro ts
  induction ts with
  | nil => intro t _; exact le_rfl
  | cons u us ih =>
    intro t h
    rw [List.chain_cons] at h
    rw [List.getLastD_cons]
    exact le_trans h.1.le (ih u h.2)

/-- Without `disable` and `init`, a cleared moving flag means the servo is within half a
degree of its target. -/
theorem servo_flag_call (m : ServoMotor) (c : ServoCall)
    (hc : c ≠ ServoCall.disable ∧ c ≠ ServoCall.init) (hr : m.InRange)
    (h : m.isMovingFlag = false → |m.targetAngle - m.currentAngle| ≤ 0.5) :
    (m.call c).isMovingFlag = false →
      |(m.call c).targetAngle - (m.call c).currentAngle| ≤ 0.5 := by
  cases c with
  | init => exact absurd rfl hc.2
  | enable => exact h
  | disable => exact absurd rfl hc.1
  | setSpeed v => exact h
  | moveToAngle a now =>
    simp only [call, servo_moveToAngle_eq, decide_eq_false_iff_not, not_lt]
    exact fun e => e
  | stop =>
    intro _
    simp only [call, stop, sub_self, abs_zero]
    norm_num
  | update t =>
    simp only [call]
    by_cases he : m.enabled = true
    swap
    · rw [servo_update_disabled m t (by simpa using he)]; exact h
    by_cases hf : m.isMovingFlag = true
    swap
    · rw [servo_update_idle m t (by simpa using hf)]; exact h
    by_cases hd : (ulongSub t m.lastUpdateTime : ℝ) / 1000 > 0
    swap
    · rw [update_not_due m t he hf hd]; exact h
    by_cases hs : |m.targetAngle - m.currentAngle| ≤
        m.speed * ((ulongSub t m.lastUpdateTime : ℝ) / 1000)
    · rw [update_snap m t he hf hd hr hs]
      intro _
      simp only [sub_self, abs_zero]
      norm_num
    · rw [update_active m t he hf hd]
      simp only [angleDiff_of_inRange m hr, if_neg hs, hf]
      intro hcon
      exact absurd hcon (by simp)

theorem servo_flag_run_of (calls : List ServoCall)
    (hc : ∀ c ∈ calls, c ≠ ServoCall.disable ∧ c ≠ ServoCall.init) :
    ∀ m : ServoMotor, m.InRange →
      (m.isMovingFlag = false → |m.targetAngle - m.currentAngle| ≤ 0.5) →
      (m.run calls).isMovingFlag = false →
        |(m.run calls).targetAngle - (m.run calls).currentAngle| ≤ 0.5 := by
  induction calls with
  | nil => intro m _ h; exact h
  | cons c cs ih =>
    intro m hr h
    exact ih (fun d hd => hc d (List.mem_cons_of_mem _ hd)) _ (inRange_call m c hr)
      (servo_flag_call m c (hc c (List.mem_cons_self _ _)) hr h)

theorem run_enable : fresh.run [ServoCall.enable] = { fresh with enabled := true } := rfl

end ServoMotor

/-! ## Both actuators -/

/-- C7 (as amended): in every state of a `StepperMotor` or `ServoMotor` reachable from
construction, `isMoving()` implies that the actuator is enabled; when no `disable()` or
`init()` was called, an enabled actuator whose current angle differs from its target by more
than the threshold (one step for the stepper, 0.5 degrees for the servo) reports moving; and
right after `moveToAngle`, `isMoving()` holds iff the actuator is enabled and the target
differs from the current position (in step counts for the stepper, by more than 0.5 degrees
for the servo). -/
theorem isMoving_of_reachable (sc : List StepperCall) (vc : List ServoCall) :
    ((StepperMotor.fresh.run sc).isMoving = true →
      (StepperMotor.fresh.run sc).isEnabled = true) ∧
    ((∀ c ∈ sc, c ≠ StepperCall.disable ∧ c ≠ StepperCall.init) →
      (StepperMotor.fresh.run sc).isEnabled = true →
      |(StepperMotor.fresh.run sc).getCurrentAngle - (StepperMotor.fresh.run sc).targetAngle|
        > 1 / STEPS_PER_DEGREE →
      (StepperMotor.fresh.run sc).isMoving = true) ∧
    (∀ a : ℝ, ((StepperMotor.fresh.run sc).moveToAngle a).isMoving = true ↔
      ((StepperMotor.fresh.run sc).isEnabled = true ∧
        ((StepperMotor.fresh.run sc).moveToAngle a).targetStep ≠
          ((StepperMotor.fresh.run sc).moveToAngle a).currentStep)) ∧
    ((ServoMotor.fresh.run vc).isMoving = true → (ServoMotor.fresh.run vc).isEnabled = true) ∧
    ((∀ c ∈ vc, c ≠ ServoCall.disable ∧ c ≠ ServoCall.init) →
      (ServoMotor.fresh.run vc).isEnabled = true →
      |(ServoMotor.fresh.run vc).getCurrentAngle - (ServoMotor.fresh.run vc).targetAngle| > 0.5 →
      (ServoMotor.fresh.run vc).isMoving = true) ∧
    (∀ (a : ℝ) (now : ℕ), ((ServoMotor.fresh.run vc).moveToAngle a now).isMoving = true ↔
      ((ServoMotor.fresh.run vc).isEnabled = true ∧
        |((ServoMotor.fresh.run vc).moveToAngle a now).targetAngle -
          ((ServoMotor.fresh.run vc).moveToAngle a now).getCurrentAngle| > 0.5)) := by
  refine ⟨?_, ?_, ?_, ?_, ?_, ?_⟩
  · intro h
    simp only [StepperMotor.isMoving, Bool.and_eq_true] at h
    exact h.2
  · intro hc he hd
    have hflag := StepperMotor.flag_run_of sc hc StepperMotor.fresh (fun _ => rfl)
    have hcons := StepperMotor.consistent_run sc
    simp only [StepperMotor.isMoving, Bool.and_eq_true]
    refine ⟨?_, he⟩
    by_contra hf
    have hs := hflag (by simpa using hf)
    have := StepperMotor.abs_sub_lt_step _ hcons hs.symm
    simp only [StepperMotor.getCurrentAngle] at hd
    linarith
  · intro a
    simp only [StepperMotor.isMoving, StepperMotor.isEnabled, StepperMotor.moveToAngle_eq,
      Bool.and_eq_true, decide_eq_true_eq]
    exact And.comm
  · intro h
    simp only [ServoMotor.isMoving, Bool.and_eq_true] at h
    exact h.2
  · intro hc he hd
    have hflag := ServoMotor.servo_flag_run_of vc hc ServoMotor.fresh ServoMotor.inRange_fresh
      (fun _ => by simp only [ServoMotor.fresh, sub_self, abs_zero]; norm_num)
    simp only [ServoMotor.isMoving, Bool.and_eq_true]
    refine ⟨?_, he⟩
    by_contra hf
    have hs := hflag (by simpa using hf)
    simp only [ServoMotor.getCurrentAngle] at hd
    rw [abs_sub_comm] at hs
    linarith
  · intro a now
    simp only [ServoMotor.isMoving, ServoMotor.isEnabled, ServoMotor.getCurrentAngle,
      ServoMotor.servo_moveToAngle_eq, Bool.and_eq_true, decide_eq_true_eq]
    exact And.comm

/-- Counterexample to C7: after `enable(); moveToAngle(90); disable(); enable();` a stepper
and a servo are enabled and 90 degrees from their target, yet `isMoving()` is false; and a
stepper after `enable(); moveToAngle(0.2); update();` reports moving although it stands
less than one step from its target. -/
theorem isMoving_iff_threshold_fails :
    ((StepperMotor.fresh.run [StepperCall.enable, StepperCall.moveToAngle 90,
        StepperCall.disable, StepperCall.enable]).isMoving = false ∧
      (StepperMotor.fresh.run [StepperCall.enable, StepperCall.moveToAngle 90,
        StepperCall.disable, StepperCall.enable]).isEnabled = true ∧
      |(StepperMotor.fresh.run [StepperCall.enable, StepperCall.moveToAngle 90,
          StepperCall.disable, StepperCall.enable]).getCurrentAngle
        - (StepperMotor.fresh.run [StepperCall.enable, StepperCall.moveToAngle 90,
          StepperCall.disable, StepperCall.enable]).targetAngle| > 1 / STEPS_PER_DEGREE) ∧
    ((ServoMotor.fresh.run [ServoCall.enable, ServoCall.moveToAngle 90 0,
        ServoCall.disable, ServoCall.enable]).isMoving = false ∧
      (ServoMotor.fresh.run [ServoCall.enable, ServoCall.moveToAngle 90 0,
        ServoCall.disable, ServoCall.enable]).isEnabled = true ∧
      |(ServoMotor.fresh.run [ServoCall.enable, ServoCall.moveToAngle 90 0,
          ServoCall.disable, ServoCall.enable]).getCurrentAngle
        - (ServoMotor.fresh.run [ServoCall.enable, ServoCall.moveToAngle 90 0,
          ServoCall.disable, ServoCall.enable]).targetAngle| > 0.5) ∧
    ((StepperMotor.fresh.run [StepperCall.enable, StepperCall.moveToAngle 0.2,
        StepperCall.update 0]).isMoving = true ∧
      |(StepperMotor.fresh.run [StepperCall.enable, StepperCall.moveToAngle 0.2,
          StepperCall.update 0]).getCurrentAngle
        - (StepperMotor.fresh.run [StepperCall.enable, StepperCall.moveToAngle 0.2,
          StepperCall.update 0]).targetAngle| < 1 / STEPS_PER_DEGREE) := by
  have hn : normalize360 90 = 90 := normalize360_of_mem (by norm_num) (by norm_num)
  have hn2 : normalize360 0.2 = 0.2 := normalize360_of_mem (by norm_num) (by norm_num)
  have hfl : ⌊(0.2 : ℝ) * STEPS_PER_DEGREE⌋ = 1 := by
    rw [STEPS_PER_DEGREE_eq, Int.floor_eq_iff]
    constructor <;> norm_num
  have h90 : ¬ ((90 : ℝ) > 180) := by norm_num
  refine ⟨⟨?_, ?_, ?_⟩, ⟨?_, ?_, ?_⟩, ?_⟩
  · simp [StepperMotor.run, StepperMotor.call, StepperMotor.enable, StepperMotor.disable,
      StepperMotor.isMoving]
  · simp [StepperMotor.run, StepperMotor.call, StepperMotor.enable, StepperMotor.isEnabled]
  · simp only [StepperMotor.run, List.foldl, StepperMotor.call, StepperMotor.enable,
      StepperMotor.disable, StepperMotor.moveToAngle_eq, StepperMotor.getCurrentAngle,
      StepperMotor.fresh, hn, STEPS_PER_DEGREE_eq]
    rw [abs_of_neg (by norm_num)]; norm_num
  · simp [ServoMotor.run, ServoMotor.call, ServoMotor.enable, ServoMotor.disable,
      ServoMotor.isMoving]
  · simp [ServoMotor.run, ServoMotor.call, ServoMotor.enable, ServoMotor.isEnabled]
  · simp only [ServoMotor.run, List.foldl, ServoMotor.call, ServoMotor.enable,
      ServoMotor.disable, ServoMotor.servo_moveToAngle_eq, ServoMotor.getCurrentAngle,
      ServoMotor.fresh, hn, if_neg h90]
    rw [abs_of_neg (by norm_num)]; norm_num
  · have hmv : (StepperMotor.fresh.run [StepperCall.enable, StepperCall.moveToAngle 0.2]) =
        { StepperMotor.fresh with enabled := true, targetAngle := 0.2, targetStep := 1,
                                  isMovingFlag := true } := by
      simp only [StepperMotor.run, List.foldl, StepperMotor.call, StepperMotor.moveToAngle_eq,
        hn2, hfl, StepperMotor.enable, StepperMotor.fresh]
      simp
    have hrun : StepperMotor.fresh.run [StepperCall.enable, StepperCall.moveToAngle 0.2,
        StepperCall.update 0] =
        (StepperMotor.fresh.run [StepperCall.enable, StepperCall.moveToAngle 0.2]).update 0 := rfl
    have hu := StepperMotor.update_up
      (StepperMotor.fresh.run [StepperCall.enable, StepperCall.moveToAngle 0.2]) 0
      (by rw [hmv]) (by rw [hmv]) (by rw [hmv]; exact Nat.zero_le _)
      (by rw [hmv]; simp [StepperMotor.fresh])
    rw [hrun, hu, hmv]
    constructor
    · rfl
    · simp only [StepperMotor.getCurrentAngle, StepperMotor.stepsToAngle, StepperMotor.fresh,
        STEPS_PER_DEGREE_eq]
      rw [abs_of_neg (by norm_num)]; norm_num

/-- Witness of C7: after `enable(); moveToAngle(90);` both actuators report moving. -/
theorem isMoving_of_reachable_witness :
    (StepperMotor.fresh.run [StepperCall.enable, StepperCall.moveToAngle 90]).isMoving = true ∧
    (ServoMotor.fresh.run [ServoCall.enable, ServoCall.moveToAngle 90 0]).isMoving = true := by
  have h := isMoving_of_reachable [StepperCall.enable] [ServoCall.enable]
  have hn : normalize360 90 = 90 := normalize360_of_mem (by norm_num) (by norm_num)
  have hfl : ⌊(90 : ℝ) * STEPS_PER_DEGREE⌋ = 800 := by
    rw [STEPS_PER_DEGREE_eq, Int.floor_eq_iff]
    constructor <;> norm_num
  have h90 : ¬ ((90 : ℝ) > 180) := by norm_num
  constructor
  · refine (h.2.2.1 90).mpr ⟨rfl, ?_⟩
    simp only [StepperMotor.moveToAngle_eq, hn, hfl]
    simp [StepperMotor.run, StepperMotor.call, StepperMotor.enable, StepperMotor.fresh]
  · refine (h.2.2.2.2.2 90 0).mpr ⟨rfl, ?_⟩
    simp only [ServoMotor.servo_moveToAngle_eq, ServoMotor.getCurrentAngle, hn, if_neg h90]
    simp only [ServoMotor.run, List.foldl, ServoMotor.call, ServoMotor.enable, ServoMotor.fresh]
    norm_num

/-! ## Kinematics: angle ranges and the workspace of the configured arm -/

namespace Kinematics

/-- Whatever `inverse` returns has both angles produced by the normalisation loops, the
second from an `acos` value converted to degrees. -/
theorem inverse_some_form (k : Kinematics) (p : Point2D) (a : JointAngles)
    (h : k.inverse p = some a) :
    ∃ t c : ℝ, a = ⟨normalize360 t, normalize360 (arccos c * 180 / π)⟩ := by
  unfold inverse at h
  simp only [] at h
  by_cases hr : sqrt (p.x * p.x + p.y * p.y) > k.L1 + k.L2 ∨
      sqrt (p.x * p.x + p.y * p.y) < |k.L1 - k.L2|
  · rw [if_pos hr] at h; exact absurd h (by simp)
  · rw [if_neg hr] at h
    exact ⟨_, _, (Option.some.inj h).symm⟩

theorem arccos_degrees_range (c : ℝ) :
    0 ≤ arccos c * 180 / π ∧ arccos c * 180 / π ≤ 180 := by
  have h0 := arccos_nonneg c
  have h1 := arccos_le_pi c
  have hpi := pi_pos
  constructor
  · positivity
  · rw [div_le_iff₀ hpi]; nlinarith

/-- C11: for positive link lengths and every reachable target, `inverse` succeeds and the
angles it returns satisfy `theta1 ∈ [0, 360)` and `theta2 ∈ [0, 360)`; moreover
`theta2 ∈ [0, 180]`, the elbow-up solution. -/
theorem inverse_angles_normalized (k : Kinematics) (p : Point2D)
    (_h1 : 0 < k.L1) (_h2 : 0 < k.L2) (hreach : k.isReachable p = true) :
    ∃ a : JointAngles, k.inverse p = some a ∧
      (0 ≤ a.theta1 ∧ a.theta1 < 360) ∧ (0 ≤ a.theta2 ∧ a.theta2 < 360) ∧
      (0 ≤ a.theta2 ∧ a.theta2 ≤ 180) := by
  have hsome : (k.inverse p).isSome = true := by
    rw [inverse_isSome_iff]
    exact (isReachable_iff k p).mp hreach
  obtain ⟨a, ha⟩ := Option.isSome_iff_exists.mp hsome
  obtain ⟨t, c, hform⟩ := inverse_some_form k p a ha
  obtain ⟨-, -, ht0, ht1⟩ := normalize360_spec t
  obtain ⟨hc0, hc1⟩ := arccos_degrees_range c
  have h2 : a.theta2 = arccos c * 180 / π := by
    rw [hform]; exact normalize360_of_mem hc0 (by linarith)
  refine ⟨a, ha, ?_, ?_, ?_⟩
  · rw [hform]; exact ⟨ht0, ht1⟩
  · rw [h2]; exact ⟨hc0, by linarith⟩
  · rw [h2]; exact ⟨hc0, hc1⟩

/-- Witness of C11: the configured arm and the target `(200, 0)`. -/
theorem inverse_angles_normalized_witness :
    0 < configured.L1 ∧ 0 < configured.L2 ∧ configured.isReachable ⟨200, 0⟩ = true ∧
    ∃ a : JointAngles, configured.inverse ⟨200, 0⟩ = some a ∧
      (0 ≤ a.theta1 ∧ a.theta1 < 360) ∧ (0 ≤ a.theta2 ∧ a.theta2 < 360) ∧
      (0 ≤ a.theta2 ∧ a.theta2 ≤ 180) := by
  have hL1 : (0 : ℝ) < configured.L1 := by
    simp only [configured, ARM_LENGTH_1]; norm_num
  have hL2 : (0 : ℝ) < configured.L2 := by
    simp only [configured, ARM_LENGTH_2]; norm_num
  have hr : configured.isReachable ⟨200, 0⟩ = true := by
    rw [isReachable_iff]
    simp only [sqrt_axis 200 (by norm_num), getMinReach, getMaxReach, configured,
      ARM_LENGTH_1, ARM_LENGTH_2]
    norm_num
  exact ⟨hL1, hL2, hr, inverse_angles_normalized configured ⟨200, 0⟩ hL1 hL2 hr⟩

theorem sqrt_200_bounds : 0 ≤ sqrt ((10 : ℝ) * 10 + 10 * 10) ∧
    sqrt ((10 : ℝ) * 10 + 10 * 10) ≤ 300 := by
  refine ⟨sqrt_nonneg _, ?_⟩
  rw [sqrt_le_iff]; constructor <;> norm_num

/-- With `L1 = L2 = 150` the workspace is the disc of radius 300. -/
theorem configured_reachable_iff (p : Point2D) :
    configured.isReachable p = true ↔ sqrt (p.x * p.x + p.y * p.y) ≤ 300 := by
  have hmin : configured.getMinReach = 0 := by
    simp only [getMinReach, configured, ARM_LENGTH_1, ARM_LENGTH_2, sub_self, abs_zero]
  have hmax : configured.getMaxReach = 300 := by
    simp only [getMaxReach, configured, ARM_LENGTH_1, ARM_LENGTH_2]; norm_num
  rw [isReachable_iff, hmin, hmax]
  exact ⟨fun h => h.2, fun h => ⟨sqrt_nonneg _, h⟩⟩

theorem configured_unreachable_400 : configured.isReachable ⟨400, 0⟩ = false := by
  rw [← Bool.not_eq_true, configured_reachable_iff]
  simp only [sqrt_axis 400 (by norm_num)]; norm_num

theorem configured_reachable_origin : configured.isReachable ⟨0, 0⟩ = true := by
  rw [configured_reachable_iff]
  simp

/-- With `L1 = L2 = 150` the minimum reach is 0 and `isReachable` returns true for
`(10, 10)`. -/
theorem near_base_is_reachable :
    configured.getMinReach = 0 ∧ configured.isReachable ⟨10, 10⟩ = true := by
  have hmin : configured.getMinReach = 0 := by
    simp only [getMinReach, configured, ARM_LENGTH_1, ARM_LENGTH_2, sub_self, abs_zero]
  refine ⟨hmin, ?_⟩
  rw [configured_reachable_iff]
  exact sqrt_200_bounds.2

/-- C12, as the code runs: with `L1 = L2 = 150`, `isReachable` returns false for the points
`(400, 0)` and `(0, 400)`, which are beyond the maximum reach 300, but it returns true for
`(10, 10)`, the third point on which `testIsReachable_OutOfRange` asserts false: the minimum
reach is `|L1 - L2| = 0`, so no point is too close to the base. -/
theorem out_of_range_points :
    configured.getMaxReach = 300 ∧ configured.getMinReach = 0 ∧
    configured.isReachable ⟨400, 0⟩ = false ∧ configured.isReachable ⟨0, 400⟩ = false ∧
    configured.isReachable ⟨10, 10⟩ = true ∧
    (∀ p : Point2D, configured.isReachable p = true ↔
      sqrt (p.x * p.x + p.y * p.y) ≤ 300) := by
  have hmin : configured.getMinReach = 0 := by
    simp only [getMinReach, configured, ARM_LENGTH_1, ARM_LENGTH_2, sub_self, abs_zero]
  have hmax : configured.getMaxReach = 300 := by
    simp only [getMaxReach, configured, ARM_LENGTH_1, ARM_LENGTH_2]; norm_num
  have e2 : sqrt ((0 : ℝ) * 0 + 400 * 400) = 400 := by
    rw [zero_mul, zero_add, sqrt_mul_self (by norm_num)]
  refine ⟨hmax, hmin, configured_unreachable_400, ?_, ?_, configured_reachable_iff⟩
  · rw [← Bool.not_eq_true, configured_reachable_iff]; simp only [e2]; norm_num
  · rw [configured_reachable_iff]; exact sqrt_200_bounds.2

end Kinematics

/-! ## Planner: short segments, speed -/

namespace Planner

/-- C13: whenever the distance from `start` to `finish` is below `MIN_SEGMENT_LENGTH`
(0.1 mm), `planPath` appends exactly one point, equal to `finish`, and returns 1. -/
theorem planPath_below_min_segment (p : Planner) (start finish : Point2D) (q : List Point2D)
    (h : distance start finish < MIN_SEGMENT_LENGTH) :
    MIN_SEGMENT_LENGTH = 0.1 ∧
    (p.planPath start finish q).2 = q ++ [finish] ∧ (p.planPath start finish q).1 = 1 := by
  rw [planPath_short p start finish q h]
  exact ⟨rfl, rfl, rfl⟩

/-- Witness of C13: `planPath(p, p)` with `p = (100, 100)` pushes the single point `p`. -/
theorem planPath_below_min_segment_witness :
    distance ⟨100, 100⟩ ⟨100, 100⟩ < MIN_SEGMENT_LENGTH ∧
    ((Planner.new 50 200).planPath ⟨100, 100⟩ ⟨100, 100⟩ []).2 = [] ++ [⟨100, 100⟩] ∧
    ((Planner.new 50 200).planPath ⟨100, 100⟩ ⟨100, 100⟩ []).1 = 1 ∧
    (∀ (p : Planner) (pt : Point2D) (q : List Point2D),
      (p.planPath pt pt q).2 = q ++ [pt] ∧ (p.planPath pt pt q).1 = 1) := by
  have hself : ∀ pt : Point2D, distance pt pt < MIN_SEGMENT_LENGTH := by
    intro pt
    rw [distance_self]; unfold MIN_SEGMENT_LENGTH; norm_num
  have h := planPath_below_min_segment (Planner.new 50 200) ⟨100, 100⟩ ⟨100, 100⟩ []
    (hself _)
  exact ⟨hself _, h.2.1, h.2.2,
    fun p pt q => (planPath_below_min_segment p pt pt q (hself pt)).2⟩

/-- While the quotient `d / s / interval` of the slower planner is in the range where `(int)`
and the `int` addition are exact, the number of points `planPath` pushes, which is the value it
returns, does not increase with the speed: for speeds `0 < s1 ≤ s2` the count at `s2` is at
most the count at `s1`. -/
theorem planPath_count_antitone (p1 p2 : Planner) (start finish : Point2D)
    (q : List Point2D)
    (hi1 : p1.interpolationInterval = 0.01) (hi2 : p2.interpolationInterval = 0.01)
    (hs1 : 0 < p1.speed) (hs : p1.speed ≤ p2.speed)
    (hr : distance start finish / p1.speed / 0.01 < 2147483647) :
    ∃ pts1 pts2 : List Point2D,
      (p1.planPath start finish q).2 = q ++ pts1 ∧
      (p2.planPath start finish q).2 = q ++ pts2 ∧
      (p1.planPath start finish q).1 = pts1.length ∧
      (p2.planPath start finish q).1 = pts2.length ∧
      pts2.length ≤ pts1.length := by
  have hs2 : 0 < p2.speed := lt_of_lt_of_le hs1 hs
  by_cases h : distance start finish < MIN_SEGMENT_LENGTH
  · refine ⟨[finish], [finish], ?_, ?_, ?_, ?_, le_rfl⟩ <;>
      rw [planPath_short _ start finish q h] <;> rfl
  · have hd := not_lt.mp h
    obtain ⟨n1, pts1, -, hn1, hp1, hl1, -⟩ := planPath_long_points p1 start finish q hd
    obtain ⟨n2, pts2, -, hn2, hp2, hl2, -⟩ := planPath_long_points p2 start finish q hd
    have hdn := distance_nonneg start finish
    have hle : distance start finish / p2.speed / 0.01 ≤
        distance start finish / p1.speed / 0.01 := by
      apply div_le_div_of_nonneg_right _ (by norm_num)
      exact div_le_div_of_nonneg_left hdn hs1 hs
    rw [numPoints_eq p1 start finish hi1 hs1 hr] at hn1
    rw [numPoints_eq p2 start finish hi2 hs2 (lt_of_le_of_lt hle hr)] at hn2
    have hfl := Int.floor_mono hle
    have hn : (n2 : ℤ) ≤ n1 := by
      rw [hn1, hn2]
      exact max_le_max le_rfl (by omega)
    refine ⟨pts1, pts2, by rw [hp1], by rw [hp2], ?_, ?_, ?_⟩
    · rw [hp1, hl1]; push_cast; rfl
    · rw [hp2, hl2]; push_cast; rfl
    · rw [hl1, hl2]; omega

/-- C15: for every input `v`, after `setSpeed(v)` the planner speed is `v` clamped into
`[0, MAX_SPEED]`, that is `min (max v 0) 100`; the other members are unchanged. -/
theorem setSpeed_clamps (p : Planner) (v : ℝ) :
    MAX_SPEED = 100 ∧
    (p.setSpeed v).speed = min (max v 0) MAX_SPEED ∧
    (0 ≤ (p.setSpeed v).speed ∧ (p.setSpeed v).speed ≤ MAX_SPEED) ∧
    (p.setSpeed v).acceleration = p.acceleration ∧
    (p.setSpeed v).interpolationInterval = p.interpolationInterval ∧
    (p.setSpeed v).useSCurve = p.useSCurve ∧ (p.setSpeed v).jerkLimit = p.jerkLimit := by
  have hM : MAX_SPEED = 100 := rfl
  unfold setSpeed
  simp only [hM]
  by_cases h1 : v > 100
  · simp only [if_pos h1]
    rw [if_neg (by norm_num)]
    refine ⟨trivial, ?_, ⟨by norm_num, le_rfl⟩, rfl, rfl, rfl, rfl⟩
    show (100 : ℝ) = min (max v 0) 100
    rw [min_eq_right (le_max_of_le_left h1.le)]
  · simp only [if_neg h1]
    by_cases h2 : v < 0
    · rw [if_pos h2]
      refine ⟨trivial, ?_, ⟨le_rfl, by norm_num⟩, rfl, rfl, rfl, rfl⟩
      show (0 : ℝ) = min (max v 0) 100
      rw [max_eq_right h2.le, min_eq_left (by norm_num)]
    · rw [if_neg h2]
      push_neg at h1 h2
      refine ⟨trivial, ?_, ⟨h2, h1⟩, rfl, rfl, rfl, rfl⟩
      show v = min (max v 0) 100
      rw [max_eq_left h2, min_eq_left h1]

end Planner

/-! ## Stepper motor: targets and range -/

namespace StepperMotor

/-- Over the reals, where the normalisation loops are total: for every angle `a`,
`moveToAngle(a)` records as target angle the unique value in `[0, 360)` congruent to `a` modulo
360, `a - 360 * ⌊a / 360⌋`, with target step `⌊target * STEPS_PER_DEGREE⌋`; `moveToAngle(360)`
records target 0. -/
theorem moveToAngle_records_normalized (m : StepperMotor) (a : ℝ) :
    (m.moveToAngle a).targetAngle = a - 360 * ⌊a / 360⌋ ∧
    (0 ≤ (m.moveToAngle a).targetAngle ∧ (m.moveToAngle a).targetAngle < 360) ∧
    (∀ t : ℝ, 0 ≤ t → t < 360 → (∃ k : ℤ, t = a + 360 * k) →
      t = (m.moveToAngle a).targetAngle) ∧
    (m.moveToAngle a).targetStep = ⌊(m.moveToAngle a).targetAngle * STEPS_PER_DEGREE⌋ ∧
    (m.moveToAngle 360).targetAngle = 0 ∧ (m.moveToAngle 360).targetStep = 0 := by
  obtain ⟨k, hk, h0, h1⟩ := normalize360_spec a
  have h360 : normalize360 360 = 0 := by
    rw [normalize360_eq_floor]
    have : ⌊(360 : ℝ) / 360⌋ = 1 := by
      rw [div_self (by norm_num)]; exact Int.floor_one
    rw [this]; norm_num
  refine ⟨?_, ?_, ?_, ?_, ?_, ?_⟩
  · rw [moveToAngle_eq]; exact normalize360_eq_floor a
  · rw [moveToAngle_eq]; exact ⟨h0, h1⟩
  · intro t ht0 ht1 hcong
    obtain ⟨j, hj⟩ := hcong
    rw [moveToAngle_eq]
    show t = normalize360 a
    have hjk : (j : ℝ) = k := by
      have hlt : ((j - k : ℤ) : ℝ) * 360 < 360 := by push_cast; linarith
      have hgt : -360 < ((j - k : ℤ) : ℝ) * 360 := by push_cast; linarith
      have h3 : ((j - k : ℤ) : ℝ) < 1 := by linarith
      have h4 : (-1 : ℝ) < ((j - k : ℤ) : ℝ) := by linarith
      have h5 : j - k < 1 := by exact_mod_cast h3
      have h6 : -1 < j - k := by exact_mod_cast h4
      have : j = k := by omega
      rw [this]
    rw [hj, hk, hjk]
  · rw [moveToAngle_eq]
  · rw [moveToAngle_eq, h360]
  · rw [moveToAngle_eq, h360]; simp

/-- C18: after every sequence of `init`, `enable`, `disable`, `setSpeed`, `moveToAngle`,
`stop` and `update` calls on a freshly constructed stepper, `getCurrentAngle()` lies in
`[0, 360)`; in particular after `moveToAngle` over 0, 90, 180, 270, 360. -/
theorem getCurrentAngle_in_range (calls : List StepperCall) :
    (0 ≤ (fresh.run calls).getCurrentAngle ∧ (fresh.run calls).getCurrentAngle < 360) ∧
    (0 ≤ (fresh.run [StepperCall.init, StepperCall.enable, StepperCall.moveToAngle 0,
        StepperCall.moveToAngle 90, StepperCall.moveToAngle 180, StepperCall.moveToAngle 270,
        StepperCall.moveToAngle 360]).getCurrentAngle ∧
      (fresh.run [StepperCall.init, StepperCall.enable, StepperCall.moveToAngle 0,
        StepperCall.moveToAngle 90, StepperCall.moveToAngle 180, StepperCall.moveToAngle 270,
        StepperCall.moveToAngle 360]).getCurrentAngle < 360) :=
  ⟨(consistent_run calls).2.2.1, (consistent_run _).2.2.1⟩

end StepperMotor

/-! ## Servo motor: one update -/

namespace ServoMotor

/-- C17: for an enabled, moving servo (in a state reachable from construction) with
`speed > 0` and elapsed time `dt > 0` since its last update: if
`|target - current| ≤ speed * dt`, `update()` sets the current angle exactly to the target
and clears the moving flag; otherwise it moves the current angle by exactly `speed * dt`
toward the target and stays moving.  In both cases the current angle changes by at most
`speed * dt`. -/
theorem update_step (calls : List ServoCall) (t : ℕ)
    (hmov : (fresh.run calls).isMoving = true) (hsp : 0 < (fresh.run calls).speed)
    (hdt : 0 < (ulongSub t (fresh.run calls).lastUpdateTime : ℝ) / 1000) :
    (|(fresh.run calls).targetAngle - (fresh.run calls).getCurrentAngle|
        ≤ (fresh.run calls).speed * ((ulongSub t (fresh.run calls).lastUpdateTime : ℝ) / 1000) →
      ((fresh.run calls).update t).getCurrentAngle = (fresh.run calls).targetAngle ∧
      ((fresh.run calls).update t).isMovingFlag = false ∧
      ((fresh.run calls).update t).isMoving = false) ∧
    ((fresh.run calls).speed * ((ulongSub t (fresh.run calls).lastUpdateTime : ℝ) / 1000)
        < |(fresh.run calls).targetAngle - (fresh.run calls).getCurrentAngle| →
      |((fresh.run calls).update t).getCurrentAngle - (fresh.run calls).getCurrentAngle|
        = (fresh.run calls).speed * ((ulongSub t (fresh.run calls).lastUpdateTime : ℝ) / 1000) ∧
      |(fresh.run calls).targetAngle - ((fresh.run calls).update t).getCurrentAngle|
        = |(fresh.run calls).targetAngle - (fresh.run calls).getCurrentAngle|
          - (fresh.run calls).speed
            * ((ulongSub t (fresh.run calls).lastUpdateTime : ℝ) / 1000) ∧
      ((fresh.run calls).update t).isMoving = true) ∧
    |((fresh.run calls).update t).getCurrentAngle - (fresh.run calls).getCurrentAngle|
      ≤ (fresh.run calls).speed * ((ulongSub t (fresh.run calls).lastUpdateTime : ℝ) / 1000) ∧
    ((fresh.run calls).update t).targetAngle = (fresh.run calls).targetAngle := by
  have hr := inRange_run calls
  simp only [isMoving, Bool.and_eq_true] at hmov
  obtain ⟨hf, he⟩ := hmov
  simp only [getCurrentAngle]
  have hsnap : |(fresh.run calls).targetAngle - (fresh.run calls).currentAngle|
        ≤ (fresh.run calls).speed * ((ulongSub t (fresh.run calls).lastUpdateTime : ℝ) / 1000) →
      ((fresh.run calls).update t).currentAngle = (fresh.run calls).targetAngle ∧
      ((fresh.run calls).update t).isMovingFlag = false ∧
      ((fresh.run calls).update t).isMoving = false := by
    intro hs
    rw [update_snap _ t he hf hdt hr hs]
    exact ⟨rfl, rfl, rfl⟩
  have hmove : (fresh.run calls).speed * ((ulongSub t (fresh.run calls).lastUpdateTime : ℝ) / 1000)
        < |(fresh.run calls).targetAngle - (fresh.run calls).currentAngle| →
      |((fresh.run calls).update t).currentAngle - (fresh.run calls).currentAngle|
        = (fresh.run calls).speed * ((ulongSub t (fresh.run calls).lastUpdateTime : ℝ) / 1000) ∧
      |(fresh.run calls).targetAngle - ((fresh.run calls).update t).currentAngle|
        = |(fresh.run calls).targetAngle - (fresh.run calls).currentAngle|
          - (fresh.run calls).speed
            * ((ulongSub t (fresh.run calls).lastUpdateTime : ℝ) / 1000) ∧
      ((fresh.run calls).update t).isMoving = true := by
    intro hs
    obtain ⟨c, hu, hrem, hstep, -⟩ := update_move _ t he hf hdt hr hsp hs
    rw [hu]
    refine ⟨hstep, hrem, ?_⟩
    simp only [isMoving, hf, he, Bool.and_self]
  refine ⟨hsnap, hmove, ?_, ?_⟩
  · by_cases hs : |(fresh.run calls).targetAngle - (fresh.run calls).currentAngle|
        ≤ (fresh.run calls).speed * ((ulongSub t (fresh.run calls).lastUpdateTime : ℝ) / 1000)
    · rw [(hsnap hs).1]; exact hs
    · exact le_of_eq (hmove (not_le.mp hs)).1
  · by_cases hs : |(fresh.run calls).targetAngle - (fresh.run calls).currentAngle|
        ≤ (fresh.run calls).speed * ((ulongSub t (fresh.run calls).lastUpdateTime : ℝ) / 1000)
    · rw [update_snap _ t he hf hdt hr hs]
    · obtain ⟨c, hu, -⟩ := update_move _ t he hf hdt hr hsp (not_le.mp hs)
      rw [hu]

/-- Witness of C17: a fresh servo after `enable(); moveToAngle(90)` at clock reading 0, updated
at 500 ms (speed 90 degrees per second): the angle moves by 45 degrees and the servo stays
moving. -/
theorem update_step_witness :
    (fresh.run [ServoCall.enable, ServoCall.moveToAngle 90 0]).isMoving = true ∧
    0 < (fresh.run [ServoCall.enable, ServoCall.moveToAngle 90 0]).speed ∧
    0 < (ulongSub 500 (fresh.run [ServoCall.enable, ServoCall.moveToAngle 90 0]).lastUpdateTime
      : ℝ) / 1000 ∧
    |((fresh.run [ServoCall.enable, ServoCall.moveToAngle 90 0]).update 500).getCurrentAngle
      - (fresh.run [ServoCall.enable, ServoCall.moveToAngle 90 0]).getCurrentAngle| = 45 ∧
    ((fresh.run [ServoCall.enable, ServoCall.moveToAngle 90 0]).update 500).isMoving
      = true := by
  have hn : normalize360 90 = 90 := normalize360_of_mem (by norm_num) (by norm_num)
  have h90 : ¬ ((90 : ℝ) > 180) := by norm_num
  have hrun : fresh.run [ServoCall.enable, ServoCall.moveToAngle 90 0]
      = (fresh.run [ServoCall.enable]).moveToAngle 90 0 := rfl
  have hcur : (fresh.run [ServoCall.enable, ServoCall.moveToAngle 90 0]).getCurrentAngle = 0 := by
    rw [hrun, servo_moveToAngle_eq]; rfl
  have hspeed : (fresh.run [ServoCall.enable, ServoCall.moveToAngle 90 0]).speed = 90 := by
    rw [hrun, servo_moveToAngle_eq]; rfl
  have hlast : (fresh.run [ServoCall.enable, ServoCall.moveToAngle 90 0]).lastUpdateTime = 0 := by
    rw [hrun, servo_moveToAngle_eq]
  have htg : (fresh.run [ServoCall.enable, ServoCall.moveToAngle 90 0]).targetAngle = 90 := by
    rw [hrun, servo_moveToAngle_eq, hn]; simp only []; norm_num
  have hmov : (fresh.run [ServoCall.enable, ServoCall.moveToAngle 90 0]).isMoving = true := by
    rw [hrun, servo_moveToAngle_eq, hn, run_enable]
    simp only [isMoving, fresh, if_neg h90, Bool.and_true, decide_eq_true_eq]
    norm_num
  have hsub : ulongSub 500 0 = 500 := ulongSub_of_le (Nat.zero_le _) (by decide)
  have hsp : 0 < (fresh.run [ServoCall.enable, ServoCall.moveToAngle 90 0]).speed := by
    rw [hspeed]; norm_num
  have hdt : 0 < (ulongSub 500
      (fresh.run [ServoCall.enable, ServoCall.moveToAngle 90 0]).lastUpdateTime : ℝ) / 1000 := by
    rw [hlast, hsub]; norm_num
  have h := (update_step [ServoCall.enable, ServoCall.moveToAngle 90 0] 500 hmov hsp hdt).2.1
    (by rw [hspeed, hlast, hsub, htg, hcur]; norm_num)
  rw [hspeed, hlast, hsub] at h
  refine ⟨hmov, hsp, hdt, ?_, h.2.2⟩
  rw [h.1]; norm_num

end ServoMotor

/-! ## Command dispatch loop -/

theorem sendAll_of_room (waits : ℕ → Option ℕ) (ticksToWait : Option ℕ)
    (hroom : ∀ i, ∃ w, waits i = some w ∧ ∀ t, ticksToWait = some t → w ≤ t) :
    ∀ (pts : List Point2D) (i : ℕ) (q : List Point2D),
      sendAll waits ticksToWait i pts q = some (q ++ pts) := by
  intro pts
  induction pts with
  | nil => intro i q; simp [sendAll]
  | cons pt pts ih =>
    intro i q
    obtain ⟨w, hw, hle⟩ := hroom i
    cases ticksToWait with
    | none =>
      simp only [sendAll, xQueueSend, hw]
      rw [ih]; simp
    | some t =>
      simp only [sendAll, xQueueSend, hw, if_pos (hle t rfl)]
      rw [ih]; simp

namespace DispatchState

theorem moveTo_unreachable (kin : Kinematics) (waits : ℕ → Option ℕ) (s : DispatchState)
    (cmd : Command) (hu : kin.isReachable cmd.target = false) :
    moveTo kin waits s cmd = some s := by
  unfold moveTo
  simp only [hu, Bool.not_false, if_true]

theorem moveTo_reachable (kin : Kinematics) (waits : ℕ → Option ℕ) (s : DispatchState)
    (cmd : Command) (hr : kin.isReachable cmd.target = true) :
    moveTo kin waits s cmd =
      (sendAll waits (some 100) 0
        (((if cmd.speed > 0 then s.planner.setSpeed cmd.speed else s.planner).planPath
          s.currentPos cmd.target []).2) s.motionQueue).map
        (fun motionQueue =>
          { planner := if cmd.speed > 0 then s.planner.setSpeed cmd.speed else s.planner,
            currentPos := cmd.target, motionQueue := motionQueue,
            robotState := { s.robotState with currentPosition := cmd.target } }) := by
  unfold moveTo
  simp only [hr, Bool.not_true, Bool.false_eq_true, if_false]
  cases sendAll waits (some 100) 0
    (((if cmd.speed > 0 then s.planner.setSpeed cmd.speed else s.planner).planPath
      s.currentPos cmd.target []).2) s.motionQueue <;> rfl

theorem home_eq (waits : ℕ → Option ℕ) (s : DispatchState) :
    home waits s =
      (sendAll waits none 0 ((s.planner.planPath s.currentPos ⟨0, 0⟩ []).2) s.motionQueue).map
        (fun motionQueue =>
          { planner := s.planner, currentPos := ⟨0, 0⟩, motionQueue := motionQueue,
            robotState := { s.robotState with currentPosition := ⟨0, 0⟩, isHomed := true } }) := by
  unfold home
  simp only []
  cases sendAll waits none 0 ((s.planner.planPath s.currentPos ⟨0, 0⟩ []).2) s.motionQueue <;> rfl

/-- C19: when the dispatch loop receives a `MOVE_TO` whose target is unreachable, the command
is a no-op: no point is pushed to the motion queue, the last-commanded position is unchanged,
and the planner speed is unchanged even if the command carries a positive speed. -/
theorem moveTo_unreachable_is_noop (kin : Kinematics) (waits : ℕ → Option ℕ)
    (s : DispatchState) (cmd : Command)
    (ht : cmd.type = CommandType.MOVE_TO) (hu : kin.isReachable cmd.target = false) :
    ∃ s2 : DispatchState, handleCommand kin waits s cmd = some s2 ∧
      s2.motionQueue = s.motionQueue ∧ s2.currentPos = s.currentPos ∧
      s2.planner.speed = s.planner.speed ∧ s2 = s := by
  refine ⟨s, ?_, rfl, rfl, rfl, rfl⟩
  unfold handleCommand
  rw [ht]
  exact moveTo_unreachable kin waits s cmd hu

/-- Witness of C19: the configured arm, target `(400, 0)`, commanded speed 80 mm/s. -/
theorem moveTo_unreachable_is_noop_witness :
    Kinematics.configured.isReachable (⟨CommandType.MOVE_TO, ⟨400, 0⟩, 80⟩ : Command).target
      = false ∧
    ∃ s2 : DispatchState,
      handleCommand Kinematics.configured (fun _ => some 0) initial
        ⟨CommandType.MOVE_TO, ⟨400, 0⟩, 80⟩ = some s2 ∧
      s2.motionQueue = initial.motionQueue ∧ s2.currentPos = initial.currentPos ∧
      s2.planner.speed = initial.planner.speed ∧ s2 = initial := by
  have hu : Kinematics.configured.isReachable
      (⟨CommandType.MOVE_TO, ⟨400, 0⟩, 80⟩ : Command).target = false :=
    Kinematics.configured_unreachable_400
  exact ⟨hu, moveTo_unreachable_is_noop Kinematics.configured (fun _ => some 0) initial
    ⟨CommandType.MOVE_TO, ⟨400, 0⟩, 80⟩ rfl hu⟩

/-- When every send finds room within 100 ms, the origin is reachable and the command
carries no positive speed, `HOME` does what `MOVE_TO` to the origin does and sets the homed
flag. -/
theorem home_eq_moveTo_of_room (kin : Kinematics) (waits : ℕ → Option ℕ) (s : DispatchState)
    (cmd : Command) (hroom : ∀ i, ∃ w, waits i = some w ∧ w ≤ 100)
    (hreach : kin.isReachable ⟨0, 0⟩ = true) (htarget : cmd.target = ⟨0, 0⟩)
    (hspeed : ¬ cmd.speed > 0) :
    home waits s = (moveTo kin waits s cmd).map
      (fun s2 => { s2 with robotState := { s2.robotState with isHomed := true } }) := by
  rw [home_eq, moveTo_reachable kin waits s cmd (by rw [htarget]; exact hreach), htarget,
    if_neg hspeed]
  rw [sendAll_of_room waits none (fun i => by
      obtain ⟨w, hw, -⟩ := hroom i
      exact ⟨w, hw, fun t ht => by cases ht⟩),
    sendAll_of_room waits (some 100) (fun i => by
      obtain ⟨w, hw, hle⟩ := hroom i
      exact ⟨w, hw, fun t ht => by cases ht; exact hle⟩)]
  rfl

theorem handleCommand_moveTo (kin : Kinematics) (waits : ℕ → Option ℕ) (s : DispatchState)
    (cmd : Command) (h : cmd.type = CommandType.MOVE_TO) :
    handleCommand kin waits s cmd = moveTo kin waits s cmd := by
  simp only [handleCommand, h]

theorem handleCommand_home (kin : Kinematics) (waits : ℕ → Option ℕ) (s : DispatchState)
    (cmd : Command) (h : cmd.type = CommandType.HOME) :
    handleCommand kin waits s cmd = home waits s := by
  simp only [handleCommand, h]

theorem plan_origin_from_initial (p : Planner) :
    (p.planPath initial.currentPos ⟨0, 0⟩ []).2 = [⟨0, 0⟩] := by
  have h : Planner.distance initial.currentPos ⟨0, 0⟩ < MIN_SEGMENT_LENGTH := by
    show Planner.distance ⟨0, 0⟩ ⟨0, 0⟩ < MIN_SEGMENT_LENGTH
    rw [Planner.distance_self]; unfold MIN_SEGMENT_LENGTH; norm_num
  rw [Planner.planPath_short p _ _ [] h]
  rfl

/-- C20: on the start state, with the configured arm, a `MOVE_TO` to the origin and a `HOME`
plan the same single point `(0, 0)`, but they push it differently.  When the motion queue has
room only after 150 ms, `MOVE_TO` gives up after its 100 ms wait and drops the point, while
`HOME` waits and enqueues it; when the queue never has room, `MOVE_TO` finishes and `HOME`
never does.  And for an arm that cannot reach the origin (`L1 = 200`, `L2 = 100`), `MOVE_TO`
to the origin is rejected while `HOME` enqueues the point. -/
theorem home_differs_from_moveTo_origin :
    (∃ sM sH : DispatchState,
      handleCommand Kinematics.configured (fun _ => some 150) initial
        ⟨CommandType.MOVE_TO, ⟨0, 0⟩, 0⟩ = some sM ∧
      handleCommand Kinematics.configured (fun _ => some 150) initial
        ⟨CommandType.HOME, ⟨0, 0⟩, 0⟩ = some sH ∧
      sM.motionQueue = [] ∧ sH.motionQueue = [⟨0, 0⟩] ∧ sH.robotState.isHomed = true) ∧
    ((handleCommand Kinematics.configured (fun _ => none) initial
        ⟨CommandType.MOVE_TO, ⟨0, 0⟩, 0⟩).isSome = true ∧
      handleCommand Kinematics.configured (fun _ => none) initial
        ⟨CommandType.HOME, ⟨0, 0⟩, 0⟩ = none) ∧
    (Kinematics.isReachable ⟨200, 100⟩ ⟨0, 0⟩ = false ∧
      handleCommand ⟨200, 100⟩ (fun _ => some 0) initial
        ⟨CommandType.MOVE_TO, ⟨0, 0⟩, 0⟩ = some initial ∧
      ∃ sH : DispatchState,
        handleCommand ⟨200, 100⟩ (fun _ => some 0) initial
          ⟨CommandType.HOME, ⟨0, 0⟩, 0⟩ = some sH ∧
        sH.motionQueue = [⟨0, 0⟩] ∧ sH.robotState.isHomed = true) := by
  have hsp : ¬ ((0 : ℝ) > 0) := lt_irrefl 0
  have hM : ∀ waits : ℕ → Option ℕ,
      handleCommand Kinematics.configured waits initial ⟨CommandType.MOVE_TO, ⟨0, 0⟩, 0⟩ =
        (sendAll waits (some 100) 0 [⟨0, 0⟩] initial.motionQueue).map
          (fun motionQueue =>
            { planner := initial.planner, currentPos := ⟨0, 0⟩, motionQueue := motionQueue,
              robotState := { initial.robotState with currentPosition := ⟨0, 0⟩ } }) := by
    intro waits
    rw [handleCommand_moveTo _ _ _ _ rfl,
      moveTo_reachable Kinematics.configured waits initial ⟨CommandType.MOVE_TO, ⟨0, 0⟩, 0⟩
        Kinematics.configured_reachable_origin]
    simp only [if_neg hsp, plan_origin_from_initial]
  have hH : ∀ (kin : Kinematics) (waits : ℕ → Option ℕ),
      handleCommand kin waits initial ⟨CommandType.HOME, ⟨0, 0⟩, 0⟩ =
        (sendAll waits none 0 [⟨0, 0⟩] initial.motionQueue).map
          (fun motionQueue =>
            { planner := initial.planner, currentPos := ⟨0, 0⟩, motionQueue := motionQueue,
              robotState := { initial.robotState with currentPosition := ⟨0, 0⟩,
                                                      isHomed := true } }) := by
    intro kin waits
    rw [handleCommand_home _ _ _ _ rfl, home_eq, plan_origin_from_initial]
  have hun : Kinematics.isReachable ⟨200, 100⟩ ⟨0, 0⟩ = false := by
    rw [← Bool.not_eq_true, Kinematics.isReachable_iff]
    simp only [Kinematics.getMinReach]
    norm_num
  have e1 : sendAll (fun _ => some 150) (some 100) 0 [⟨0, 0⟩] initial.motionQueue
      = some [] := by
    simp [sendAll, xQueueSend, initial]
  have e2 : sendAll (fun _ => some 150) none 0 [⟨0, 0⟩] initial.motionQueue
      = some [⟨0, 0⟩] := by
    simp [sendAll, xQueueSend, initial]
  have e3 : sendAll (fun _ => none) (some 100) 0 [⟨0, 0⟩] initial.motionQueue
      = some [] := by
    simp [sendAll, xQueueSend, initial]
  have e4 : sendAll (fun _ => none) none 0 [⟨0, 0⟩] initial.motionQueue = none := by
    simp [sendAll, xQueueSend]
  have e5 : sendAll (fun _ => some 0) none 0 [⟨0, 0⟩] initial.motionQueue
      = some [⟨0, 0⟩] := by
    simp [sendAll, xQueueSend, initial]
  refine ⟨⟨_, _, by rw [hM, e1]; rfl, by rw [hH, e2]; rfl, rfl, rfl, rfl⟩, ⟨?_, ?_⟩, hun, ?_,
    ⟨_, by rw [hH, e5]; rfl, rfl, rfl⟩⟩
  · rw [hM, e3]; rfl
  · rw [hH, e4]; rfl
  · rw [handleCommand_moveTo _ _ _ _ rfl]
    exact moveTo_unreachable ⟨200, 100⟩ (fun _ => some 0) initial
      ⟨CommandType.MOVE_TO, ⟨0, 0⟩, 0⟩ hun

end DispatchState

/-! ## The motion control loop and the whole firmware state -/

namespace Kinematics

/-- The angles `inverse` returns are normalised. -/
theorem inverse_some_range (k : Kinematics) (p : Point2D) (a : JointAngles)
    (h : k.inverse p = some a) :
    (0 ≤ a.theta1 ∧ a.theta1 < 360) ∧ (0 ≤ a.theta2 ∧ a.theta2 ≤ 180) := by
  obtain ⟨t, c, hform⟩ := inverse_some_form k p a h
  obtain ⟨-, -, ht0, ht1⟩ := normalize360_spec t
  obtain ⟨hc0, hc1⟩ := arccos_degrees_range c
  have h2 : a.theta2 = arccos c * 180 / π := by
    rw [hform]; exact normalize360_of_mem hc0 (by linarith)
  refine ⟨?_, ?_⟩
  · rw [hform]; exact ⟨ht0, ht1⟩
  · rw [h2]; exact ⟨hc0, hc1⟩

end Kinematics

namespace StepperMotor

theorem update_targetAngle (m : StepperMotor) (t : ℕ) :
    (m.update t).targetAngle = m.targetAngle ∧ (m.update t).targetStep = m.targetStep := by
  unfold update
  by_cases h1 : (!m.enabled || !m.isMovingFlag) = true
  · rw [if_pos h1]; exact ⟨rfl, rfl⟩
  · rw [if_neg h1]
    by_cases h2 : ulongSub t m.lastStepTime ≥ m.stepInterval
    · rw [if_pos h2]
      by_cases h3 : m.currentStep ≠ m.targetStep
      · rw [if_pos h3]
        by_cases h4 : m.targetStep > m.currentStep
        · simp only [if_pos h4, and_self]
        · simp only [if_neg h4, and_self]
      · rw [if_neg h3]; exact ⟨rfl, rfl⟩
    · rw [if_neg h2]; exact ⟨rfl, rfl⟩

end StepperMotor

namespace Firmware

theorem handleCommand_stop (kin : Kinematics) (waits : ℕ → Option ℕ) (f : Firmware)
    (cmd : Command) (h : cmd.type = CommandType.STOP) :
    handleCommand kin waits f cmd = some { f with dispatch := f.dispatch.stop } := by
  simp only [handleCommand, DispatchState.handleCommand, h, Option.map_some']

theorem handleCommand_setSpeed (kin : Kinematics) (waits : ℕ → Option ℕ) (f : Firmware)
    (cmd : Command) (h : cmd.type = CommandType.SET_SPEED) :
    handleCommand kin waits f cmd = some { f with dispatch := f.dispatch.setSpeed cmd } := by
  simp only [handleCommand, DispatchState.handleCommand, h, Option.map_some']

theorem handleCommand_moveRelative (kin : Kinematics) (waits : ℕ → Option ℕ) (f : Firmware)
    (cmd : Command) (h : cmd.type = CommandType.MOVE_RELATIVE) :
    handleCommand kin waits f cmd = some f := by
  simp only [handleCommand, DispatchState.handleCommand, h, Option.map_some']

/-- C21: handling `STOP` (whatever target and speed the command carries) returns, empties the
motion queue and sets the moving flag of `robotState` to false, and changes nothing else: both
motors are untouched (in particular their target angles and moving flags, `stop()` is not
called on them), and the planner (in particular its speed), the last-commanded position
`currentPos`, the other fields of `robotState` and the status counter are unchanged. -/
theorem stop_clears_queue_only (kin : Kinematics) (waits : ℕ → Option ℕ) (f : Firmware)
    (target : Point2D) (speed : ℝ) :
    ∃ f2 : Firmware, handleCommand kin waits f ⟨CommandType.STOP, target, speed⟩ = some f2 ∧
      f2.dispatch.motionQueue = [] ∧ f2.dispatch.robotState.isMoving = false ∧
      (f2.motor1 = f.motor1 ∧ f2.motor2 = f.motor2) ∧
      (f2.motor1.targetAngle = f.motor1.targetAngle ∧
        f2.motor2.targetAngle = f.motor2.targetAngle) ∧
      (f2.motor1.isMoving = f.motor1.isMoving ∧ f2.motor2.isMoving = f.motor2.isMoving) ∧
      (f2.dispatch.planner = f.dispatch.planner ∧
        f2.dispatch.planner.speed = f.dispatch.planner.speed) ∧
      f2.dispatch.currentPos = f.dispatch.currentPos ∧
      f2.dispatch.robotState.currentPosition = f.dispatch.robotState.currentPosition ∧
      f2.dispatch.robotState.currentAngles = f.dispatch.robotState.currentAngles ∧
      f2.dispatch.robotState.isHomed = f.dispatch.robotState.isHomed ∧
      f2.statusCounter = f.statusCounter :=
  ⟨{ f with dispatch := f.dispatch.stop },
    handleCommand_stop kin waits f ⟨CommandType.STOP, target, speed⟩ rfl,
    rfl, rfl, ⟨rfl, rfl⟩, ⟨rfl, rfl⟩, ⟨rfl, rfl⟩, ⟨rfl, rfl⟩, rfl, rfl, rfl, rfl, rfl⟩

/-- C30: a `MOVE_RELATIVE` command falls into the `default` branch of the switch: for every
target and speed it carries, handling it returns with the whole state unchanged, so no point is
pushed to the motion queue and the last-commanded position, the planner speed and `robotState`
are unchanged. -/
theorem moveRelative_is_ignored (kin : Kinematics) (waits : ℕ → Option ℕ) (f : Firmware)
    (target : Point2D) (speed : ℝ) :
    ∃ f2 : Firmware,
      handleCommand kin waits f ⟨CommandType.MOVE_RELATIVE, target, speed⟩ = some f2 ∧
      f2 = f ∧ f2.dispatch.motionQueue = f.dispatch.motionQueue ∧
      f2.dispatch.currentPos = f.dispatch.currentPos ∧
      f2.dispatch.planner.speed = f.dispatch.planner.speed ∧
      f2.dispatch.robotState = f.dispatch.robotState :=
  ⟨f, handleCommand_moveRelative kin waits f ⟨CommandType.MOVE_RELATIVE, target, speed⟩ rfl,
    rfl, rfl, rfl, rfl, rfl⟩

end Firmware

namespace Firmware

/-- An iteration of the motion loop that pops a point which `inverse` solves. -/
theorem motionTick_solved (kin : Kinematics) (f : Firmware) (p : Point2D) (rest : List Point2D)
    (t1 t2 : ℕ) (a : JointAngles) (hq : f.dispatch.motionQueue = p :: rest)
    (ha : kin.inverse p = some a) :
    (motionTick kin f t1 t2).1.dispatch.motionQueue = rest ∧
    (motionTick kin f t1 t2).1.dispatch.robotState =
      { f.dispatch.robotState with isMoving := true, currentAngles := a,
                                   currentPosition := p } ∧
    (motionTick kin f t1 t2).1.motor1 = (f.motor1.moveToAngle a.theta1).update t1 ∧
    (motionTick kin f t1 t2).1.motor2 = (f.motor2.moveToAngle a.theta2).update t2 ∧
    (motionTick kin f t1 t2).1.dispatch.planner = f.dispatch.planner ∧
    (motionTick kin f t1 t2).1.dispatch.currentPos = f.dispatch.currentPos := by
  unfold motionTick
  simp only [hq, ha, setIsMoving]
  split_ifs <;> exact ⟨rfl, rfl, rfl, rfl, rfl, rfl⟩

/-- An iteration of the motion loop that pops a point on which `inverse` fails. -/
theorem motionTick_failed (kin : Kinematics) (f : Firmware) (p : Point2D) (rest : List Point2D)
    (t1 t2 : ℕ) (hq : f.dispatch.motionQueue = p :: rest) (ha : kin.inverse p = none) :
    (motionTick kin f t1 t2).1.dispatch.motionQueue = rest ∧
    (motionTick kin f t1 t2).1.dispatch.robotState =
      { f.dispatch.robotState with isMoving := true } ∧
    (motionTick kin f t1 t2).1.motor1 = f.motor1.update t1 ∧
    (motionTick kin f t1 t2).1.motor2 = f.motor2.update t2 ∧
    (motionTick kin f t1 t2).1.dispatch.planner = f.dispatch.planner ∧
    (motionTick kin f t1 t2).1.dispatch.currentPos = f.dispatch.currentPos := by
  unfold motionTick
  simp only [hq, ha, setIsMoving]
  split_ifs <;> exact ⟨rfl, rfl, rfl, rfl, rfl, rfl⟩

/-- An iteration of the motion loop that finds the queue empty. -/
theorem motionTick_idle (kin : Kinematics) (f : Firmware) (t1 t2 : ℕ)
    (hq : f.dispatch.motionQueue = []) :
    (motionTick kin f t1 t2).1.dispatch.motionQueue = [] ∧
    (motionTick kin f t1 t2).1.dispatch.robotState =
      { f.dispatch.robotState with isMoving := f.motor1.isMoving || f.motor2.isMoving } ∧
    (motionTick kin f t1 t2).1.motor1 = f.motor1.update t1 ∧
    (motionTick kin f t1 t2).1.motor2 = f.motor2.update t2 := by
  unfold motionTick
  simp only [hq, setIsMoving]
  split_ifs <;> exact ⟨rfl, rfl, rfl, rfl⟩

/-- C22: an iteration of the motion loop that pops a point `p` removes it from the queue and
sets the global moving flag true in both cases.  If `inverse` solves `p` with angles `a`, both
motors receive `moveToAngle` with `a.theta1` and `a.theta2` (followed by the `update()` of the
iteration), so their target angles are `a.theta1` and `a.theta2`, and the reported position
and angles become `p` and `a`.  If `inverse` fails, the motors only receive the `update()`, so
neither target angle nor target step changes, and the reported position and angles are
unchanged. -/
theorem motionTick_dispatches_iff_solved (kin : Kinematics) (f : Firmware) (p : Point2D)
    (rest : List Point2D) (t1 t2 : ℕ) (hq : f.dispatch.motionQueue = p :: rest) :
    (motionTick kin f t1 t2).1.dispatch.motionQueue = rest ∧
    (motionTick kin f t1 t2).1.dispatch.robotState.isMoving = true ∧
    (motionTick kin f t1 t2).1.dispatch.robotState.isHomed = f.dispatch.robotState.isHomed ∧
    (∀ a : JointAngles, kin.inverse p = some a →
      (motionTick kin f t1 t2).1.motor1 = (f.motor1.moveToAngle a.theta1).update t1 ∧
      (motionTick kin f t1 t2).1.motor2 = (f.motor2.moveToAngle a.theta2).update t2 ∧
      (motionTick kin f t1 t2).1.motor1.targetAngle = a.theta1 ∧
      (motionTick kin f t1 t2).1.motor2.targetAngle = a.theta2 ∧
      (motionTick kin f t1 t2).1.dispatch.robotState.currentPosition = p ∧
      (motionTick kin f t1 t2).1.dispatch.robotState.currentAngles = a) ∧
    (kin.inverse p = none →
      (motionTick kin f t1 t2).1.motor1 = f.motor1.update t1 ∧
      (motionTick kin f t1 t2).1.motor2 = f.motor2.update t2 ∧
      (motionTick kin f t1 t2).1.motor1.targetAngle = f.motor1.targetAngle ∧
      (motionTick kin f t1 t2).1.motor2.targetAngle = f.motor2.targetAngle ∧
      (motionTick kin f t1 t2).1.motor1.targetStep = f.motor1.targetStep ∧
      (motionTick kin f t1 t2).1.motor2.targetStep = f.motor2.targetStep ∧
      (motionTick kin f t1 t2).1.dispatch.robotState.currentPosition =
        f.dispatch.robotState.currentPosition ∧
      (motionTick kin f t1 t2).1.dispatch.robotState.currentAngles =
        f.dispatch.robotState.currentAngles) := by
  have hcases : (motionTick kin f t1 t2).1.dispatch.motionQueue = rest ∧
      (motionTick kin f t1 t2).1.dispatch.robotState.isMoving = true ∧
      (motionTick kin f t1 t2).1.dispatch.robotState.isHomed =
        f.dispatch.robotState.isHomed := by
    cases hi : kin.inverse p with
    | none =>
      obtain ⟨h1, h2, -⟩ := motionTick_failed kin f p rest t1 t2 hq hi
      rw [h1, h2]; exact ⟨rfl, rfl, rfl⟩
    | some a =>
      obtain ⟨h1, h2, -⟩ := motionTick_solved kin f p rest t1 t2 a hq hi
      rw [h1, h2]; exact ⟨rfl, rfl, rfl⟩
  refine ⟨hcases.1, hcases.2.1, hcases.2.2, ?_, ?_⟩
  · intro a ha
    obtain ⟨-, h2, h3, h4, -⟩ := motionTick_solved kin f p rest t1 t2 a hq ha
    obtain ⟨⟨h10, h11⟩, ⟨h20, h21⟩⟩ := Kinematics.inverse_some_range kin p a ha
    refine ⟨h3, h4, ?_, ?_, ?_, ?_⟩
    · rw [h3, (StepperMotor.update_targetAngle _ t1).1, StepperMotor.moveToAngle_eq]
      exact normalize360_of_mem h10 h11
    · rw [h4, (StepperMotor.update_targetAngle _ t2).1, StepperMotor.moveToAngle_eq]
      exact normalize360_of_mem h20 (by linarith)
    · rw [h2]
    · rw [h2]
  · intro ha
    obtain ⟨-, h2, h3, h4, -⟩ := motionTick_failed kin f p rest t1 t2 hq ha
    refine ⟨h3, h4, ?_, ?_, ?_, ?_, ?_, ?_⟩
    · rw [h3]; exact (StepperMotor.update_targetAngle _ t1).1
    · rw [h4]; exact (StepperMotor.update_targetAngle _ t2).1
    · rw [h3]; exact (StepperMotor.update_targetAngle _ t1).2
    · rw [h4]; exact (StepperMotor.update_targetAngle _ t2).2
    · rw [h2]
    · rw [h2]

end Firmware

namespace Kinematics

theorem configured_inverse_400 : configured.inverse ⟨400, 0⟩ = none := by
  have h : ¬ (configured.inverse ⟨400, 0⟩).isSome = true := by
    rw [inverse_isSome_iff]
    simp only [sqrt_axis 400 (by norm_num), configured, ARM_LENGTH_1, ARM_LENGTH_2]
    norm_num
  cases hi : configured.inverse ⟨400, 0⟩ with
  | none => rfl
  | some a => rw [hi] at h; exact absurd rfl h

end Kinematics

namespace Firmware

/-- Witness of C22: the start state with the unreachable point `(400, 0)` in the motion queue;
`inverse` fails on it, so the motors keep their targets and the reported position stays
`(0, 0)`, while the point is consumed and the moving flag is set. -/
theorem motionTick_dispatches_iff_solved_witness :
    (motionTick Kinematics.configured
      { initial with dispatch := { DispatchState.initial with motionQueue := [⟨400, 0⟩] } }
      0 0).1.dispatch.motionQueue = [] ∧
    (motionTick Kinematics.configured
      { initial with dispatch := { DispatchState.initial with motionQueue := [⟨400, 0⟩] } }
      0 0).1.dispatch.robotState.isMoving = true ∧
    (motionTick Kinematics.configured
      { initial with dispatch := { DispatchState.initial with motionQueue := [⟨400, 0⟩] } }
      0 0).1.motor1.targetAngle = initial.motor1.targetAngle ∧
    (motionTick Kinematics.configured
      { initial with dispatch := { DispatchState.initial with motionQueue := [⟨400, 0⟩] } }
      0 0).1.dispatch.robotState.currentPosition = RobotState.initial.currentPosition := by
  have h := motionTick_dispatches_iff_solved Kinematics.configured
    { initial with dispatch := { DispatchState.initial with motionQueue := [⟨400, 0⟩] } }
    ⟨400, 0⟩ [] 0 0 rfl
  obtain ⟨h1, h2, -, -, h5⟩ := h
  obtain ⟨-, -, h6, -, -, -, h7, -⟩ := h5 Kinematics.configured_inverse_400
  exact ⟨h1, h2, h6, h7⟩

/-- Counterexample to C25: in the start state with the moving flag set, handling `STOP` clears
the moving flag, and in the start state handling `HOME` (with room in the queue) sets the homed
flag: the dispatch loop does write `robotState`. -/
theorem dispatch_writes_robotState :
    ((handleCommand Kinematics.configured (fun _ => some 0) (initial.setIsMoving true)
        ⟨CommandType.STOP, ⟨0, 0⟩, 0⟩).map (fun f => f.dispatch.robotState.isMoving)
      = some false ∧
      (initial.setIsMoving true).dispatch.robotState.isMoving = true) ∧
    ((handleCommand Kinematics.configured (fun _ => some 0) initial
        ⟨CommandType.HOME, ⟨0, 0⟩, 0⟩).map (fun f => f.dispatch.robotState.isHomed)
      = some true ∧
      initial.dispatch.robotState.isHomed = false) := by
  refine ⟨⟨?_, rfl⟩, ⟨?_, rfl⟩⟩
  · rw [handleCommand_stop _ _ _ _ rfl]; rfl
  · simp only [handleCommand]
    rw [DispatchState.handleCommand_home Kinematics.configured (fun _ => some 0)
      initial.dispatch ⟨CommandType.HOME, ⟨0, 0⟩, 0⟩ rfl, DispatchState.home_eq,
      sendAll_of_room (fun _ => some 0) none (fun i => ⟨0, rfl, fun t ht => by cases ht⟩)]
    rfl

/-- C25 as the code has it: whenever the dispatch loop finishes handling a command, the current
angles of `robotState` are unchanged, and the other fields are written as follows.  `SET_SPEED`,
`MOVE_RELATIVE` and a `MOVE_TO` with an unreachable target leave `robotState` unchanged; `STOP`
sets the moving flag false; `HOME` sets the current position to `(0, 0)` and the homed flag
true; a `MOVE_TO` with a reachable target sets the current position to the target. -/
theorem dispatch_robotState_writes (kin : Kinematics) (waits : ℕ → Option ℕ) (f f2 : Firmware)
    (cmd : Command) (h : handleCommand kin waits f cmd = some f2) :
    f2.dispatch.robotState.currentAngles = f.dispatch.robotState.currentAngles ∧
    (cmd.type = CommandType.SET_SPEED ∨ cmd.type = CommandType.MOVE_RELATIVE ∨
      (cmd.type = CommandType.MOVE_TO ∧ kin.isReachable cmd.target = false) →
      f2.dispatch.robotState = f.dispatch.robotState) ∧
    (cmd.type = CommandType.STOP →
      f2.dispatch.robotState = { f.dispatch.robotState with isMoving := false }) ∧
    (cmd.type = CommandType.HOME →
      f2.dispatch.robotState =
        { f.dispatch.robotState with currentPosition := ⟨0, 0⟩, isHomed := true }) ∧
    (cmd.type = CommandType.MOVE_TO ∧ kin.isReachable cmd.target = true →
      f2.dispatch.robotState = { f.dispatch.robotState with currentPosition := cmd.target }) := by
  have key : ∃ d, DispatchState.handleCommand kin waits f.dispatch cmd = some d ∧
      f2.dispatch = d := by
    simp only [handleCommand, Option.map_eq_some'] at h
    obtain ⟨d, hd, rfl⟩ := h
    exact ⟨d, hd, rfl⟩
  obtain ⟨d, hd, hf⟩ := key
  rw [hf]
  cases hty : cmd.type with
  | MOVE_TO =>
    rw [DispatchState.handleCommand_moveTo kin waits f.dispatch cmd hty] at hd
    cases hr : kin.isReachable cmd.target with
    | false =>
      rw [DispatchState.moveTo_unreachable kin waits f.dispatch cmd hr] at hd
      cases hd
      simp
    | true =>
      rw [DispatchState.moveTo_reachable kin waits f.dispatch cmd hr,
        Option.map_eq_some'] at hd
      obtain ⟨q, -, rfl⟩ := hd
      simp
  | MOVE_RELATIVE =>
    simp only [DispatchState.handleCommand, hty, Option.some.injEq] at hd
    subst hd
    simp
  | HOME =>
    rw [DispatchState.handleCommand_home kin waits f.dispatch cmd hty, DispatchState.home_eq,
      Option.map_eq_some'] at hd
    obtain ⟨q, -, rfl⟩ := hd
    simp
  | SET_SPEED =>
    simp only [DispatchState.handleCommand, hty, Option.some.injEq] at hd
    subst hd
    simp [DispatchState.setSpeed]
  | STOP =>
    simp only [DispatchState.handleCommand, hty, Option.some.injEq] at hd
    subst hd
    simp [DispatchState.stop]

/-- Witness of C25 as the code has it: `STOP` handled in the start state. -/
theorem dispatch_robotState_writes_witness :
    handleCommand Kinematics.configured (fun _ => some 0) initial ⟨CommandType.STOP, ⟨0, 0⟩, 0⟩
      = some { initial with dispatch := initial.dispatch.stop } ∧
    ({ initial with dispatch := initial.dispatch.stop } : Firmware).dispatch.robotState
      = { initial.dispatch.robotState with isMoving := false } :=
  ⟨handleCommand_stop _ _ _ _ rfl,
    (dispatch_robotState_writes Kinematics.configured (fun _ => some 0) initial
      { initial with dispatch := initial.dispatch.stop } ⟨CommandType.STOP, ⟨0, 0⟩, 0⟩
      (handleCommand_stop _ _ _ _ rfl)).2.2.1 rfl⟩

end Firmware

namespace Firmware

/-- The status counter and the broadcast of one iteration of the motion loop depend on the
counter only: the iteration broadcasts iff the incremented counter reaches 10, and then resets
the counter. -/
theorem motionTick_statusCounter (kin : Kinematics) (f : Firmware) (t1 t2 : ℕ) :
    (motionTick kin f t1 t2).1.statusCounter =
      (if f.statusCounter + 1 ≥ 10 then 0 else f.statusCounter + 1) ∧
    (motionTick kin f t1 t2).2.isSome = decide (f.statusCounter + 1 ≥ 10) := by
  by_cases h : f.statusCounter + 1 ≥ 10
  · rw [if_pos h]
    cases hq : f.dispatch.motionQueue with
    | nil =>
      unfold motionTick
      simp only [hq, setIsMoving, h, if_true, Option.isSome_some, decide_True, and_self]
    | cons p rest =>
      cases hi : kin.inverse p <;>
      · unfold motionTick
        simp only [hq, hi, setIsMoving, h, if_true, Option.isSome_some, decide_True, and_self]
  · rw [if_neg h]
    cases hq : f.dispatch.motionQueue with
    | nil =>
      unfold motionTick
      simp only [hq, setIsMoving, h, if_false, Option.isSome_none, decide_False, and_self]
    | cons p rest =>
      cases hi : kin.inverse p <;>
      · unfold motionTick
        simp only [hq, hi, setIsMoving, h, if_false, Option.isSome_none, decide_False, and_self]

/-- Iterations of the motion loop from a counter value `c` in `[0, 10)`: iteration number
`k + 1` broadcasts iff `c + k + 1` is a multiple of 10. -/
theorem motionTicks_broadcasts (kin : Kinematics) (clocks : List (ℕ × ℕ)) :
    ∀ (f : Firmware) (c : ℕ), f.statusCounter = (c : ℤ) → c < 10 →
      (motionTicks kin f clocks).2.map Option.isSome =
        (List.range clocks.length).map (fun k => decide ((c + k + 1) % 10 = 0)) := by
  induction clocks with
  | nil => intro f c _ _; rfl
  | cons t ts ih =>
    intro f c hc hlt
    obtain ⟨h1, h2⟩ := motionTick_statusCounter kin f t.1 t.2
    simp only [motionTicks, List.map_cons, List.length_cons, List.range_succ_eq_map,
      List.map_map]
    by_cases h9 : c = 9
    · have hge : f.statusCounter + 1 ≥ 10 := by rw [hc, h9]; norm_num
      rw [if_pos hge] at h1
      rw [h2, ih (motionTick kin f t.1 t.2).1 0 (by rw [h1]; rfl) (by norm_num)]
      congr 1
      · simp [hge, h9]
      · apply List.map_congr_left
        intro k _
        simp only [Function.comp, h9]
        congr 1
        apply propext
        omega
    · have hlt2 : ¬ f.statusCounter + 1 ≥ 10 := by rw [hc]; omega
      rw [if_neg hlt2] at h1
      rw [h2, ih (motionTick kin f t.1 t.2).1 (c + 1) (by rw [h1, hc]; push_cast; ring)
        (by omega)]
      congr 1
      · simp only [hlt2, decide_False, add_zero]
        symm
        rw [decide_eq_false_iff_not]
        omega
      · apply List.map_congr_left
        intro k _
        simp only [Function.comp]
        congr 1
        apply propext
        omega

/-- C24, as the code runs: the loop period is `1000 / 100 = 10` ms, and starting with the
status counter at 0 (its initial value) the motion loop broadcasts a snapshot in exactly the
iterations whose number is a multiple of 10, whatever the rest of the state and the clock
readings are.  So consecutive snapshots are 10 iterations, that is `10 * 10 = 100` ms, apart
(10 Hz), not 1000 ms. -/
theorem status_snapshot_every_100ms (kin : Kinematics) (f : Firmware)
    (clocks : List (ℕ × ℕ)) :
    loopDelay = 10 ∧
    (motionTicks kin { f with statusCounter := 0 } clocks).2.map Option.isSome =
      (List.range clocks.length).map (fun k => decide ((k + 1) % 10 = 0)) ∧
    10 * loopDelay = 100 ∧ 10 * loopDelay ≠ 1000 := by
  refine ⟨by decide, ?_, by decide, by decide⟩
  rw [motionTicks_broadcasts kin clocks { f with statusCounter := 0 } 0 rfl (by norm_num)]
  apply List.map_congr_left
  intro k _
  simp only [zero_add]

end Firmware

namespace Kinematics

/-- C26: with the elbow at 0 degrees the arm is fully extended: for every `theta1` (in degrees)
`forward(theta1, 0)` is the point at radius `L1 + L2` in direction `theta1`; with
`L1 = L2 = 150`, `forward(0, 0) = (300, 0)`, `forward(90, 0) = (0, 300)` and
`forward(180, 0) = (-300, 0)`. -/
theorem forward_fully_extended (k : Kinematics) (theta1 : ℝ) :
    k.forward ⟨theta1, 0⟩ =
      ⟨(k.L1 + k.L2) * cos (theta1 * π / 180), (k.L1 + k.L2) * sin (theta1 * π / 180)⟩ ∧
    configured.forward ⟨0, 0⟩ = ⟨300, 0⟩ ∧
    configured.forward ⟨90, 0⟩ = ⟨0, 300⟩ ∧
    configured.forward ⟨180, 0⟩ = ⟨-300, 0⟩ := by
  have gen : ∀ (k : Kinematics) (t : ℝ), k.forward ⟨t, 0⟩ =
      ⟨(k.L1 + k.L2) * cos (t * π / 180), (k.L1 + k.L2) * sin (t * π / 180)⟩ := by
    intro k t
    simp only [forward, zero_mul, zero_div, add_zero]
    congr 1 <;> ring
  have e90 : (90 : ℝ) * π / 180 = π / 2 := by ring
  have e180 : (180 : ℝ) * π / 180 = π := by ring
  refine ⟨gen k theta1, ?_, ?_, ?_⟩
  · rw [gen]
    simp only [configured, ARM_LENGTH_1, ARM_LENGTH_2, zero_mul, zero_div, cos_zero, sin_zero,
      mul_zero, mul_one]
    congr 1; norm_num
  · rw [gen, e90, cos_pi_div_two, sin_pi_div_two]
    simp only [configured, ARM_LENGTH_1, ARM_LENGTH_2, mul_zero, mul_one]
    congr 1; norm_num
  · rw [gen, e180, cos_pi, sin_pi]
    simp only [configured, ARM_LENGTH_1, ARM_LENGTH_2, mul_zero]
    congr 1; norm_num

end Kinematics

namespace Planner

/-- The disc of radius `R` is convex: a point of the segment between two points of the disc
lies in the disc. -/
theorem interpolate_in_disc (start finish : Point2D) (R t : ℝ) (hR : 0 ≤ R)
    (hs : sqrt (start.x * start.x + start.y * start.y) ≤ R)
    (hf : sqrt (finish.x * finish.x + finish.y * finish.y) ≤ R)
    (ht0 : 0 ≤ t) (ht1 : t ≤ 1) :
    sqrt ((start.x + t * (finish.x - start.x)) * (start.x + t * (finish.x - start.x)) +
      (start.y + t * (finish.y - start.y)) * (start.y + t * (finish.y - start.y))) ≤ R := by
  have hs2 : start.x * start.x + start.y * start.y ≤ R ^ 2 := by
    have := (sqrt_le_left hR).mp hs
    exact this
  have hf2 : finish.x * finish.x + finish.y * finish.y ≤ R ^ 2 := by
    have := (sqrt_le_left hR).mp hf
    exact this
  apply sqrt_le_iff.mpr
  refine ⟨hR, ?_⟩
  have key : (start.x + t * (finish.x - start.x)) * (start.x + t * (finish.x - start.x)) +
      (start.y + t * (finish.y - start.y)) * (start.y + t * (finish.y - start.y))
      = (1 - t) * (start.x * start.x + start.y * start.y)
        + t * (finish.x * finish.x + finish.y * finish.y)
        - t * (1 - t) * ((start.x - finish.x) ^ 2 + (start.y - finish.y) ^ 2) := by ring
  rw [key]
  have h1 : 0 ≤ t * (1 - t) * ((start.x - finish.x) ^ 2 + (start.y - finish.y) ^ 2) :=
    mul_nonneg (mul_nonneg ht0 (by linarith)) (by positivity)
  have h2 : (1 - t) * (start.x * start.x + start.y * start.y) ≤ (1 - t) * R ^ 2 :=
    mul_le_mul_of_nonneg_left hs2 (by linarith)
  have h3 : t * (finish.x * finish.x + finish.y * finish.y) ≤ t * R ^ 2 :=
    mul_le_mul_of_nonneg_left hf2 ht0
  nlinarith

/-- Every point `planPath` pushes lies on the segment from `start` to `finish`: it is
`finish`, or the interpolation at `j / n` for some `0 ≤ j ≤ n` with `n ≥ 2`. -/
theorem planPath_mem (p : Planner) (start finish : Point2D) (q : List Point2D) (pt : Point2D)
    (h : pt ∈ (p.planPath start finish q).2) :
    pt ∈ q ∨ pt = finish ∨
      ∃ (n j : ℕ), 2 ≤ n ∧ j ≤ n ∧ pt = interpolate start finish (n : ℤ) (j : ℤ) := by
  by_cases hd : distance start finish < MIN_SEGMENT_LENGTH
  · rw [planPath_short p start finish q hd] at h
    simp only [List.mem_append, List.mem_singleton] at h
    rcases h with h | h
    · exact Or.inl h
    · exact Or.inr (Or.inl h)
  · obtain ⟨n, pts, hn, -, hp, hlen, hpts⟩ :=
      planPath_long_points p start finish q (not_lt.mp hd)
    rw [hp] at h
    simp only [List.mem_append] at h
    rcases h with h | h
    · exact Or.inl h
    · obtain ⟨j, hj, hget⟩ := List.mem_iff_getElem?.mp h |> fun ⟨j, hj⟩ =>
        (⟨j, (List.getElem?_eq_some_iff.mp hj).1, hj⟩ : ∃ j, j < pts.length ∧ pts[j]? = some pt)
      rw [hlen] at hj
      rw [hpts j (by omega)] at hget
      exact Or.inr (Or.inr ⟨n, j, hn, by omega, (Option.some.inj hget).symm⟩)

end Planner

namespace Kinematics

/-- With `L1 = L2 = 150`, `inverse` succeeds exactly on the reachable points. -/
theorem configured_inverse_isSome (p : Point2D) :
    (configured.inverse p).isSome = true ↔ configured.isReachable p = true := by
  rw [inverse_isSome_iff, isReachable_iff]
  rfl

end Kinematics

namespace Planner

/-- With `L1 = L2 = 150`, every point `planPath` pushes between two reachable points is
reachable. -/
theorem planPath_reachable (p : Planner) (start finish pt : Point2D)
    (hs : Kinematics.configured.isReachable start = true)
    (hf : Kinematics.configured.isReachable finish = true)
    (h : pt ∈ (p.planPath start finish []).2) :
    Kinematics.configured.isReachable pt = true := by
  rcases planPath_mem p start finish [] pt h with h | h | ⟨n, j, hn, hj, h⟩
  · exact absurd h (List.not_mem_nil pt)
  · rw [h]; exact hf
  · rw [Kinematics.configured_reachable_iff] at hs hf ⊢
    rw [h]
    have hn0 : (0 : ℝ) < (n : ℝ) := by exact_mod_cast (by omega : 0 < n)
    have hjn : (j : ℝ) ≤ (n : ℝ) := by exact_mod_cast hj
    have ht0 : (0 : ℝ) ≤ ((j : ℤ) : ℝ) / ((n : ℤ) : ℝ) := by
      push_cast; positivity
    have ht1 : ((j : ℤ) : ℝ) / ((n : ℤ) : ℝ) ≤ 1 := by
      push_cast; rw [div_le_one hn0]; exact hjn
    exact interpolate_in_disc start finish 300 _ (by norm_num) hs hf ht0 ht1

end Planner

/-- The loop `sendAll` only adds points of the local queue to the motion queue. -/
theorem sendAll_mem (waits : ℕ → Option ℕ) (ticksToWait : Option ℕ) :
    ∀ (pts : List Point2D) (i : ℕ) (q q2 : List Point2D),
      sendAll waits ticksToWait i pts q = some q2 → ∀ pt ∈ q2, pt ∈ q ∨ pt ∈ pts := by
  intro pts
  induction pts with
  | nil =>
    intro i q q2 h pt hpt
    simp only [sendAll, Option.some.injEq] at h
    rw [← h] at hpt
    exact Or.inl hpt
  | cons x xs ih =>
    intro i q q2 h pt hpt
    simp only [sendAll] at h
    cases hx : xQueueSend q x ticksToWait (waits i) with
    | none => rw [hx] at h; exact absurd h (by simp)
    | some r =>
      obtain ⟨b, q1⟩ := r
      rw [hx] at h
      simp only [] at h
      have hq1 : ∀ y ∈ q1, y ∈ q ∨ y = x := by
        intro y hy
        unfold xQueueSend at hx
        cases hw : waits i with
        | none =>
          cases ticksToWait with
          | none => simp [hw] at hx
          | some t =>
            simp only [hw, Option.some.injEq, Prod.mk.injEq] at hx
            rw [← hx.2] at hy; exact Or.inl hy
        | some w =>
          cases ticksToWait with
          | none =>
            simp only [hw, Option.some.injEq, Prod.mk.injEq] at hx
            rw [← hx.2] at hy
            simpa using hy
          | some t =>
            simp only [hw] at hx
            by_cases hwt : w ≤ t
            · rw [if_pos hwt] at hx
              simp only [Option.some.injEq, Prod.mk.injEq] at hx
              rw [← hx.2] at hy
              simpa using hy
            · rw [if_neg hwt] at hx
              simp only [Option.some.injEq, Prod.mk.injEq] at hx
              rw [← hx.2] at hy; exact Or.inl hy
      rcases ih (i + 1) q1 q2 h pt hpt with h1 | h1
      · rcases hq1 pt h1 with h2 | h2
        · exact Or.inl h2
        · exact Or.inr (by rw [h2]; exact List.mem_cons_self x xs)
      · exact Or.inr (List.mem_cons_of_mem x h1)

namespace DispatchState

/-- With `L1 = L2 = 150`, handling a command keeps the last-commanded position reachable and
every point of the motion queue reachable. -/
theorem handleCommand_reachable (waits : ℕ → Option ℕ) (s s2 : DispatchState) (cmd : Command)
    (hpos : Kinematics.configured.isReachable s.currentPos = true)
    (hq : ∀ pt ∈ s.motionQueue, Kinematics.configured.isReachable pt = true)
    (h : handleCommand Kinematics.configured waits s cmd = some s2) :
    Kinematics.configured.isReachable s2.currentPos = true ∧
    ∀ pt ∈ s2.motionQueue, Kinematics.configured.isReachable pt = true := by
  cases hty : cmd.type with
  | MOVE_TO =>
    rw [handleCommand_moveTo Kinematics.configured waits s cmd hty] at h
    cases hr : Kinematics.configured.isReachable cmd.target with
    | false =>
      rw [moveTo_unreachable Kinematics.configured waits s cmd hr] at h
      cases h
      exact ⟨hpos, hq⟩
    | true =>
      rw [moveTo_reachable Kinematics.configured waits s cmd hr, Option.map_eq_some'] at h
      obtain ⟨q2, hsend, rfl⟩ := h
      refine ⟨hr, ?_⟩
      intro pt hpt
      rcases sendAll_mem waits (some 100) _ 0 s.motionQueue q2 hsend pt hpt with h1 | h1
      · exact hq pt h1
      · exact Planner.planPath_reachable _ s.currentPos cmd.target pt hpos hr h1
  | MOVE_RELATIVE =>
    simp only [handleCommand, hty, Option.some.injEq] at h
    subst h
    exact ⟨hpos, hq⟩
  | HOME =>
    rw [handleCommand_home Kinematics.configured waits s cmd hty, home_eq,
      Option.map_eq_some'] at h
    obtain ⟨q2, hsend, rfl⟩ := h
    refine ⟨Kinematics.configured_reachable_origin, ?_⟩
    intro pt hpt
    rcases sendAll_mem waits none _ 0 s.motionQueue q2 hsend pt hpt with h1 | h1
    · exact hq pt h1
    · exact Planner.planPath_reachable _ s.currentPos ⟨0, 0⟩ pt hpos
        Kinematics.configured_reachable_origin h1
  | SET_SPEED =>
    simp only [handleCommand, hty, Option.some.injEq] at h
    subst h
    exact ⟨hpos, hq⟩
  | STOP =>
    simp only [handleCommand, hty, Option.some.injEq] at h
    subst h
    exact ⟨hpos, fun pt hpt => absurd hpt (List.not_mem_nil pt)⟩

end DispatchState

namespace Planner

/-- In exact arithmetic, with the configured link lengths `L1 = L2 = 150`: whenever `start`
and `finish` are both reachable, every point `planPath` emits between them (at any planner
speed) is reachable and `inverse` succeeds on it, and the dispatch loop keeps its
last-commanded position reachable and enqueues only points on which `inverse` succeeds. -/
theorem planPath_points_solvable (p : Planner) (start finish : Point2D)
    (hs : Kinematics.configured.isReachable start = true)
    (hf : Kinematics.configured.isReachable finish = true) :
    (∀ pt ∈ (p.planPath start finish []).2,
      Kinematics.configured.isReachable pt = true ∧
      (Kinematics.configured.inverse pt).isSome = true) ∧
    Kinematics.configured.isReachable DispatchState.initial.currentPos = true ∧
    (∀ (waits : ℕ → Option ℕ) (s s2 : DispatchState) (cmd : Command),
      Kinematics.configured.isReachable s.currentPos = true →
      (∀ pt ∈ s.motionQueue, (Kinematics.configured.inverse pt).isSome = true) →
      DispatchState.handleCommand Kinematics.configured waits s cmd = some s2 →
      Kinematics.configured.isReachable s2.currentPos = true ∧
      ∀ pt ∈ s2.motionQueue, (Kinematics.configured.inverse pt).isSome = true) := by
  refine ⟨?_, Kinematics.configured_reachable_origin, ?_⟩
  · intro pt hpt
    have h := planPath_reachable p start finish pt hs hf hpt
    exact ⟨h, (Kinematics.configured_inverse_isSome pt).mpr h⟩
  · intro waits s s2 cmd hpos hq h
    obtain ⟨h1, h2⟩ := DispatchState.handleCommand_reachable waits s s2 cmd hpos
      (fun pt hpt => (Kinematics.configured_inverse_isSome pt).mp (hq pt hpt)) h
    exact ⟨h1, fun pt hpt => (Kinematics.configured_inverse_isSome pt).mpr (h2 pt hpt)⟩

/-- The default planner, from `(0, 0)` to `(300, 0)`, in exact arithmetic. -/
theorem planPath_points_solvable_witness :
    Kinematics.configured.isReachable ⟨0, 0⟩ = true ∧
    Kinematics.configured.isReachable ⟨300, 0⟩ = true ∧
    ∀ pt ∈ ((Planner.new DEFAULT_SPEED ACCELERATION).planPath ⟨0, 0⟩ ⟨300, 0⟩ []).2,
      Kinematics.configured.isReachable pt = true ∧
      (Kinematics.configured.inverse pt).isSome = true := by
  have h300 : Kinematics.configured.isReachable ⟨300, 0⟩ = true := by
    rw [Kinematics.configured_reachable_iff]
    simp only [Kinematics.sqrt_axis 300 (by norm_num), le_refl]
  exact ⟨Kinematics.configured_reachable_origin, h300,
    (planPath_points_solvable (Planner.new DEFAULT_SPEED ACCELERATION) ⟨0, 0⟩ ⟨300, 0⟩
      Kinematics.configured_reachable_origin h300).1⟩

end Planner

namespace Planner

/-- Consecutive interpolation points are `distance start finish / n` apart. -/
theorem distance_interpolate_succ (start finish : Point2D) (n i : ℕ) (hn : 0 < n) :
    distance (interpolate start finish (n : ℤ) (i : ℤ))
      (interpolate start finish (n : ℤ) ((i + 1 : ℕ) : ℤ)) = distance start finish / (n : ℝ) := by
  have hn0 : (0 : ℝ) < (n : ℝ) := by exact_mod_cast hn
  unfold distance interpolate
  simp only []
  push_cast
  have e : (start.x + ((i : ℝ) + 1) / (n : ℝ) * (finish.x - start.x)
        - (start.x + (i : ℝ) / (n : ℝ) * (finish.x - start.x)))
      * (start.x + ((i : ℝ) + 1) / (n : ℝ) * (finish.x - start.x)
        - (start.x + (i : ℝ) / (n : ℝ) * (finish.x - start.x)))
      + (start.y + ((i : ℝ) + 1) / (n : ℝ) * (finish.y - start.y)
        - (start.y + (i : ℝ) / (n : ℝ) * (finish.y - start.y)))
      * (start.y + ((i : ℝ) + 1) / (n : ℝ) * (finish.y - start.y)
        - (start.y + (i : ℝ) / (n : ℝ) * (finish.y - start.y)))
      = (1 / (n : ℝ)) ^ 2 * ((finish.x - start.x) * (finish.x - start.x)
        + (finish.y - start.y) * (finish.y - start.y)) := by
    field_simp
    ring
  rw [e, sqrt_mul (sq_nonneg _), sqrt_sq (by positivity)]
  ring

/-- While the quotient `d / s / interval` is in the range where `(int)` and the `int`
addition are exact: for a planner with speed `s > 0` and the interval of the constructor
(`INTERPOLATION_INTERVAL_MS / 1000` seconds, that is 10 ms), and a segment of length
`d ≥ MIN_SEGMENT_LENGTH`, `planPath` pushes `n + 1` points with `n ≥ 2` segments, consecutive
points are exactly `d / n` apart, and that spacing is strictly less than `s * interval`. -/
theorem planPath_spacing_below_speed (p : Planner) (start finish : Point2D)
    (q : List Point2D) (hs : 0 < p.speed)
    (hi : p.interpolationInterval = INTERPOLATION_INTERVAL_MS / 1000)
    (hd : MIN_SEGMENT_LENGTH ≤ distance start finish)
    (hr : distance start finish / p.speed / 0.01 < 2147483647) :
    ∃ (n : ℕ) (pts : List Point2D), 2 ≤ n ∧
      p.planPath start finish q = ((n : ℤ) + 1, q ++ pts) ∧ pts.length = n + 1 ∧
      (∀ i : ℕ, i < n → ∃ a b : Point2D, pts[i]? = some a ∧ pts[i + 1]? = some b ∧
        distance a b = distance start finish / (n : ℝ)) ∧
      distance start finish / (n : ℝ) < p.speed * (INTERPOLATION_INTERVAL_MS / 1000) := by
  obtain ⟨n, pts, hn, hnum, hp, hlen, hpts⟩ := planPath_long_points p start finish q hd
  have hn0 : (0 : ℝ) < (n : ℝ) := by exact_mod_cast (by omega : 0 < n)
  have hi2 : p.interpolationInterval = 0.01 := by
    rw [hi]; unfold INTERPOLATION_INTERVAL_MS; norm_num
  refine ⟨n, pts, hn, hp, hlen, ?_, ?_⟩
  · intro i hin
    exact ⟨_, _, hpts i (by omega), hpts (i + 1) (by omega),
      distance_interpolate_succ start finish n i (by omega)⟩
  · have hI : INTERPOLATION_INTERVAL_MS / 1000 = (0.01 : ℝ) := by
      unfold INTERPOLATION_INTERVAL_MS; norm_num
    have hge : ⌊distance start finish / p.speed / 0.01⌋ + 1 ≤ (n : ℤ) := by
      rw [hnum, numPoints_eq p start finish hi2 hs hr]; exact le_max_right _ _
    have hfl : distance start finish / p.speed / 0.01
        < (⌊distance start finish / p.speed / 0.01⌋ : ℝ) + 1 :=
      Int.lt_floor_add_one _
    have hcast : ((⌊distance start finish / p.speed / 0.01⌋ : ℤ) : ℝ) + 1
        ≤ (n : ℝ) := by exact_mod_cast hge
    have hlt : distance start finish / p.speed / 0.01 < (n : ℝ) :=
      lt_of_lt_of_le hfl hcast
    rw [div_div, div_lt_iff₀ (mul_pos hs (by norm_num))] at hlt
    rw [div_lt_iff₀ hn0, hI]
    linarith [hlt]

end Planner

namespace Kinematics

/-- The two values of `inverseDivisors` are the divisors of `inverse`. -/
theorem inverse_divides_by (k : Kinematics) (target : Point2D) :
    k.inverse target =
      (let x := target.x
       let y := target.y
       let r := Real.sqrt (x * x + y * y)
       if r > k.L1 + k.L2 ∨ r < |k.L1 - k.L2| then none
       else
         let cosTheta2 := (r * r - k.L1 * k.L1 - k.L2 * k.L2) / (k.inverseDivisors target).1
         let cosTheta2 := if cosTheta2 > 1 then 1 else cosTheta2
         let cosTheta2 := if cosTheta2 < -1 then -1 else cosTheta2
         let theta2Rad := Real.arccos cosTheta2
         let theta2 := theta2Rad * 180 / Real.pi
         let alpha := atan2 y x * 180 / Real.pi
         let sinBeta := (k.L2 * Real.sin theta2Rad) / (k.inverseDivisors target).2
         let sinBeta := if sinBeta > 1 then 1 else sinBeta
         let sinBeta := if sinBeta < -1 then -1 else sinBeta
         let betaRad := Real.arcsin sinBeta
         let beta := betaRad * 180 / Real.pi
         let theta1 := alpha - beta
         some ⟨normalize360 theta1, normalize360 theta2⟩) := rfl

/-- C27, as the code runs: the divisor `2 * L1 * L2` of `inverse` is non-zero for positive link
lengths, and the divisor `r` is non-zero on every target other than the origin; but whenever
`L1 = L2 > 0` (so for the configured arm) the origin is reachable and `r = 0` there, so `inverse`
divides by zero on it.  The origin is the point `HOME` enqueues from the start state. -/
theorem inverse_divides_by_zero_at_origin :
    (∀ (k : Kinematics) (p : Point2D), 0 < k.L1 → 0 < k.L2 → (k.inverseDivisors p).1 ≠ 0) ∧
    (∀ (k : Kinematics) (p : Point2D), p ≠ ⟨0, 0⟩ → (k.inverseDivisors p).2 ≠ 0) ∧
    (∀ k : Kinematics, 0 < k.L1 → k.L1 = k.L2 →
      k.isReachable ⟨0, 0⟩ = true ∧ (k.inverse ⟨0, 0⟩).isSome = true ∧
      (k.inverseDivisors ⟨0, 0⟩).2 = 0) ∧
    (0 < configured.L1 ∧ 0 < configured.L2 ∧ configured.isReachable ⟨0, 0⟩ = true ∧
      (configured.inverseDivisors ⟨0, 0⟩).2 = 0) ∧
    (DispatchState.home (fun _ => some 0) DispatchState.initial).map
      (fun s => s.motionQueue) = some [⟨0, 0⟩] := by
  have hr0 : ∀ k : Kinematics, (k.inverseDivisors ⟨0, 0⟩).2 = 0 := by
    intro k
    simp only [inverseDivisors, mul_zero, add_zero, sqrt_zero]
  have hreach : ∀ k : Kinematics, 0 < k.L1 → k.L1 = k.L2 → k.isReachable ⟨0, 0⟩ = true := by
    intro k h1 h
    rw [isReachable_iff]
    simp only [getMinReach, getMaxReach, mul_zero, add_zero, sqrt_zero, ← h, sub_self, abs_zero,
      le_refl, true_and]
    linarith
  refine ⟨?_, ?_, ?_, ?_, ?_⟩
  · intro k p h1 h2
    simp only [inverseDivisors]
    positivity
  · intro k p hp
    simp only [inverseDivisors]
    intro h0
    have hle := sqrt_eq_zero'.mp h0
    have hx : p.x = 0 := by nlinarith [mul_self_nonneg p.x, mul_self_nonneg p.y]
    have hy : p.y = 0 := by nlinarith [mul_self_nonneg p.x, mul_self_nonneg p.y]
    apply hp
    cases p
    simp only at hx hy
    rw [hx, hy]
  · intro k h1 h
    refine ⟨hreach k h1 h, ?_, hr0 k⟩
    rw [inverse_isSome_iff]
    exact (isReachable_iff k ⟨0, 0⟩).mp (hreach k h1 h)
  · have hL1 : (0 : ℝ) < configured.L1 := by
      simp only [configured, ARM_LENGTH_1]; norm_num
    have hL2 : (0 : ℝ) < configured.L2 := by
      simp only [configured, ARM_LENGTH_2]; norm_num
    exact ⟨hL1, hL2, configured_reachable_origin, hr0 configured⟩
  · rw [DispatchState.home_eq, DispatchState.plan_origin_from_initial,
      sendAll_of_room (fun _ => some 0) none (fun i => ⟨0, rfl, fun t ht => by cases ht⟩)]
    rfl

end Kinematics

namespace Planner

theorem setSpeed_of_nonpos (p : Planner) (v : ℝ) (hv : v ≤ 0) : (p.setSpeed v).speed = 0 := by
  unfold setSpeed
  simp only []
  have h1 : ¬ v > MAX_SPEED := by unfold MAX_SPEED; linarith
  rw [if_neg h1]
  by_cases h2 : v < 0
  · rw [if_pos h2]
  · rw [if_neg h2]
    exact le_antisymm hv (not_lt.mp h2)

end Planner

namespace Firmware

/-- C28, as the code runs: `SET_SPEED` passes its speed to `setSpeed` unfiltered, and for every
speed `v ≤ 0` the planner is left with speed 0.  A later `MOVE_TO` that carries no positive
speed keeps that planner (only a speed `> 0` is passed on by `MOVE_TO`), so `planPath` is called
with `speed = 0`, the divisor of `totalTime = dist / speed`: in the start state with the
configured arm, after `SET_SPEED 0` the target `(100, 0)` is reachable and at distance
`100 ≥ MIN_SEGMENT_LENGTH` from the last-commanded position. -/
theorem setSpeed_leaves_zero_divisor (kin : Kinematics) (waits : ℕ → Option ℕ) (f : Firmware)
    (target : Point2D) :
    (∀ v : ℝ, v ≤ 0 → ∃ f2 : Firmware,
      handleCommand kin waits f ⟨CommandType.SET_SPEED, target, v⟩ = some f2 ∧
      f2.dispatch.planner.speed = 0 ∧ f2.dispatch.currentPos = f.dispatch.currentPos) ∧
    (∀ (v : ℝ) (f2 : Firmware), v ≤ 0 →
      handleCommand kin waits f ⟨CommandType.MOVE_TO, target, v⟩ = some f2 →
      f2.dispatch.planner = f.dispatch.planner) ∧
    (∀ v : ℝ, 0 < v → v ≤ MAX_SPEED → ∃ f2 : Firmware,
      handleCommand kin waits f ⟨CommandType.SET_SPEED, target, v⟩ = some f2 ∧
      f2.dispatch.planner.speed = v) ∧
    (Kinematics.configured.isReachable ⟨100, 0⟩ = true ∧
      MIN_SEGMENT_LENGTH ≤ Planner.distance initial.dispatch.currentPos ⟨100, 0⟩) := by
  refine ⟨?_, ?_, ?_, ?_, ?_⟩
  · intro v hv
    exact ⟨_, handleCommand_setSpeed kin waits f ⟨CommandType.SET_SPEED, target, v⟩ rfl,
      Planner.setSpeed_of_nonpos _ v hv, rfl⟩
  · intro v f2 hv h
    simp only [handleCommand, Option.map_eq_some'] at h
    obtain ⟨d, hd, rfl⟩ := h
    rw [DispatchState.handleCommand_moveTo kin waits f.dispatch
      ⟨CommandType.MOVE_TO, target, v⟩ rfl] at hd
    cases hr : kin.isReachable target with
    | false =>
      rw [DispatchState.moveTo_unreachable kin waits f.dispatch
        ⟨CommandType.MOVE_TO, target, v⟩ hr] at hd
      cases hd
      rfl
    | true =>
      rw [DispatchState.moveTo_reachable kin waits f.dispatch
        ⟨CommandType.MOVE_TO, target, v⟩ hr, Option.map_eq_some'] at hd
      obtain ⟨q2, -, rfl⟩ := hd
      simp only [if_neg (not_lt.mpr hv)]
  · intro v hv0 hv1
    refine ⟨_, handleCommand_setSpeed kin waits f ⟨CommandType.SET_SPEED, target, v⟩ rfl, ?_⟩
    simp only [DispatchState.setSpeed, Planner.setSpeed]
    rw [if_neg (not_lt.mpr hv1), if_neg (not_lt.mpr hv0.le)]
  · rw [Kinematics.configured_reachable_iff]
    simp only [Kinematics.sqrt_axis 100 (by norm_num)]; norm_num
  · have e : Planner.distance initial.dispatch.currentPos ⟨100, 0⟩ = 100 := by
      show Planner.distance ⟨0, 0⟩ ⟨100, 0⟩ = 100
      unfold Planner.distance
      simp only [sub_zero, mul_zero, add_zero]
      rw [sqrt_mul_self (by norm_num)]
    rw [e]; unfold MIN_SEGMENT_LENGTH; norm_num

end Firmware

/-! ## The point count of `planPath` outside the range of `int` -/

namespace Planner

theorem setSpeed_of_mem (p : Planner) (v : ℝ) (h0 : 0 ≤ v) (h1 : v ≤ MAX_SPEED) :
    p.setSpeed v = { p with speed := v } := by
  unfold setSpeed
  simp only []
  rw [if_neg (not_lt.mpr h1), if_neg (not_lt.mpr h0)]

/-- The planner after `setSpeed(1e-6)`: a speed in `(0, MAX_SPEED]`, so it is kept. -/
theorem setSpeed_tiny :
    ((Planner.new DEFAULT_SPEED ACCELERATION).setSpeed (1 / 1000000)).speed = 1 / 1000000 ∧
    ((Planner.new DEFAULT_SPEED ACCELERATION).setSpeed (1 / 1000000)).interpolationInterval
      = 0.01 := by
  rw [setSpeed_of_mem _ _ (by norm_num) (by unfold MAX_SPEED; norm_num)]
  refine ⟨rfl, ?_⟩
  simp only [Planner.new, INTERPOLATION_INTERVAL_MS]; norm_num

/-- At speed `1e-6` mm/s the quotient `d / s / interval` for a 100 mm segment is `10 ^ 10`,
outside the range of `int`: the conversion gives `INT_MAX`, the `int` addition of 1 wraps to
`INT_MIN`, and `numPoints` is raised to 2. -/
theorem numPoints_tiny_speed (p : Planner) (hs : p.speed = 1 / 1000000)
    (hi : p.interpolationInterval = 0.01) : p.numPoints ⟨0, 0⟩ ⟨100, 0⟩ = 2 := by
  have hq : distance ⟨0, 0⟩ ⟨100, 0⟩ / p.speed / p.interpolationInterval = 10000000000 := by
    rw [distance_axis_x 100 (by norm_num), hs, hi]; norm_num
  have ht : truncToInt (10000000000 : ℝ) = INT_MAX := by
    unfold truncToInt
    rw [if_pos (by norm_num)]
  have hw : wrapInt (INT_MAX + 1) = INT_MIN := by decide
  unfold numPoints
  simp only []
  rw [hq, ht, hw]
  decide

/-- At speed `1e-6` mm/s `planPath` from `(0, 0)` to `(100, 0)` pushes three points, 50 mm
apart, and returns 3. -/
theorem planPath_tiny_speed (p : Planner) (hs : p.speed = 1 / 1000000)
    (hi : p.interpolationInterval = 0.01) :
    p.planPath ⟨0, 0⟩ ⟨100, 0⟩ [] = (3, [⟨0, 0⟩, ⟨50, 0⟩, ⟨100, 0⟩]) := by
  have hd : MIN_SEGMENT_LENGTH ≤ distance ⟨0, 0⟩ ⟨100, 0⟩ := by
    rw [distance_axis_x 100 (by norm_num)]; unfold MIN_SEGMENT_LENGTH; norm_num
  rw [planPath_long p _ _ [] hd, numPoints_tiny_speed p hs hi]
  have e : ((2 : ℤ) + 1).toNat = 3 := by decide
  rw [e]
  simp only [List.range_succ, List.range_zero, List.nil_append, List.map_cons, List.map_nil,
    List.singleton_append, List.cons_append, interpolate]
  refine Prod.ext rfl ?_
  simp only [Point2D.mk.injEq, List.cons.injEq, and_true]
  norm_num

/-- C5, as the code runs.  While the quotient `d / s / interval` is below `INT_MAX`, `planPath`
appends and returns `numPoints + 1` points with `numPoints = max 2 (⌊d / s / 0.01⌋ + 1)`; at
50 mm/s over 100 mm that is 202.  But after `setSpeed(1e-6)`, a speed `s > 0`, the quotient for
the 100 mm segment from `(0, 0)` to `(100, 0)` is `10 ^ 10`, the conversion to `int` leaves its
range, and `planPath` appends and returns 3 points where the formula gives `10 ^ 10 + 2`. -/
theorem planPath_count_overflows :
    (∀ (p : Planner) (start finish : Point2D) (q : List Point2D),
      p.interpolationInterval = 0.01 → 0 < p.speed →
      MIN_SEGMENT_LENGTH ≤ distance start finish →
      distance start finish / p.speed / 0.01 < 2147483647 →
      ∃ pts : List Point2D,
        (p.planPath start finish q).2 = q ++ pts ∧
        (pts.length : ℤ) = max 2 (⌊distance start finish / p.speed / 0.01⌋ + 1) + 1 ∧
        (p.planPath start finish q).1
          = max 2 (⌊distance start finish / p.speed / 0.01⌋ + 1) + 1) ∧
    ((Planner.new 50 200).planPath ⟨0, 0⟩ ⟨100, 0⟩ []).1 = 202 ∧
    (0 < ((Planner.new DEFAULT_SPEED ACCELERATION).setSpeed (1 / 1000000)).speed ∧
      ((Planner.new DEFAULT_SPEED ACCELERATION).setSpeed (1 / 1000000)).interpolationInterval
        = 0.01 ∧
      MIN_SEGMENT_LENGTH ≤ distance ⟨0, 0⟩ ⟨100, 0⟩) ∧
    ((Planner.new DEFAULT_SPEED ACCELERATION).setSpeed (1 / 1000000)).planPath
        ⟨0, 0⟩ ⟨100, 0⟩ [] = (3, [⟨0, 0⟩, ⟨50, 0⟩, ⟨100, 0⟩]) ∧
    max 2 (⌊distance ⟨0, 0⟩ ⟨100, 0⟩ /
        ((Planner.new DEFAULT_SPEED ACCELERATION).setSpeed (1 / 1000000)).speed / 0.01⌋ + 1) + 1
      = 10000000002 := by
  obtain ⟨hs, hi⟩ := setSpeed_tiny
  obtain ⟨-, -, hd, -, -, -, -, h50⟩ := planPath_count_at_50
  refine ⟨fun p start finish q hi hs hd hr => planPath_count p start finish q hi hs hd hr,
    by rw [h50]; norm_num, ⟨by rw [hs]; norm_num, hi, hd⟩, planPath_tiny_speed _ hs hi, ?_⟩
  rw [distance_axis_x 100 (by norm_num), hs]
  have e : (100 : ℝ) / (1 / 1000000) / 0.01 = ((10000000000 : ℤ) : ℝ) := by norm_num
  rw [e, Int.floor_intCast]
  decide

/-- C14, as the code runs.  While the quotient `d / s / interval` of the slower planner is below
`INT_MAX`, the number of points `planPath` pushes does not increase with the speed.  But from
`(0, 0)` to `(100, 0)` the count at speed `1e-6` mm/s, where the conversion to `int` leaves its
range, is 3, and the count at the higher speed 50 mm/s is 202: the count rises with the
speed. -/
theorem planPath_count_rises_with_speed :
    (∀ (p1 p2 : Planner) (start finish : Point2D) (q : List Point2D),
      p1.interpolationInterval = 0.01 → p2.interpolationInterval = 0.01 →
      0 < p1.speed → p1.speed ≤ p2.speed →
      distance start finish / p1.speed / 0.01 < 2147483647 →
      (p2.planPath start finish q).1 ≤ (p1.planPath start finish q).1) ∧
    (0 < ((Planner.new DEFAULT_SPEED ACCELERATION).setSpeed (1 / 1000000)).speed ∧
      ((Planner.new DEFAULT_SPEED ACCELERATION).setSpeed (1 / 1000000)).speed
        ≤ (Planner.new 50 200).speed) ∧
    (((Planner.new DEFAULT_SPEED ACCELERATION).setSpeed (1 / 1000000)).planPath
        ⟨0, 0⟩ ⟨100, 0⟩ []).1 = 3 ∧
    (((Planner.new DEFAULT_SPEED ACCELERATION).setSpeed (1 / 1000000)).planPath
        ⟨0, 0⟩ ⟨100, 0⟩ []).2.length = 3 ∧
    ((Planner.new 50 200).planPath ⟨0, 0⟩ ⟨100, 0⟩ []).1 = 202 ∧
    (((Planner.new DEFAULT_SPEED ACCELERATION).setSpeed (1 / 1000000)).planPath
        ⟨0, 0⟩ ⟨100, 0⟩ []).1 < ((Planner.new 50 200).planPath ⟨0, 0⟩ ⟨100, 0⟩ []).1 := by
  obtain ⟨hs, hi⟩ := setSpeed_tiny
  obtain ⟨-, -, -, -, -, -, -, h50⟩ := planPath_count_at_50
  have h202 : ((Planner.new 50 200).planPath ⟨0, 0⟩ ⟨100, 0⟩ []).1 = 202 := by
    rw [h50]; norm_num
  have h3 := planPath_tiny_speed _ hs hi
  refine ⟨?_, ⟨by rw [hs]; norm_num, by rw [hs]; simp only [Planner.new]; norm_num⟩,
    by rw [h3], by rw [h3]; rfl, h202, by rw [h3, h202]; norm_num⟩
  intro p1 p2 start finish q hi1 hi2 hs1 hle hr
  obtain ⟨a1, a2, -, -, e1, e2, hlen⟩ :=
    planPath_count_antitone p1 p2 start finish q hi1 hi2 hs1 hle hr
  rw [e1, e2]
  exact_mod_cast hlen

/-- C29, as the code runs.  While the quotient `d / s / interval` is below `INT_MAX`,
consecutive points of `planPath` are exactly `d / numPoints` apart and that spacing is below
`s * interval`.  But after `setSpeed(1e-6)` the path from `(0, 0)` to `(100, 0)` is the three
points `(0, 0)`, `(50, 0)`, `(100, 0)`: consecutive points are `100 / 2 = 50` mm apart, far
above `s * interval = 1e-8` mm. -/
theorem planPath_spacing_exceeds_speed :
    (∀ (p : Planner) (start finish : Point2D) (q : List Point2D), 0 < p.speed →
      p.interpolationInterval = INTERPOLATION_INTERVAL_MS / 1000 →
      MIN_SEGMENT_LENGTH ≤ distance start finish →
      distance start finish / p.speed / 0.01 < 2147483647 →
      ∃ (n : ℕ) (pts : List Point2D), 2 ≤ n ∧
        p.planPath start finish q = ((n : ℤ) + 1, q ++ pts) ∧ pts.length = n + 1 ∧
        (∀ i : ℕ, i < n → ∃ a b : Point2D, pts[i]? = some a ∧ pts[i + 1]? = some b ∧
          distance a b = distance start finish / (n : ℝ)) ∧
        distance start finish / (n : ℝ) < p.speed * (INTERPOLATION_INTERVAL_MS / 1000)) ∧
    (0 < ((Planner.new DEFAULT_SPEED ACCELERATION).setSpeed (1 / 1000000)).speed ∧
      MIN_SEGMENT_LENGTH ≤ distance ⟨0, 0⟩ ⟨100, 0⟩) ∧
    ((Planner.new DEFAULT_SPEED ACCELERATION).setSpeed (1 / 1000000)).planPath
        ⟨0, 0⟩ ⟨100, 0⟩ [] = (3, [⟨0, 0⟩, ⟨50, 0⟩, ⟨100, 0⟩]) ∧
    (distance ⟨0, 0⟩ ⟨50, 0⟩ = 50 ∧ distance ⟨50, 0⟩ ⟨100, 0⟩ = 50) ∧
    ((Planner.new DEFAULT_SPEED ACCELERATION).setSpeed (1 / 1000000)).speed
      * (INTERPOLATION_INTERVAL_MS / 1000) = 1 / 100000000 ∧
    ((Planner.new DEFAULT_SPEED ACCELERATION).setSpeed (1 / 1000000)).speed
      * (INTERPOLATION_INTERVAL_MS / 1000) < distance ⟨0, 0⟩ ⟨50, 0⟩ := by
  obtain ⟨hs, hi⟩ := setSpeed_tiny
  obtain ⟨-, -, hd, -⟩ := planPath_count_at_50
  have hsi : ((Planner.new DEFAULT_SPEED ACCELERATION).setSpeed (1 / 1000000)).speed
      * (INTERPOLATION_INTERVAL_MS / 1000) = 1 / 100000000 := by
    rw [hs]; unfold INTERPOLATION_INTERVAL_MS; norm_num
  have h50 : distance ⟨50, 0⟩ ⟨100, 0⟩ = 50 := by
    unfold distance
    have e : ((100 : ℝ) - 50) * (100 - 50) + (0 - 0) * (0 - 0) = 50 * 50 := by norm_num
    simp only []
    rw [e, sqrt_mul_self (by norm_num)]
  refine ⟨fun p start finish q hs hi hd hr =>
      planPath_spacing_below_speed p start finish q hs hi hd hr,
    ⟨by rw [hs]; norm_num, hd⟩, planPath_tiny_speed _ hs hi,
    ⟨distance_axis_x 50 (by norm_num), h50⟩, hsi, ?_⟩
  rw [hsi, distance_axis_x 50 (by norm_num)]
  norm_num

end Planner

/-! ## binary32 rounding -/

theorem roundHalfEven_of_near (q : ℝ) (m : ℤ) (h : |q - m| < 1 / 2) : roundHalfEven q = m := by
  obtain ⟨h1, h2⟩ := abs_lt.mp h
  unfold roundHalfEven
  by_cases hq : (m : ℝ) ≤ q
  · have hfl : ⌊q⌋ = m := Int.floor_eq_iff.mpr ⟨hq, by linarith⟩
    have hfr : Int.fract q < 1 / 2 := by
      rw [Int.fract, hfl]; linarith
    rw [if_pos hfr, hfl]
  · push_neg at hq
    have hfl : ⌊q⌋ = m - 1 := Int.floor_eq_iff.mpr ⟨by push_cast; linarith, by push_cast; linarith⟩
    have hfr : Int.fract q > 1 / 2 := by
      rw [Int.fract, hfl]; push_cast; linarith
    rw [if_neg (by linarith), if_pos hfr, hfl]
    ring

theorem roundHalfEven_of_tie_odd (q : ℝ) (m : ℤ) (hq : q = m + 1 / 2) (hodd : ¬ Even m) :
    roundHalfEven q = m + 1 := by
  have hfl : ⌊q⌋ = m := Int.floor_eq_iff.mpr ⟨by rw [hq]; linarith, by rw [hq]; linarith⟩
  have hfr : Int.fract q = 1 / 2 := by
    rw [Int.fract, hfl, hq]; ring
  unfold roundHalfEven
  rw [if_neg (by rw [hfr]; exact lt_irrefl _), if_neg (by rw [hfr]; exact lt_irrefl _), hfl,
    if_neg hodd]

/-- The exponent `roundBinary32` uses for a value with `2 ^ e ≤ |x| < 2 ^ (e + 1)`. -/
theorem log_two_abs (x : ℝ) (e : ℤ) (hlo : (2 : ℝ) ^ e ≤ |x|) (hhi : |x| < (2 : ℝ) ^ (e + 1)) :
    Int.log 2 |x| = e := by
  have hpos : 0 < |x| := lt_of_lt_of_le (by positivity) hlo
  have h1 : e ≤ Int.log 2 |x| :=
    (Int.zpow_le_iff_le_log (by norm_num) hpos).mp (by exact_mod_cast hlo)
  have h2 : Int.log 2 |x| < e + 1 :=
    (Int.lt_zpow_iff_log_lt (by norm_num) hpos).mp (by exact_mod_cast hhi)
  omega

theorem roundBinary32_zero : roundBinary32 0 = 0 := by
  unfold roundBinary32
  rw [if_pos rfl]

/-- A value within less than half a spacing of the binary32 value `m * 2 ^ (e - 23)` rounds
to it. -/
theorem roundBinary32_of_near (x : ℝ) (e m : ℤ) (hlo : (2 : ℝ) ^ e ≤ |x|)
    (hhi : |x| < (2 : ℝ) ^ (e + 1)) (h : |x / (2 : ℝ) ^ (e - 23) - m| < 1 / 2) :
    roundBinary32 x = (m : ℝ) * (2 : ℝ) ^ (e - 23) := by
  have hne : x ≠ 0 := by
    intro h0
    rw [h0, abs_zero] at hlo
    exact absurd hlo (not_le.mpr (by positivity))
  unfold roundBinary32
  rw [if_neg hne, log_two_abs x e hlo hhi, roundHalfEven_of_near _ m h]

/-- A value halfway between two binary32 values rounds to the one with the even
significand. -/
theorem roundBinary32_of_tie_odd (x : ℝ) (e m : ℤ) (hlo : (2 : ℝ) ^ e ≤ |x|)
    (hhi : |x| < (2 : ℝ) ^ (e + 1)) (h : x / (2 : ℝ) ^ (e - 23) = m + 1 / 2)
    (hodd : ¬ Even m) :
    roundBinary32 x = ((m + 1 : ℤ) : ℝ) * (2 : ℝ) ^ (e - 23) := by
  have hne : x ≠ 0 := by
    intro h0
    rw [h0, abs_zero] at hlo
    exact absurd hlo (not_le.mpr (by positivity))
  unfold roundBinary32
  rw [if_neg hne, log_two_abs x e hlo hhi, roundHalfEven_of_tie_odd _ m h hodd]

/-- Rounding never turns a non-zero value into zero. -/
theorem roundBinary32_ne_zero (x : ℝ) (hx : x ≠ 0) : roundBinary32 x ≠ 0 := by
  have hpos : 0 < |x| := abs_pos.mpr hx
  have hlo : (2 : ℝ) ^ (Int.log 2 |x|) ≤ |x| := by
    have := Int.zpow_log_le_self (b := 2) (by norm_num) hpos
    exact_mod_cast this
  have hu : (0 : ℝ) < (2 : ℝ) ^ (Int.log 2 |x| - 23) := by positivity
  have hq : (8388608 : ℝ) ≤ |x / (2 : ℝ) ^ (Int.log 2 |x| - 23)| := by
    rw [abs_div, abs_of_pos hu, le_div_iff₀ hu]
    have e : (8388608 : ℝ) * (2 : ℝ) ^ (Int.log 2 |x| - 23) = (2 : ℝ) ^ (Int.log 2 |x|) := by
      rw [zpow_sub₀ (by norm_num)]
      norm_num
      field_simp
    rw [e]; exact hlo
  unfold roundBinary32
  rw [if_neg hx]
  apply mul_ne_zero _ hu.ne.symm
  have hr : roundHalfEven (x / (2 : ℝ) ^ (Int.log 2 |x| - 23)) ≠ 0 := by
    have hfl := Int.floor_le (x / (2 : ℝ) ^ (Int.log 2 |x| - 23))
    have hfl2 := Int.lt_floor_add_one (x / (2 : ℝ) ^ (Int.log 2 |x| - 23))
    rcases le_abs'.mp hq with h | h
    · have h3 : ⌊x / (2 : ℝ) ^ (Int.log 2 |x| - 23)⌋ ≤ -8388608 := by
        have : (⌊x / (2 : ℝ) ^ (Int.log 2 |x| - 23)⌋ : ℝ) ≤ -8388608 := by linarith
        exact_mod_cast this
      unfold roundHalfEven
      split_ifs <;> omega
    · have h3 : 8388608 ≤ ⌊x / (2 : ℝ) ^ (Int.log 2 |x| - 23)⌋ :=
        Int.le_floor.mpr (by exact_mod_cast h)
      unfold roundHalfEven
      split_ifs <;> omega
  exact_mod_cast hr

theorem roundBinary32_one : roundBinary32 1 = 1 := by
  rw [roundBinary32_of_near 1 0 8388608 (by norm_num) (by norm_num) (by norm_num)]
  norm_num

/-- The quotient `(float)n / (float)n` is 1 for every non-zero `n`. -/
theorem roundBinary32_div_self (n : ℤ) (hn : n ≠ 0) :
    roundBinary32 (roundBinary32 (n : ℝ) / roundBinary32 (n : ℝ)) = 1 := by
  rw [div_self (roundBinary32_ne_zero _ (by exact_mod_cast hn)), roundBinary32_one]

/-! ## The normalisation loops of `moveToAngle` in binary32 -/

/-- Around `1e10` binary32 values are 1024 apart, so `1e10 - 360` rounds back to `1e10`. -/
theorem roundBinary32_stall : roundBinary32 (10000000000 - 360) = 10000000000 := by
  rw [roundBinary32_of_near (10000000000 - 360) 33 9765625
    (by rw [abs_of_pos (by norm_num)]; norm_num)
    (by rw [abs_of_pos (by norm_num)]; norm_num)
    (by rw [abs_lt]; constructor <;> norm_num)]
  norm_num

theorem roundBinary32_stall_neg : roundBinary32 (-10000000000 + 360) = -10000000000 := by
  rw [roundBinary32_of_near (-10000000000 + 360) 33 (-9765625)
    (by rw [abs_of_neg (by norm_num)]; norm_num)
    (by rw [abs_of_neg (by norm_num)]; norm_num)
    (by rw [abs_lt]; constructor <;> norm_num)]
  norm_num

theorem subWhileAtLeast360F_stall (fuel : ℕ) :
    subWhileAtLeast360F fuel 10000000000 = none := by
  induction fuel with
  | zero => simp only [subWhileAtLeast360F]; rw [if_pos (by norm_num)]
  | succ n ih =>
    simp only [subWhileAtLeast360F]
    rw [if_pos (by norm_num), roundBinary32_stall, ih]

theorem addWhileNegativeF_stall (fuel : ℕ) :
    addWhileNegativeF fuel (-10000000000) = none := by
  induction fuel with
  | zero => simp only [addWhileNegativeF]; rw [if_pos (by norm_num)]
  | succ n ih =>
    simp only [addWhileNegativeF]
    rw [if_pos (by norm_num), roundBinary32_stall_neg, ih]

theorem addWhileNegativeF_of_nonneg (fuel : ℕ) (a : ℝ) (h : 0 ≤ a) :
    addWhileNegativeF fuel a = some a := by
  cases fuel <;> simp only [addWhileNegativeF] <;> rw [if_neg (not_lt.mpr h)]

namespace StepperMotor

/-- C16, as the code runs in binary32.  `moveToAngle(360)` records target angle 0 and target
step 0, after one iteration of the second loop.  But for the angle `1e10` (a binary32 value)
the loop `while (angle >= 360.0f) angle -= 360.0f;` makes no progress, because `1e10 - 360`
rounds back to `1e10`: `moveToAngle(1e10)` has not returned after any number of iterations, and
likewise `moveToAngle(-1e10)` in the first loop.  Over the reals the loops do terminate, with
the target `a - 360 * ⌊a / 360⌋`. -/
theorem moveToAngle_stalls_on_large_angle (m : StepperMotor) :
    (∀ fuel : ℕ, moveToAngleF fuel m 10000000000 = none) ∧
    (∀ fuel : ℕ, moveToAngleF fuel m (-10000000000) = none) ∧
    (roundBinary32 (10000000000 - 360) = 10000000000 ∧
      roundBinary32 (-10000000000 + 360) = -10000000000) ∧
    (∃ m2 : StepperMotor, moveToAngleF 1 m 360 = some m2 ∧ m2.targetAngle = 0 ∧
      m2.targetStep = 0) ∧
    (∀ a : ℝ, (m.moveToAngle a).targetAngle = a - 360 * ⌊a / 360⌋) := by
  refine ⟨?_, ?_, ⟨roundBinary32_stall, roundBinary32_stall_neg⟩, ?_, ?_⟩
  · intro fuel
    unfold moveToAngleF
    rw [addWhileNegativeF_of_nonneg fuel _ (by norm_num)]
    simp only [subWhileAtLeast360F_stall fuel]
  · intro fuel
    unfold moveToAngleF
    simp only [addWhileNegativeF_stall fuel]
  · have e1 : addWhileNegativeF 1 360 = some 360 :=
      addWhileNegativeF_of_nonneg 1 360 (by norm_num)
    have e2 : subWhileAtLeast360F 1 360 = some 0 := by
      simp only [subWhileAtLeast360F]
      rw [if_pos le_rfl, sub_self, roundBinary32_zero, if_neg (by norm_num)]
    have e3 : truncToInt (roundBinary32 (0 * roundBinary32 STEPS_PER_DEGREE)) = 0 := by
      rw [zero_mul, roundBinary32_zero, Planner.truncToInt_of_nonneg le_rfl (by norm_num)]
      exact Int.floor_zero
    unfold moveToAngleF
    simp only [e1, e2, e3]
    exact ⟨_, rfl, rfl, rfl⟩
  · intro a
    rw [moveToAngle_eq]
    exact normalize360_eq_floor a

end StepperMotor

/-! ## The last point of `planPath` in binary32 -/

/-- The binary32 value of the literal `-287.4`. -/
theorem roundBinary32_start : roundBinary32 (-287.4) = -9417523 / 32768 := by
  rw [roundBinary32_of_near (-287.4) 8 (-9417523)
    (by rw [abs_of_neg (by norm_num)]; norm_num)
    (by rw [abs_of_neg (by norm_num)]; norm_num)
    (by rw [abs_lt]; constructor <;> norm_num)]
  norm_num

/-- `300 - (-287.4f)` lies halfway between two binary32 values and rounds up, to the even
significand. -/
theorem roundBinary32_span :
    roundBinary32 (300 - -9417523 / 32768) = 9623962 / 16384 := by
  rw [roundBinary32_of_tie_odd (300 - -9417523 / 32768) 9 9623961
    (by rw [abs_of_pos (by norm_num)]; norm_num)
    (by rw [abs_of_pos (by norm_num)]; norm_num)
    (by norm_num) (by decide)]
  norm_num

theorem roundBinary32_span_self : roundBinary32 (9623962 / 16384) = 9623962 / 16384 := by
  rw [roundBinary32_of_near (9623962 / 16384) 9 9623962
    (by rw [abs_of_pos (by norm_num)]; norm_num)
    (by rw [abs_of_pos (by norm_num)]; norm_num)
    (by rw [abs_lt]; constructor <;> norm_num)]
  norm_num

theorem roundBinary32_last : roundBinary32 (9830401 / 32768) = 9830401 / 32768 := by
  rw [roundBinary32_of_near (9830401 / 32768) 8 9830401
    (by rw [abs_of_pos (by norm_num)]; norm_num)
    (by rw [abs_of_pos (by norm_num)]; norm_num)
    (by rw [abs_lt]; constructor <;> norm_num)]
  norm_num

theorem roundBinary32_300 : roundBinary32 300 = 300 := by
  rw [roundBinary32_of_near 300 8 9830400
    (by rw [abs_of_pos (by norm_num)]; norm_num)
    (by rw [abs_of_pos (by norm_num)]; norm_num)
    (by rw [abs_lt]; constructor <;> norm_num)]
  norm_num

theorem roundBinary32_90000 : roundBinary32 90000 = 90000 := by
  rw [roundBinary32_of_near 90000 16 11520000
    (by rw [abs_of_pos (by norm_num)]; norm_num)
    (by rw [abs_of_pos (by norm_num)]; norm_num)
    (by rw [abs_lt]; constructor <;> norm_num)]
  norm_num

/-- A value whose square root is within half a spacing of `m * 2 ^ (-15)`, in `[256, 512)`. -/
theorem roundBinary32_sqrt (y : ℝ) (m : ℤ) (hm0 : (8388609 : ℝ) ≤ m) (hm1 : (m : ℝ) < 16777215)
    (hlo : ((m : ℝ) - 1 / 2) ^ 2 < y * 1073741824)
    (hhi : y * 1073741824 < ((m : ℝ) + 1 / 2) ^ 2) :
    roundBinary32 (sqrt y) = (m : ℝ) / 32768 := by
  have hy : 0 ≤ y := by nlinarith [sq_nonneg ((m : ℝ) - 1 / 2)]
  have h1 : ((m : ℝ) - 1 / 2) / 32768 < sqrt y := by
    apply lt_sqrt_of_sq_lt
    rw [div_pow]
    rw [div_lt_iff₀ (by norm_num)]
    linarith
  have h2 : sqrt y < ((m : ℝ) + 1 / 2) / 32768 := by
    rw [sqrt_lt' (by linarith)]
    rw [div_pow, lt_div_iff₀ (by norm_num)]
    linarith
  have hpos : 0 < sqrt y := lt_trans (by linarith) h1
  have e : (2 : ℝ) ^ ((8 : ℤ) - 23) = 1 / 32768 := by norm_num
  rw [roundBinary32_of_near (sqrt y) 8 m
    (by rw [abs_of_pos hpos]; norm_num; linarith)
    (by rw [abs_of_pos hpos]; norm_num; linarith)
    (by rw [e, abs_lt]; constructor <;> linarith)]
  rw [e]; ring

namespace Kinematics

/-- The start `(-287.4f, 0)` has radius `287.4f` in binary32. -/
theorem radiusF_start : radiusF ⟨-9417523 / 32768, 0⟩ = 9417523 / 32768 := by
  have hsq : roundBinary32 ((-9417523 / 32768 : ℝ) * (-9417523 / 32768)) = 10572641 / 128 := by
    rw [roundBinary32_of_near _ 16 10572641
      (by rw [abs_of_pos (by norm_num)]; norm_num)
      (by rw [abs_of_pos (by norm_num)]; norm_num)
      (by rw [abs_lt]; constructor <;> norm_num)]
    norm_num
  have hsum : roundBinary32 ((10572641 / 128 : ℝ) + 0) = 10572641 / 128 := by
    rw [add_zero, roundBinary32_of_near _ 16 10572641
      (by rw [abs_of_pos (by norm_num)]; norm_num)
      (by rw [abs_of_pos (by norm_num)]; norm_num)
      (by rw [abs_lt]; constructor <;> norm_num)]
    norm_num
  unfold radiusF
  simp only [mul_zero, roundBinary32_zero]
  rw [hsq, hsum]
  have h := roundBinary32_sqrt (10572641 / 128) 9417523 (by norm_num) (by norm_num)
    (by norm_num) (by norm_num)
  rw [h]; norm_num

/-- The target `(300, 0)` has radius 300 in binary32. -/
theorem radiusF_target : radiusF ⟨300, 0⟩ = 300 := by
  have hsq : roundBinary32 ((300 : ℝ) * 300) = 90000 := by
    have e : (300 : ℝ) * 300 = 90000 := by norm_num
    rw [e, roundBinary32_90000]
  unfold radiusF
  simp only [mul_zero, roundBinary32_zero]
  rw [hsq, add_zero, roundBinary32_90000]
  have e : (90000 : ℝ) = 300 * 300 := by norm_num
  rw [e, sqrt_mul_self (by norm_num), roundBinary32_300]

/-- The point `(300 + 2 ^ (-15), 0)` has radius `300 + 2 ^ (-15)` in binary32. -/
theorem radiusF_last : radiusF ⟨9830401 / 32768, 0⟩ = 9830401 / 32768 := by
  have hsq : roundBinary32 ((9830401 / 32768 : ℝ) * (9830401 / 32768)) = 11520002 / 128 := by
    rw [roundBinary32_of_near _ 16 11520002
      (by rw [abs_of_pos (by norm_num)]; norm_num)
      (by rw [abs_of_pos (by norm_num)]; norm_num)
      (by rw [abs_lt]; constructor <;> norm_num)]
    norm_num
  have hsum : roundBinary32 ((11520002 / 128 : ℝ) + 0) = 11520002 / 128 := by
    rw [add_zero, roundBinary32_of_near _ 16 11520002
      (by rw [abs_of_pos (by norm_num)]; norm_num)
      (by rw [abs_of_pos (by norm_num)]; norm_num)
      (by rw [abs_lt]; constructor <;> norm_num)]
    norm_num
  unfold radiusF
  simp only [mul_zero, roundBinary32_zero]
  rw [hsq, hsum]
  have h := roundBinary32_sqrt (11520002 / 128) 9830401 (by norm_num) (by norm_num)
    (by norm_num) (by norm_num)
  rw [h]; norm_num

theorem configured_reachF :
    roundBinary32 (configured.L1 + configured.L2) = 300 ∧
    |roundBinary32 (configured.L1 - configured.L2)| = 0 := by
  have e1 : configured.L1 + configured.L2 = 300 := by
    simp only [configured, ARM_LENGTH_1, ARM_LENGTH_2]; norm_num
  have e2 : configured.L1 - configured.L2 = 0 := by
    simp only [configured, ARM_LENGTH_1, ARM_LENGTH_2]; norm_num
  rw [e1, e2, roundBinary32_300, roundBinary32_zero, abs_zero]
  exact ⟨rfl, rfl⟩

end Kinematics

namespace Planner

/-- The last point of the interpolation loop (`i = numPoints`, so `t = 1`) from `(-287.4f, 0)`
to `(300, 0)` in binary32, for every `numPoints`. -/
theorem interpolateF_last (n : ℤ) (hn : n ≠ 0) :
    interpolateF ⟨-9417523 / 32768, 0⟩ ⟨300, 0⟩ n n = ⟨9830401 / 32768, 0⟩ := by
  unfold interpolateF
  simp only [roundBinary32_div_self n hn, one_mul, sub_self, roundBinary32_zero, add_zero]
  rw [roundBinary32_span, roundBinary32_span_self]
  have e : (-9417523 / 32768 : ℝ) + 9623962 / 16384 = 9830401 / 32768 := by norm_num
  rw [e, roundBinary32_last]

/-- C23, as the code runs in binary32.  In exact arithmetic every point `planPath` emits
between two reachable points of the configured arm is reachable, and `inverse` succeeds on it.
But the code computes the last point as `start + 1.0f * (end - start)`, not as `end`.  After a
move to `(-287.4f, 0)`, which passes the reach test, a `MOVE_TO` to `(300, 0)` passes it too,
and whatever `numPoints` is, the last point pushed is `(300 + 2 ^ (-15), 0)`: its radius
exceeds `L1 + L2 = 300`, so `inverse` returns false on a point the dispatch loop enqueued. -/
theorem planPath_last_point_unreachable :
    (∀ (p : Planner) (start finish : Point2D),
      Kinematics.configured.isReachable start = true →
      Kinematics.configured.isReachable finish = true →
      ∀ pt ∈ (p.planPath start finish []).2,
        Kinematics.configured.isReachable pt = true ∧
        (Kinematics.configured.inverse pt).isSome = true) ∧
    Kinematics.configured.isReachableF ⟨roundBinary32 (-287.4), 0⟩ = true ∧
    Kinematics.configured.isReachableF ⟨300, 0⟩ = true ∧
    (∀ n : ℤ, 2 ≤ n →
      interpolateF ⟨roundBinary32 (-287.4), 0⟩ ⟨300, 0⟩ n n = ⟨9830401 / 32768, 0⟩) ∧
    (9830401 / 32768 : ℝ) = 300 + 1 / 32768 ∧
    Kinematics.radiusF ⟨9830401 / 32768, 0⟩ = 300 + 1 / 32768 ∧
    Kinematics.configured.isReachableF ⟨9830401 / 32768, 0⟩ = false ∧
    Kinematics.configured.inverseReturnsF ⟨9830401 / 32768, 0⟩ = false := by
  obtain ⟨hmax, hmin⟩ := Kinematics.configured_reachF
  have hval : (9830401 / 32768 : ℝ) = 300 + 1 / 32768 := by norm_num
  refine ⟨?_, ?_, ?_, ?_, hval, ?_, ?_, ?_⟩
  · intro p start finish hs hf pt hpt
    have h := planPath_reachable p start finish pt hs hf hpt
    exact ⟨h, (Kinematics.configured_inverse_isSome pt).mpr h⟩
  · rw [roundBinary32_start]
    simp only [Kinematics.isReachableF, Kinematics.radiusF_start, hmax, hmin,
      decide_eq_true_eq]
    constructor <;> norm_num
  · simp only [Kinematics.isReachableF, Kinematics.radiusF_target, hmax, hmin,
      decide_eq_true_eq]
    constructor <;> norm_num
  · intro n hn
    rw [roundBinary32_start]
    exact interpolateF_last n (by omega)
  · rw [Kinematics.radiusF_last]; exact hval
  · simp only [Kinematics.isReachableF, Kinematics.radiusF_last, hmax, hmin,
      decide_eq_false_iff_not, not_and_or]
    left; norm_num
  · simp only [Kinematics.inverseReturnsF, Kinematics.radiusF_last, hmax, hmin]
    rw [if_pos (Or.inl (by norm_num))]

end Planner

end PlasmArm
